import Mathlib

/-!
# Page tree resolution of PdfForQt (`src/PdfForQtLib/sources/pdfpage.cpp`)

A shallow embedding of `PDFPageInheritableAttributes::parse`, `PDFPage::parse` and
`PDFPage::parseImpl`, of the text flow editor of
`src/Pdf4QtLib/sources/pdfdocumenttextflow.h` and of `PDFRenderer::render` of
`src/PdfForQtLib/sources/pdfrenderer.cpp`, followed by theorems about them.

Conventions of the embedding:

* `PDFInteger` (a 64-bit signed integer) is `Int`.  The only arithmetic the page tree code
  performs on it is `rotation / 360` and `rotation - fullCircles * 360`; both stay between
  `0` and `rotation`, so no machine overflow can occur and `Int` is exact.  C++ integer
  division truncates toward zero, which is `Int.tdiv`.
* `PDFReal` coordinates are exact integers on a fixed grid.  The page tree code only copies
  rectangles, compares them and tests `isValid`; no statement below depends on rounding.
* A thrown `PDFParserException` is a value of the type `PDFParserException`, one constructor
  per message text used in `pdfpage.cpp`.
* The recursion of `parseImpl` is driven by a fuel counter; `PDFPage.parse` supplies a fuel
  that the development proves sufficient for every document.
-/

namespace pdf

/-! ## Object model -/

/-- Identity of an indirect object: object number and generation. -/
structure PDFObjectReference where
  objectNumber : Int
  generation : Int
  deriving DecidableEq, Repr

/-- Modelled from the spec: the object graph value type (`pdfobject.h` is not part of the
sources at hand).  The spec lists the alternatives Null, Boolean, Number, Name, String,
Array, Dictionary, Reference and Stream; numbers are split into integers and reals because
the code asks `readInteger` for `Rotate`.  A dictionary is a sequence of key/value entries. -/
inductive PDFObject where
  | null
  | bool (value : Bool)
  | int (value : Int)
  | real (value : Int)
  | string (value : String)
  | name (value : String)
  | array (items : List PDFObject)
  | dictionary (entries : List (String × PDFObject))
  | stream (entries : List (String × PDFObject)) (content : String)
  | reference (ref : PDFObjectReference)
  deriving Repr

/-- Dictionary contents: key/value entries in file order. -/
abbrev PDFDictionary := List (String × PDFObject)

/-- Modelled from the spec: `PDFDictionary::hasKey`, true when some entry carries the key. -/
def PDFDictionary.hasKey (dictionary : PDFDictionary) (key : String) : Bool :=
  dictionary.any (fun entry => entry.1 == key)

/-- Modelled from the spec: `PDFDictionary::get`, the value of the first entry with the key,
and the null object when the key is absent. -/
def PDFDictionary.get : PDFDictionary → String → PDFObject
  | [], _ => PDFObject.null
  | entry :: rest, key => if entry.1 == key then entry.2 else PDFDictionary.get rest key

/-- Modelled from the spec: the document as an object storage, a finite table from references
to objects. -/
structure PDFDocument where
  objects : List (PDFObjectReference × PDFObject)

/-- Modelled from the spec: the storage lookup behind `getObject`, the object stored under a
reference and the null object for a reference that is not stored. -/
def PDFDocument.lookup : List (PDFObjectReference × PDFObject) → PDFObjectReference → PDFObject
  | [], _ => PDFObject.null
  | entry :: rest, ref => if entry.1 = ref then entry.2 else PDFDocument.lookup rest ref

/-- Modelled from the spec: the object graph accessor `getObject`.  Resolution is one hop: a
reference is looked up in the storage (a dangling reference gives the null object), every
other object is returned as it is. -/
def PDFDocument.getObject (document : PDFDocument) : PDFObject → PDFObject
  | PDFObject.reference ref => PDFDocument.lookup document.objects ref
  | object => object

/-! ## Rectangles and the data loader -/

/-- Qt rectangle `QRectF`: top-left corner, width and height. -/
structure QRectF where
  x : Int
  y : Int
  width : Int
  height : Int
  deriving DecidableEq, Repr

/-- The default constructed (null) rectangle. -/
def QRectF.null : QRectF := ⟨0, 0, 0, 0⟩

/-- `QRectF::isValid`: width and height are both positive. -/
def QRectF.isValid (rect : QRectF) : Bool :=
  decide (0 < rect.width) && decide (0 < rect.height)

/-- `QRectF::transposed`: width and height exchanged, same top-left corner. -/
def QRectF.transposed (rect : QRectF) : QRectF :=
  ⟨rect.x, rect.y, rect.height, rect.width⟩

/-- Modelled from the spec: the number read for one coordinate of a rectangle, the value of
the dereferenced object when it is an integer or a real. -/
def PDFDocument.readNumber (document : PDFDocument) (object : PDFObject) : Option Int :=
  match document.getObject object with
  | PDFObject.int value => some value
  | PDFObject.real value => some value
  | _ => none

/-- Modelled from the spec: `PDFDocumentDataLoaderDecorator::readInteger`.  The dereferenced
object's value when it is an integer, the default otherwise. -/
def PDFDocument.readInteger (document : PDFDocument) (object : PDFObject) (defaultValue : Int) :
    Int :=
  match document.getObject object with
  | PDFObject.int value => value
  | _ => defaultValue

/-- Modelled from the spec: `PDFDocumentDataLoaderDecorator::readRectangle`.  The dereferenced
object must be an array of exactly four numbers, two opposite corners; anything else gives
the default rectangle. -/
def PDFDocument.readRectangle (document : PDFDocument) (object : PDFObject)
    (defaultValue : QRectF) : QRectF :=
  match document.getObject object with
  | PDFObject.array [a, b, c, d] =>
    match document.readNumber a, document.readNumber b, document.readNumber c,
        document.readNumber d with
    | some x0, some y0, some x1, some y1 =>
      ⟨min x0 x1, min y0 y1, max x0 x1 - min x0 x1, max y0 y1 - min y0 y1⟩
    | _, _, _, _ => defaultValue
  | _ => defaultValue

/-! ## Errors -/

/-- The exceptions thrown by the page tree code, one constructor per message. -/
inductive PDFParserException where
  | expectedDictionary
  | expectedValidTypeItem
  | expectedValidKids
  | detectedCycles
  | invalidPageRotation
  deriving DecidableEq, Repr

/-- The message text carried by the exception. -/
def PDFParserException.message : PDFParserException → String
  | expectedDictionary => "Expected dictionary in page tree."
  | expectedValidTypeItem => "Expected valid type item in page tree."
  | expectedValidKids => "Expected valid kids in page tree."
  | detectedCycles => "Detected cycles in page tree."
  | invalidPageRotation => "Invalid page rotation."

/-! ## Inheritable attributes -/

/-- Page rotation, the four canonical values. -/
inductive PageRotation where
  | None
  | Rotate90
  | Rotate180
  | Rotate270
  deriving DecidableEq, Repr

/-- Degrees of a canonical rotation. -/
def PageRotation.degrees : PageRotation → Int
  | None => 0
  | Rotate90 => 90
  | Rotate180 => 180
  | Rotate270 => 270

/-- The attribute snapshot handed down the page tree (`PDFPageInheritableAttributes`). -/
structure PDFPageInheritableAttributes where
  m_mediaBox : QRectF
  m_cropBox : QRectF
  m_resources : PDFObject
  m_pageRotation : Option PageRotation

/-- The default constructed snapshot: null boxes, null resources, no rotation. -/
def PDFPageInheritableAttributes.default : PDFPageInheritableAttributes :=
  ⟨QRectF.null, QRectF.null, PDFObject.null, none⟩

/-- Lines 55-59: subtraction of the full circles, with C++ truncating division. -/
def normalizeRotation (rotation : Int) : Int :=
  let fullCircles := Int.tdiv rotation 360
  if fullCircles ≠ 0 then rotation - fullCircles * 360 else rotation

/-- Lines 61-87: the `switch` over the normalised rotation. -/
def rotationFromInteger (rotation : Int) : Except PDFParserException PageRotation :=
  if rotation = 0 then Except.ok PageRotation.None
  else if rotation = 90 then Except.ok PageRotation.Rotate90
  else if rotation = 180 then Except.ok PageRotation.Rotate180
  else if rotation = 270 then Except.ok PageRotation.Rotate270
  else Except.error PDFParserException.invalidPageRotation

/-- `PDFPageInheritableAttributes::parse` (lines 25-92). -/
def PDFPageInheritableAttributes.parse (templateAttributes : PDFPageInheritableAttributes)
    (dictionary : PDFObject) (document : PDFDocument) :
    Except PDFParserException PDFPageInheritableAttributes :=
  let result := templateAttributes
  match document.getObject dictionary with
  | PDFObject.dictionary entries =>
    let dict : PDFDictionary := entries
    let result :=
      if dict.hasKey "MediaBox" then
        { result with m_mediaBox := document.readRectangle (dict.get "MediaBox") result.m_mediaBox }
      else result
    let result :=
      if dict.hasKey "CropBox" then
        { result with m_cropBox := document.readRectangle (dict.get "CropBox") result.m_cropBox }
      else result
    let result :=
      if dict.hasKey "Resources" then { result with m_resources := dict.get "Resources" }
      else result
    if dict.hasKey "Rotate" then
      match rotationFromInteger (normalizeRotation (document.readInteger (dict.get "Rotate") 0)) with
      | Except.ok rotation => Except.ok { result with m_pageRotation := some rotation }
      | Except.error e => Except.error e
    else Except.ok result
  | _ => Except.ok result

/-- `PDFPageInheritableAttributes::getPageRotation` (lines 94-101). -/
def PDFPageInheritableAttributes.getPageRotation (attributes : PDFPageInheritableAttributes) :
    PageRotation :=
  match attributes.m_pageRotation with
  | some rotation => rotation
  | none => PageRotation.None

/-! ## Pages and the page tree walk -/

/-- A resolved page (`PDFPage`). -/
structure PDFPage where
  m_mediaBox : QRectF
  m_cropBox : QRectF
  m_bleedBox : QRectF
  m_trimBox : QRectF
  m_artBox : QRectF
  m_pageRotation : PageRotation
  m_resources : PDFObject
  m_contents : PDFObject

/-- How a call of `parseImpl` ends.  `pages` and `visitedReferences` are passed by reference in
the source, so both a normal return and a thrown exception leave them in some state; the
third alternative is the embedding's own and means that the fuel ran out. -/
inductive ParseOutcome where
  | done (pages : List PDFPage) (visitedReferences : List PDFObjectReference)
  | thrown (exception : PDFParserException) (pages : List PDFPage)
      (visitedReferences : List PDFObjectReference)
  | outOfFuel

/-- Lines 189-207: the page built at a `Page` leaf from the resolved snapshot and the leaf's
own dictionary. -/
def PDFPage.fromLeaf (document : PDFDocument)
    (currentInheritableAttributes : PDFPageInheritableAttributes) (dictionary : PDFDictionary) :
    PDFPage :=
  let mediaBox := currentInheritableAttributes.m_mediaBox
  let cropBox := currentInheritableAttributes.m_cropBox
  let cropBox := if !cropBox.isValid then mediaBox else cropBox
  { m_mediaBox := mediaBox
    m_cropBox := cropBox
    m_bleedBox := document.readRectangle (dictionary.get "BleedBox") cropBox
    m_trimBox := document.readRectangle (dictionary.get "TrimBox") cropBox
    m_artBox := document.readRectangle (dictionary.get "ArtBox") cropBox
    m_pageRotation := currentInheritableAttributes.getPageRotation
    m_resources := document.getObject currentInheritableAttributes.m_resources
    m_contents := document.getObject (dictionary.get "Contents") }

/-- Lines 162-180: the loop over the `Kids` array.  `descend` is the recursive call of
`parseImpl` with the current node's snapshot; `visitedReferences` is the one set shared by
the whole walk (a list, the newest reference first). -/
def PDFPage.parseKids
    (descend : List PDFPage → List PDFObjectReference → PDFObject → ParseOutcome) :
    List PDFPage → List PDFObjectReference → List PDFObject → ParseOutcome
  | pages, visitedReferences, [] => ParseOutcome.done pages visitedReferences
  | pages, visitedReferences, kid :: rest =>
    match kid with
    | PDFObject.reference ref =>
      if ref ∈ visitedReferences then
        ParseOutcome.thrown PDFParserException.detectedCycles pages visitedReferences
      else
        match descend pages (ref :: visitedReferences) kid with
        | ParseOutcome.done pages1 visited1 => PDFPage.parseKids descend pages1 visited1 rest
        | other => other
    | _ => ParseOutcome.thrown PDFParserException.expectedValidKids pages visitedReferences

/-- `PDFPage::parseImpl` (lines 136-223).  One unit of fuel is spent per nesting level. -/
def PDFPage.parseImpl (document : PDFDocument) :
    Nat → List PDFPage → List PDFObjectReference → PDFPageInheritableAttributes → PDFObject →
      ParseOutcome
  | 0, _, _, _, _ => ParseOutcome.outOfFuel
  | fuel + 1, pages, visitedReferences, templateAttributes, root =>
    match document.getObject root with
    | PDFObject.dictionary entries =>
      let dictionary : PDFDictionary := entries
      match document.getObject (dictionary.get "Type") with
      | PDFObject.name typeString =>
        match PDFPageInheritableAttributes.parse templateAttributes root document with
        | Except.error e => ParseOutcome.thrown e pages visitedReferences
        | Except.ok currentInheritableAttributes =>
          if typeString = "Pages" then
            match document.getObject (dictionary.get "Kids") with
            | PDFObject.array kidsArray =>
              PDFPage.parseKids
                (fun pages1 visited1 kid =>
                  PDFPage.parseImpl document fuel pages1 visited1 currentInheritableAttributes kid)
                pages visitedReferences kidsArray
            | _ =>
              ParseOutcome.thrown PDFParserException.expectedValidKids pages visitedReferences
          else if typeString = "Page" then
            ParseOutcome.done
              (pages ++ [PDFPage.fromLeaf document currentInheritableAttributes dictionary])
              visitedReferences
          else
            ParseOutcome.thrown PDFParserException.expectedValidTypeItem pages visitedReferences
      | _ => ParseOutcome.thrown PDFParserException.expectedValidTypeItem pages visitedReferences
    | _ => ParseOutcome.thrown PDFParserException.expectedDictionary pages visitedReferences

/-- Fuel given to the walk by `PDFPage.parse`: two more than the number of stored objects. -/
def PDFDocument.parseFuel (document : PDFDocument) : Nat :=
  document.objects.length + 2

/-- `PDFPage::parse` (lines 103-109).  The walk starts from an empty page list, an empty
visited set and the default snapshot.  A normal return hands the page list to the caller; an
exception leaves `parse` without a value, the pages collected so far are dropped with the
local vector.  `none` stands for exhausted fuel. -/
def PDFPage.parse (document : PDFDocument) (root : PDFObject) :
    Option (Except PDFParserException (List PDFPage)) :=
  match PDFPage.parseImpl document document.parseFuel [] []
      PDFPageInheritableAttributes.default root with
  | ParseOutcome.done pages _ => some (Except.ok pages)
  | ParseOutcome.thrown e _ _ => some (Except.error e)
  | ParseOutcome.outOfFuel => none

/-! ## Page tree shapes

The claims speak about page trees: to state them, a tree shape is laid over the object graph.
A shape records only which references the `Kids` arrays hold and where the leaves are; the
dictionaries stay in the document. -/

/-- Shape of a page tree below a node: a `Page` leaf, or a `Pages` node with the references of
its `Kids` array, in array order, each with the shape below it. -/
inductive PageTree where
  | page
  | pages (kids : List (PDFObjectReference × PageTree))

/-- Number of `Page` leaves of a shape. -/
def PageTree.leafCount : PageTree → Nat
  | PageTree.page => 1
  | PageTree.pages kids => kidsLeafCount kids
where
  /-- Number of `Page` leaves below a list of kids. -/
  kidsLeafCount : List (PDFObjectReference × PageTree) → Nat
    | [] => 0
    | kid :: rest => kid.2.leafCount + kidsLeafCount rest

/-- The references held by the `Kids` arrays of a shape, in the order in which the walk meets
them: each kid's reference, then the references below that kid, then the next kid. -/
def PageTree.kidReferences : PageTree → List PDFObjectReference
  | PageTree.page => []
  | PageTree.pages kids => kidsReferences kids
where
  /-- The references met while walking a list of kids. -/
  kidsReferences : List (PDFObjectReference × PageTree) → List PDFObjectReference
    | [] => []
    | kid :: rest => kid.1 :: (kid.2.kidReferences ++ kidsReferences rest)

/-- The dictionary a node object dereferences to (empty when it is not a dictionary). -/
def PDFDocument.dictionaryOf (document : PDFDocument) (node : PDFObject) : PDFDictionary :=
  match document.getObject node with
  | PDFObject.dictionary entries => entries
  | _ => []

/-- A rotation the `switch` of lines 61-87 accepts after the full circles are removed. -/
def validRotation (rotation : Int) : Prop :=
  normalizeRotation rotation = 0 ∨ normalizeRotation rotation = 90 ∨
    normalizeRotation rotation = 180 ∨ normalizeRotation rotation = 270

/-- The `Rotate` entry of a dictionary, when present, is accepted by the attribute resolver. -/
def PDFDictionary.RotateValid (document : PDFDocument) (dictionary : PDFDictionary) : Prop :=
  dictionary.hasKey "Rotate" = true →
    validRotation (document.readInteger (dictionary.get "Rotate") 0)

/-- The kid objects of a `Kids` array holding the references of a kid list. -/
def PageTree.kidObjects (kids : List (PDFObjectReference × PageTree)) : List PDFObject :=
  kids.map (fun kid => PDFObject.reference kid.1)

/-- The object graph below `node` has the given shape and every node of it is sound on its
own: it dereferences to a dictionary whose `Type` is the name `Page` (a leaf) or `Pages`, a
`Pages` node has a `Kids` array made of exactly the shape's references, and every `Rotate`
entry is accepted. -/
def PageTree.Describes (document : PDFDocument) : PDFObject → PageTree → Prop
  | node, PageTree.page =>
    ∃ dictionary : PDFDictionary,
      document.getObject node = PDFObject.dictionary dictionary ∧
      document.getObject (dictionary.get "Type") = PDFObject.name "Page" ∧
      dictionary.RotateValid document
  | node, PageTree.pages kids =>
    (∃ dictionary : PDFDictionary,
      document.getObject node = PDFObject.dictionary dictionary ∧
      document.getObject (dictionary.get "Type") = PDFObject.name "Pages" ∧
      dictionary.RotateValid document ∧
      document.getObject (dictionary.get "Kids") = PDFObject.array (PageTree.kidObjects kids)) ∧
    kidsDescribed kids
where
  /-- Every kid of the list is described by its shape. -/
  kidsDescribed : List (PDFObjectReference × PageTree) → Prop
    | [] => True
    | kid :: rest => PageTree.Describes document (PDFObject.reference kid.1) kid.2 ∧
        kidsDescribed rest

/-- A well-formed page tree: the graph below the root has the shape, every node is sound, and
no reference occurs more than once among all `Kids` entries. -/
def PageTree.WellFormed (document : PDFDocument) (root : PDFObject) (tree : PageTree) : Prop :=
  tree.Describes document root ∧ tree.kidReferences.Nodup

/-- The snapshot a node hands to its kids: the resolver's result, and the incoming snapshot
when the resolver throws. -/
def PDFPageInheritableAttributes.resolve (templateAttributes : PDFPageInheritableAttributes)
    (dictionary : PDFDictionary) (document : PDFDocument) : PDFPageInheritableAttributes :=
  match PDFPageInheritableAttributes.parse templateAttributes (PDFObject.dictionary dictionary)
      document with
  | Except.ok attributes => attributes
  | Except.error _ => templateAttributes

/-- The dictionaries on the way to each leaf, the root's first and the leaf's own last, for
the leaves in depth-first order, the kids of every node from left to right. -/
def PageTree.leafPaths (document : PDFDocument) : PDFObject → PageTree → List (List PDFDictionary)
  | node, PageTree.page => [[document.dictionaryOf node]]
  | node, PageTree.pages kids => (kidsLeafPaths kids).map (fun path => document.dictionaryOf node :: path)
where
  /-- The ways to the leaves below a list of kids, kid after kid. -/
  kidsLeafPaths : List (PDFObjectReference × PageTree) → List (List PDFDictionary)
    | [] => []
    | kid :: rest =>
      PageTree.leafPaths document (PDFObject.reference kid.1) kid.2 ++ kidsLeafPaths rest

/-- The page at the end of a way through the tree: the snapshot is resolved dictionary by
dictionary from the given one, and the page is built from the last dictionary. -/
def PDFPage.ofPath (document : PDFDocument) :
    PDFPageInheritableAttributes → List PDFDictionary → PDFPage
  | attributes, [] => PDFPage.fromLeaf document attributes []
  | attributes, [leaf] => PDFPage.fromLeaf document (attributes.resolve leaf document) leaf
  | attributes, dictionary :: rest =>
    PDFPage.ofPath document (attributes.resolve dictionary document) rest

/-- The pages of a shape in depth-first, left-to-right order, starting from a snapshot. -/
def PageTree.pagesOf (document : PDFDocument) (templateAttributes : PDFPageInheritableAttributes)
    (node : PDFObject) (tree : PageTree) : List PDFPage :=
  (tree.leafPaths document node).map (PDFPage.ofPath document templateAttributes)

/-- The `Page` leaves of a shape laid over the graph at a node, in walk order: the node itself
at a leaf, and the leaves below the kids, kid after kid, at a `Pages` node. -/
def PageTree.leafNodes : PDFObject → PageTree → List PDFObject
  | node, PageTree.page => [node]
  | _, PageTree.pages kids => kidsLeafNodes kids
where
  /-- The `Page` leaves below a list of kids, kid after kid. -/
  kidsLeafNodes : List (PDFObjectReference × PageTree) → List PDFObject
    | [] => []
    | kid :: rest =>
      PageTree.leafNodes (PDFObject.reference kid.1) kid.2 ++ kidsLeafNodes rest

/-- The tests and insertions the walk performs on the visited set for a sequence of kid
references: `true` and the final set when every reference was new, `false` and the set at
the moment of the first repeated reference otherwise. -/
def visitReferences : List PDFObjectReference → List PDFObjectReference →
    Bool × List PDFObjectReference
  | visited, [] => (true, visited)
  | visited, ref :: rest =>
    if ref ∈ visited then (false, visited) else visitReferences (ref :: visited) rest

/-- Number of stored objects whose reference is not in the visited set. -/
def PDFDocument.unvisited (document : PDFDocument) (visited : List PDFObjectReference) : Nat :=
  (document.objects.filter (fun entry => decide (entry.1 ∉ visited))).length

/-- The outcome of a walk agrees with a page list and a trace of the visited set: unless
the fuel ran out, it is a normal return with these pages and the traced set when every
reference was new, and the cycle exception with the traced set otherwise. -/
def ParseOutcome.Agrees (outcome : ParseOutcome) (pages : List PDFPage)
    (trace : Bool × List PDFObjectReference) : Prop :=
  outcome = ParseOutcome.outOfFuel ∨
    (trace.1 = true ∧ outcome = ParseOutcome.done pages trace.2) ∨
    (trace.1 = false ∧
      ∃ partialPages, outcome =
        ParseOutcome.thrown PDFParserException.detectedCycles partialPages trace.2)

/-! ## References of a document -/

/-- The references that occur in an object, at any depth. -/
def PDFObject.references : PDFObject → List PDFObjectReference
  | PDFObject.reference target => [target]
  | PDFObject.array items => itemReferences items
  | PDFObject.dictionary entries => entryReferences entries
  | PDFObject.stream entries _ => entryReferences entries
  | _ => []
where
  /-- The references that occur in the items of an array. -/
  itemReferences : List PDFObject → List PDFObjectReference
    | [] => []
    | item :: rest => item.references ++ itemReferences rest
  /-- The references that occur in the values of dictionary entries. -/
  entryReferences : List (String × PDFObject) → List PDFObjectReference
    | [] => []
    | entry :: rest => entry.2.references ++ entryReferences rest

/-- The references of the storage: the reference of every stored object and the references
that occur in it. -/
def PDFDocument.storedReferences :
    List (PDFObjectReference × PDFObject) → List PDFObjectReference
  | [] => []
  | entry :: rest => entry.1 :: (entry.2.references ++ PDFDocument.storedReferences rest)

/-- All references of a document given with the root of its page tree: those that occur in
the root object and those of the storage (with repetitions). -/
def PDFDocument.allReferences (document : PDFDocument) (root : PDFObject) :
    List PDFObjectReference :=
  root.references ++ PDFDocument.storedReferences document.objects

/-- The number of distinct references of a document given with the root of its page tree. -/
def PDFDocument.referenceCount (document : PDFDocument) (root : PDFObject) : Nat :=
  (document.allReferences root).dedup.length

/-! ## Ways of the walk to a node

To speak about a node reached by the walk, the way to it is recorded: at each `Pages` node
on the way, the kids left of the way (with the shapes below them, all walked before), the
reference the way follows, and the entries right of it (not looked at). -/

/-- The way of the walk from a node down to the node it has reached. -/
inductive PageTrail where
  | stop
  | step (before : List (PDFObjectReference × PageTree)) (reference : PDFObjectReference)
      (after : List PDFObject) (rest : PageTrail)

/-- The node at the end of the way that starts at the given node. -/
def PageTrail.target : PDFObject → PageTrail → PDFObject
  | node, PageTrail.stop => node
  | _, PageTrail.step _ reference _ rest => rest.target (PDFObject.reference reference)

/-- The references the walk meets before it arrives at the end of the way, in walk order. -/
def PageTrail.references : PageTrail → List PDFObjectReference
  | PageTrail.stop => []
  | PageTrail.step before reference _ rest =>
    PageTree.kidReferences.kidsReferences before ++ reference :: rest.references

/-- The object graph has the way: every node on it before the end is a sound `Pages` node
whose `Kids` array consists of the kids left of the way (each described by its shape), the
reference the way follows, and the entries right of it. -/
def PageTrail.Leads (document : PDFDocument) : PDFObject → PageTrail → Prop
  | _, PageTrail.stop => True
  | node, PageTrail.step before reference after rest =>
    (∃ dictionary : PDFDictionary,
      document.getObject node = PDFObject.dictionary dictionary ∧
      document.getObject (dictionary.get "Type") = PDFObject.name "Pages" ∧
      dictionary.RotateValid document ∧
      document.getObject (dictionary.get "Kids") =
        PDFObject.array (PageTree.kidObjects before ++ PDFObject.reference reference :: after)) ∧
    PageTree.Describes.kidsDescribed document before ∧
    PageTrail.Leads document (PDFObject.reference reference) rest

/-! ## Kid edges of the object graph -/

/-- The object `kid` is an entry of the `Kids` array of the `Pages` node `parent`. -/
def PDFDocument.IsKid (document : PDFDocument) (parent kid : PDFObject) : Prop :=
  ∃ (dictionary : PDFDictionary) (kids : List PDFObject),
    document.getObject parent = PDFObject.dictionary dictionary ∧
    document.getObject (dictionary.get "Type") = PDFObject.name "Pages" ∧
    document.getObject (dictionary.get "Kids") = PDFObject.array kids ∧
    kid ∈ kids

/-- The entries of the `Kids` array of a `Pages` node, and no entries for any other object. -/
def PDFDocument.kidsOf (document : PDFDocument) (parent : PDFObject) : List PDFObject :=
  match document.getObject parent with
  | PDFObject.dictionary entries =>
    match document.getObject (PDFDictionary.get entries "Type") with
    | PDFObject.name typeString =>
      if typeString = "Pages" then
        match document.getObject (PDFDictionary.get entries "Kids") with
        | PDFObject.array kids => kids
        | _ => []
      else []
    | _ => []
  | _ => []

/-- The node is sound on its own: a dictionary with an accepted `Rotate` entry (if any) whose
`Type` is the name `Page`, or the name `Pages` with a `Kids` array made of references. -/
def PDFDocument.NodeSound (document : PDFDocument) (node : PDFObject) : Prop :=
  ∃ dictionary : PDFDictionary,
    document.getObject node = PDFObject.dictionary dictionary ∧
    dictionary.RotateValid document ∧
    (document.getObject (dictionary.get "Type") = PDFObject.name "Page" ∨
      (document.getObject (dictionary.get "Type") = PDFObject.name "Pages" ∧
        ∃ references : List PDFObjectReference,
          document.getObject (dictionary.get "Kids") =
            PDFObject.array (references.map PDFObject.reference)))

/-- The node is a `Page` leaf: it dereferences to a dictionary whose `Type` is the name
`Page`. -/
def PDFDocument.IsPageLeaf (document : PDFDocument) (node : PDFObject) : Prop :=
  ∃ dictionary : PDFDictionary,
    document.getObject node = PDFObject.dictionary dictionary ∧
    document.getObject (dictionary.get "Type") = PDFObject.name "Page"

/-! ## Sample documents -/

/-- The reference with the given object number and generation 0. -/
def ref (objectNumber : Int) : PDFObjectReference := ⟨objectNumber, 0⟩

/-- The array object of a rectangle given by two corners. -/
def rectangleArray (x0 y0 x1 y1 : Int) : PDFObject :=
  PDFObject.array [PDFObject.int x0, PDFObject.int y0, PDFObject.int x1, PDFObject.int y1]

/-- A document with a two-level page tree rooted at object 1: a page (object 2), then a
`Pages` node (object 3) with two pages (objects 4 and 5).  The root sets `MediaBox`,
`Resources` (object 9) and `Rotate`; page 2 overrides `MediaBox`; page 4 overrides
`Rotate`. -/
def sampleDocument : PDFDocument :=
  ⟨[(ref 1, PDFObject.dictionary [("Type", PDFObject.name "Pages"),
      ("MediaBox", rectangleArray 0 0 612 792),
      ("Resources", PDFObject.reference (ref 9)),
      ("Rotate", PDFObject.int 450),
      ("Kids", PDFObject.array [PDFObject.reference (ref 2), PDFObject.reference (ref 3)])]),
    (ref 2, PDFObject.dictionary [("Type", PDFObject.name "Page"),
      ("MediaBox", rectangleArray 0 0 200 100)]),
    (ref 3, PDFObject.dictionary [("Type", PDFObject.name "Pages"),
      ("Kids", PDFObject.array [PDFObject.reference (ref 4), PDFObject.reference (ref 5)])]),
    (ref 4, PDFObject.dictionary [("Type", PDFObject.name "Page"),
      ("Rotate", PDFObject.int 180)]),
    (ref 5, PDFObject.dictionary [("Type", PDFObject.name "Page")]),
    (ref 9, PDFObject.dictionary [("ProcSet", PDFObject.array [PDFObject.name "PDF"])])]⟩

/-- The shape of the page tree of `sampleDocument`. -/
def sampleTree : PageTree :=
  PageTree.pages [(ref 2, PageTree.page),
    (ref 3, PageTree.pages [(ref 4, PageTree.page), (ref 5, PageTree.page)])]

/-- A document whose root `Pages` node (object 1) sets both `MediaBox` and `CropBox`; its one
kid (object 2) is a `Page` with no box entries of its own. -/
def cropDocument : PDFDocument :=
  ⟨[(ref 1, PDFObject.dictionary [("Type", PDFObject.name "Pages"),
      ("MediaBox", rectangleArray 0 0 612 792),
      ("CropBox", rectangleArray 10 10 100 100),
      ("Kids", PDFObject.array [PDFObject.reference (ref 2)])]),
    (ref 2, PDFObject.dictionary [("Type", PDFObject.name "Page")])]⟩

/-- A document whose root `Pages` node (object 1) has a sound `Page` (object 2) as first kid
and a `Page` with the rotation 37 (object 3) as second kid. -/
def brokenSecondKidDocument : PDFDocument :=
  ⟨[(ref 1, PDFObject.dictionary [("Type", PDFObject.name "Pages"),
      ("MediaBox", rectangleArray 0 0 612 792),
      ("Kids", PDFObject.array [PDFObject.reference (ref 2), PDFObject.reference (ref 3)])]),
    (ref 2, PDFObject.dictionary [("Type", PDFObject.name "Page")]),
    (ref 3, PDFObject.dictionary [("Type", PDFObject.name "Page"),
      ("Rotate", PDFObject.int 37)])]⟩

/-- A document whose object 1 is a dictionary of type `Catalog` with the rotation 37, and
whose object 2 is a dictionary of type `Catalog` without a rotation. -/
def catalogDocument : PDFDocument :=
  ⟨[(ref 1, PDFObject.dictionary [("Type", PDFObject.name "Catalog"),
      ("Rotate", PDFObject.int 37)]),
    (ref 2, PDFObject.dictionary [("Type", PDFObject.name "Catalog")])]⟩

/-- A document whose root `Pages` node (object 1) has a `Page` with the rotation 37
(object 2) as first kid and a `Pages` node that lists itself as its kid (object 3) as second
kid. -/
def cycleBehindBadRotateDocument : PDFDocument :=
  ⟨[(ref 1, PDFObject.dictionary [("Type", PDFObject.name "Pages"),
      ("Kids", PDFObject.array [PDFObject.reference (ref 2), PDFObject.reference (ref 3)])]),
    (ref 2, PDFObject.dictionary [("Type", PDFObject.name "Page"),
      ("Rotate", PDFObject.int 37)]),
    (ref 3, PDFObject.dictionary [("Type", PDFObject.name "Pages"),
      ("Kids", PDFObject.array [PDFObject.reference (ref 3)])])]⟩

/-- A document with a cycle and no other defect: the root `Pages` node (object 1) has a
`Page` (object 2) and a `Pages` node (object 3) as kids, and object 3 lists the root as its
kid. -/
def cyclicDocument : PDFDocument :=
  ⟨[(ref 1, PDFObject.dictionary [("Type", PDFObject.name "Pages"),
      ("Kids", PDFObject.array [PDFObject.reference (ref 2), PDFObject.reference (ref 3)])]),
    (ref 2, PDFObject.dictionary [("Type", PDFObject.name "Page")]),
    (ref 3, PDFObject.dictionary [("Type", PDFObject.name "Pages"),
      ("Kids", PDFObject.array [PDFObject.reference (ref 1)])])]⟩

/-- A document with a diamond: the root `Pages` node (object 1) has two `Pages` kids
(objects 2 and 3) that both list the same `Page` (object 4). -/
def diamondDocument : PDFDocument :=
  ⟨[(ref 1, PDFObject.dictionary [("Type", PDFObject.name "Pages"),
      ("Kids", PDFObject.array [PDFObject.reference (ref 2), PDFObject.reference (ref 3)])]),
    (ref 2, PDFObject.dictionary [("Type", PDFObject.name "Pages"),
      ("Kids", PDFObject.array [PDFObject.reference (ref 4)])]),
    (ref 3, PDFObject.dictionary [("Type", PDFObject.name "Pages"),
      ("Kids", PDFObject.array [PDFObject.reference (ref 4)])]),
    (ref 4, PDFObject.dictionary [("Type", PDFObject.name "Page")])]⟩

/-- The shape of `diamondDocument`, the shared page unrolled under both of its parents. -/
def diamondTree : PageTree :=
  PageTree.pages [(ref 2, PageTree.pages [(ref 4, PageTree.page)]),
    (ref 3, PageTree.pages [(ref 4, PageTree.page)])]

/-- A document whose root `Pages` node (object 1) has a sound `Page` (object 2) and a `Pages`
node (object 3) as kids; the kids of object 3 are a dictionary without a `Type` and with the
rotation 37 (object 4) and a reference to nothing (object 5 is not stored). -/
def missingTypeDocument : PDFDocument :=
  ⟨[(ref 1, PDFObject.dictionary [("Type", PDFObject.name "Pages"),
      ("Kids", PDFObject.array [PDFObject.reference (ref 2), PDFObject.reference (ref 3)])]),
    (ref 2, PDFObject.dictionary [("Type", PDFObject.name "Page")]),
    (ref 3, PDFObject.dictionary [("Type", PDFObject.name "Pages"),
      ("Kids", PDFObject.array [PDFObject.reference (ref 4), PDFObject.reference (ref 5)])]),
    (ref 4, PDFObject.dictionary [("Rotate", PDFObject.int 37)])]⟩

/-- The way in `missingTypeDocument` from the root through object 3 to object 4. -/
def missingTypeTrail : PageTrail :=
  PageTrail.step [(ref 2, PageTree.page)] (ref 3) []
    (PageTrail.step [] (ref 4) [PDFObject.reference (ref 5)] PageTrail.stop)

/-- A document whose root `Pages` node (object 1) has a `Pages` node with a dangling first kid
(object 2). -/
def danglingKidDocument : PDFDocument :=
  ⟨[(ref 1, PDFObject.dictionary [("Type", PDFObject.name "Pages"),
      ("Kids", PDFObject.array [PDFObject.reference (ref 2)])]),
    (ref 2, PDFObject.dictionary [("Type", PDFObject.name "Pages"),
      ("Kids", PDFObject.array [PDFObject.reference (ref 5)])])]⟩

/-- The way in `danglingKidDocument` from the root through object 2 to the dangling
reference 5. -/
def danglingKidTrail : PageTrail :=
  PageTrail.step [] (ref 2) [] (PageTrail.step [] (ref 5) [] PageTrail.stop)

/-- A document whose root `Pages` node (object 1) has a `Pages` node without `Kids`
(object 2) as first kid and, as second kid, a `Pages` node (object 3) whose `Kids` array
holds a reference to a page (object 4) followed by an inline `Page` dictionary. -/
def kidsDocument : PDFDocument :=
  ⟨[(ref 1, PDFObject.dictionary [("Type", PDFObject.name "Pages"),
      ("Kids", PDFObject.array [PDFObject.reference (ref 2), PDFObject.reference (ref 3)])]),
    (ref 2, PDFObject.dictionary [("Type", PDFObject.name "Pages")]),
    (ref 3, PDFObject.dictionary [("Type", PDFObject.name "Pages"),
      ("Kids", PDFObject.array [PDFObject.reference (ref 4),
        PDFObject.dictionary [("Type", PDFObject.name "Page")]])]),
    (ref 4, PDFObject.dictionary [("Type", PDFObject.name "Page")])]⟩

/-- A document whose root is a `Pages` node without `Kids` and with the rotation 37. -/
def pagesBadRotateDocument : PDFDocument :=
  ⟨[(ref 1, PDFObject.dictionary [("Type", PDFObject.name "Pages"),
      ("Rotate", PDFObject.int 37)])]⟩

/-- A document whose root `Pages` node (object 1) sets `MediaBox` and `Rotate` and has two
kids: a `Pages` node (object 2) that overrides `MediaBox`, `CropBox`, `Resources` and
`Rotate` for its page (object 4), and a `Page` without any entry of its own (object 3). -/
def siblingDocument : PDFDocument :=
  ⟨[(ref 1, PDFObject.dictionary [("Type", PDFObject.name "Pages"),
      ("MediaBox", rectangleArray 0 0 612 792),
      ("Rotate", PDFObject.int 90),
      ("Kids", PDFObject.array [PDFObject.reference (ref 2), PDFObject.reference (ref 3)])]),
    (ref 2, PDFObject.dictionary [("Type", PDFObject.name "Pages"),
      ("MediaBox", rectangleArray 0 0 100 100),
      ("CropBox", rectangleArray 10 10 20 20),
      ("Resources", PDFObject.dictionary [("ProcSet", PDFObject.array [PDFObject.name "Text"])]),
      ("Rotate", PDFObject.int 180),
      ("Kids", PDFObject.array [PDFObject.reference (ref 4)])]),
    (ref 3, PDFObject.dictionary [("Type", PDFObject.name "Page")]),
    (ref 4, PDFObject.dictionary [("Type", PDFObject.name "Page")])]⟩

/-- A document whose only object is a `Pages` node (object 1) with a single kid: a reference
to object 1 itself. -/
def selfKidDocument : PDFDocument :=
  ⟨[(ref 1, PDFObject.dictionary [("Type", PDFObject.name "Pages"),
      ("Kids", PDFObject.array [PDFObject.reference (ref 1)])])]⟩

/-- A document whose root `Pages` node (object 1) has one kid, a `Page` (object 2) with the
rotation -90. -/
def minusNinetyDocument : PDFDocument :=
  ⟨[(ref 1, PDFObject.dictionary [("Type", PDFObject.name "Pages"),
      ("Kids", PDFObject.array [PDFObject.reference (ref 2)])]),
    (ref 2, PDFObject.dictionary [("Type", PDFObject.name "Page"),
      ("Rotate", PDFObject.int (-90))])]⟩

/-! ## The text flow editor (`src/Pdf4QtLib/sources/pdfdocumenttextflow.h`)

The header defines the item types and the index-based queries inline; the editing operations
are only declared there, so they are modelled from the spec.  `QFlags` values are bit masks,
kept as natural numbers; `std::vector::at` throws `std::out_of_range` for an index that is not
less than the size. -/

/-- The exception of `std::vector::at`. -/
inductive StdException where
  | outOfRange
  deriving DecidableEq, Repr

/-- `std::vector::at`: the element at the index, or the out of range exception. -/
def vectorAt {α : Type} (items : List α) (index : Nat) : Except StdException α :=
  match items[index]? with
  | some item => Except.ok item
  | none => Except.error StdException.outOfRange

/-- `QFlags::testFlag`: all bits of the flag are set (and for the zero flag, no bit is). -/
def QFlags.testFlag (flags flag : Nat) : Bool :=
  (flags &&& flag == flag) && (flag != 0 || flags == flag)

/-- `QFlags::setFlag`: the bits of the flag are set (`flags | flag`) or cleared
(`flags & ~flag`, the bits of `flags` without those it shares with `flag`). -/
def QFlags.setFlag (flags flag : Nat) (enabled : Bool) : Nat :=
  if enabled then flags ||| flag else flags ^^^ (flags &&& flag)

/-- `PDFDocumentTextFlow::Item`. -/
structure PDFDocumentTextFlow.Item where
  boundingRect : QRectF
  pageIndex : Int
  text : String
  flags : Nat

/-- `PDFDocumentTextFlow`: the sequence of items. -/
structure PDFDocumentTextFlow where
  m_items : List PDFDocumentTextFlow.Item

/-- `PDFDocumentTextFlow::getItem`. -/
def PDFDocumentTextFlow.getItem (textFlow : PDFDocumentTextFlow) (index : Nat) :
    Except StdException PDFDocumentTextFlow.Item :=
  vectorAt textFlow.m_items index

/-- `PDFDocumentTextFlow::getSize`. -/
def PDFDocumentTextFlow.getSize (textFlow : PDFDocumentTextFlow) : Nat :=
  textFlow.m_items.length

/-- `PDFDocumentTextFlow::isEmpty`. -/
def PDFDocumentTextFlow.isEmpty (textFlow : PDFDocumentTextFlow) : Bool :=
  textFlow.m_items.isEmpty

/-- `PDFDocumentTextFlowEditor::EditedItemFlag::None`. -/
def EditedItemFlag.None : Nat := 0x0000

/-- `PDFDocumentTextFlowEditor::EditedItemFlag::Removed`. -/
def EditedItemFlag.Removed : Nat := 0x0001

/-- `PDFDocumentTextFlowEditor::EditedItemFlag::Modified`. -/
def EditedItemFlag.Modified : Nat := 0x0002

/-- `PDFDocumentTextFlowEditor::EditedItem`: an item with the index of its original and the
edit flags. -/
structure EditedItem extends PDFDocumentTextFlow.Item where
  originalIndex : Nat
  editedItemFlags : Nat

/-- `PDFDocumentTextFlowEditor`: the original text flow and the edited items. -/
structure PDFDocumentTextFlowEditor where
  m_originalTextFlow : PDFDocumentTextFlow
  m_editedTextFlow : List EditedItem

/-- The default constructed editor: no original, no edited items. -/
def PDFDocumentTextFlowEditor.empty : PDFDocumentTextFlowEditor :=
  ⟨⟨[]⟩, []⟩

/-- `PDFDocumentTextFlowEditor::getOriginalItem`. -/
def PDFDocumentTextFlowEditor.getOriginalItem (editor : PDFDocumentTextFlowEditor)
    (index : Nat) : Except StdException PDFDocumentTextFlow.Item :=
  editor.m_originalTextFlow.getItem index

/-- `PDFDocumentTextFlowEditor::getEditedItem`. -/
def PDFDocumentTextFlowEditor.getEditedItem (editor : PDFDocumentTextFlowEditor) (index : Nat) :
    Except StdException EditedItem :=
  vectorAt editor.m_editedTextFlow index

/-- `PDFDocumentTextFlowEditor::isActive`. -/
def PDFDocumentTextFlowEditor.isActive (editor : PDFDocumentTextFlowEditor) (index : Nat) :
    Except StdException Bool :=
  match editor.getEditedItem index with
  | Except.ok item => Except.ok (!QFlags.testFlag item.editedItemFlags EditedItemFlag.Removed)
  | Except.error e => Except.error e

/-- `PDFDocumentTextFlowEditor::isRemoved`. -/
def PDFDocumentTextFlowEditor.isRemoved (editor : PDFDocumentTextFlowEditor) (index : Nat) :
    Except StdException Bool :=
  match editor.isActive index with
  | Except.ok active => Except.ok (!active)
  | Except.error e => Except.error e

/-- `PDFDocumentTextFlowEditor::isModified`. -/
def PDFDocumentTextFlowEditor.isModified (editor : PDFDocumentTextFlowEditor) (index : Nat) :
    Except StdException Bool :=
  match editor.getEditedItem index with
  | Except.ok item => Except.ok (QFlags.testFlag item.editedItemFlags EditedItemFlag.Modified)
  | Except.error e => Except.error e

/-- `PDFDocumentTextFlowEditor::getText`. -/
def PDFDocumentTextFlowEditor.getText (editor : PDFDocumentTextFlowEditor) (index : Nat) :
    Except StdException String :=
  match editor.getEditedItem index with
  | Except.ok item => Except.ok item.text
  | Except.error e => Except.error e

/-- `PDFDocumentTextFlowEditor::isEmpty`. -/
def PDFDocumentTextFlowEditor.isEmpty (editor : PDFDocumentTextFlowEditor) : Bool :=
  editor.m_originalTextFlow.isEmpty

/-- Modelled from the spec: the edited items built from original items, one per original item
in the same order, each with the index of its original (counted from `start`) and empty edit
flags. -/
def editedItemsFrom : Nat → List PDFDocumentTextFlow.Item → List EditedItem
  | _, [] => []
  | start, item :: rest =>
    { toItem := item, originalIndex := start, editedItemFlags := EditedItemFlag.None } ::
      editedItemsFrom (start + 1) rest

/-- Modelled from the spec: `createEditedFromOriginalTextFlow`, which builds the editable
sequence parallel to the original, with identical length and order and empty edit flags. -/
def PDFDocumentTextFlowEditor.createEditedFromOriginalTextFlow
    (editor : PDFDocumentTextFlowEditor) : PDFDocumentTextFlowEditor :=
  { editor with m_editedTextFlow := editedItemsFrom 0 editor.m_originalTextFlow.m_items }

/-- Modelled from the spec: `setTextFlow`, which snapshots the flow as the original and builds
the editable sequence from it. -/
def PDFDocumentTextFlowEditor.setTextFlow (_editor : PDFDocumentTextFlowEditor)
    (textFlow : PDFDocumentTextFlow) : PDFDocumentTextFlowEditor :=
  PDFDocumentTextFlowEditor.createEditedFromOriginalTextFlow ⟨textFlow, []⟩

/-- Modelled from the spec: `clear`, which resets to the empty state. -/
def PDFDocumentTextFlowEditor.clear (_editor : PDFDocumentTextFlowEditor) :
    PDFDocumentTextFlowEditor :=
  PDFDocumentTextFlowEditor.empty

/-- Modelled from the spec: `removeItem`, which sets the `Removed` flag of the edited item at
the index and keeps the slot; an index that is not a valid position fails. -/
def PDFDocumentTextFlowEditor.removeItem (editor : PDFDocumentTextFlowEditor) (index : Nat) :
    Except StdException PDFDocumentTextFlowEditor :=
  match editor.getEditedItem index with
  | Except.ok item =>
    let removed : EditedItem :=
      { item with editedItemFlags :=
          QFlags.setFlag item.editedItemFlags EditedItemFlag.Removed true }
    Except.ok { editor with m_editedTextFlow := editor.m_editedTextFlow.set index removed }
  | Except.error e => Except.error e

/-- Modelled from the spec: `updateModifiedFlag`, which recomputes the `Modified` flag of the
edited item at the index by comparing its text with the text of the original item at the
same index: equal clears the flag, different sets it. -/
def PDFDocumentTextFlowEditor.updateModifiedFlag (editor : PDFDocumentTextFlowEditor)
    (index : Nat) : Except StdException PDFDocumentTextFlowEditor :=
  match editor.getEditedItem index, editor.getOriginalItem index with
  | Except.ok item, Except.ok original =>
    let isModified : Bool := decide (item.text ≠ original.text)
    let updated : EditedItem :=
      { item with editedItemFlags :=
          QFlags.setFlag item.editedItemFlags EditedItemFlag.Modified isModified }
    Except.ok { editor with m_editedTextFlow := editor.m_editedTextFlow.set index updated }
  | Except.error e, _ => Except.error e
  | _, Except.error e => Except.error e

/-- Modelled from the spec: `setText`, which fails for an index that is not a valid position
and otherwise replaces the text of the edited item and recomputes its `Modified` flag. -/
def PDFDocumentTextFlowEditor.setText (editor : PDFDocumentTextFlowEditor) (text : String)
    (index : Nat) : Except StdException PDFDocumentTextFlowEditor :=
  match editor.getEditedItem index with
  | Except.ok item =>
    let edited : EditedItem := { item with text := text }
    PDFDocumentTextFlowEditor.updateModifiedFlag
      { editor with m_editedTextFlow := editor.m_editedTextFlow.set index edited } index
  | Except.error e => Except.error e

/-- A text item with the given text on page 0. -/
def textItem (text : String) : PDFDocumentTextFlow.Item :=
  ⟨QRectF.null, 0, text, 0x0001⟩

/-- A text flow of three items. -/
def sampleTextFlow : PDFDocumentTextFlow :=
  ⟨[textItem "alpha", textItem "beta", textItem "gamma"]⟩

/-- An editor state over `sampleTextFlow` whose item 1 carries both edit flags and whose
item 2 carries the `Modified` flag. -/
def flaggedEditor : PDFDocumentTextFlowEditor :=
  ⟨sampleTextFlow,
    [{ toItem := textItem "alpha", originalIndex := 0, editedItemFlags := 0 },
      { toItem := textItem "delta", originalIndex := 1, editedItemFlags := 3 },
      { toItem := textItem "omega", originalIndex := 2, editedItemFlags := 2 }]⟩

/-! ## Rotated boxes -/

/-- `PDFPage::getRotatedBox` (lines 119-134). -/
def PDFPage.getRotatedBox (rect : QRectF) (rotation : PageRotation) : QRectF :=
  match rotation with
  | PageRotation.None => rect
  | PageRotation.Rotate180 => rect
  | PageRotation.Rotate90 => rect.transposed
  | PageRotation.Rotate270 => rect.transposed

/-! ## The renderer (`src/PdfForQtLib/sources/pdfrenderer.cpp`)

`render` talks to collaborators that are declared outside the sources at hand: the catalog,
the painter and the content processor.  They are parameters of the embedding.  `size_t`
arithmetic is taken modulo 2 ^ `sizeBits`. -/

/-- The kind of a render error.  Only the enumerator `Error` is named in `pdfrenderer.cpp`;
the other enumerators are kept apart by a tag. -/
inductive RenderErrorType where
  | Error
  | other (tag : Nat)
  deriving DecidableEq, Repr

/-- `PDFRenderError`: kind and message. -/
structure PDFRenderError where
  type : RenderErrorType
  message : String
  deriving DecidableEq, Repr

/-- What `render` uses of its collaborators: the width of `size_t`, the catalog's
`getPageCount` and `getPage` (`none` for a null pointer), the matrix built in lines 53-55
from the target rectangle and the media box (real arithmetic, left abstract), and
`PDFPainter::processContents` for a painter, a matrix and a page, which returns the error
list and leaves the painter in a new state. -/
structure RenderEnvironment (Painter Matrix : Type) where
  sizeBits : Nat
  getPageCount : Nat
  getPage : Nat → Option PDFPage
  rectangleMatrix : QRectF → QRectF → Matrix
  processContents : Painter → Matrix → PDFPage → List PDFRenderError × Painter

/-- The text of `tr("Page %1 doesn't exist.").arg(pageNumber)`. -/
def pageDoesNotExist (pageNumber : Nat) : String :=
  "Page " ++ toString pageNumber ++ " doesn't exist."

/-- The one-entry result of lines 45 and 69 for a page index: `pageIndex + 1` is computed in
`size_t`. -/
def invalidPageIndexResult (sizeBits pageIndex : Nat) : List PDFRenderError :=
  [⟨RenderErrorType.Error, pageDoesNotExist ((pageIndex + 1) % 2 ^ sizeBits)⟩]

/-- `PDFRenderer::render(QPainter*, const QRectF&, size_t)` (lines 36-59): the error list and
the painter afterwards. -/
def PDFRenderer.render {Painter Matrix : Type} (environment : RenderEnvironment Painter Matrix)
    (painter : Painter) (rectangle : QRectF) (pageIndex : Nat) :
    List PDFRenderError × Painter :=
  if pageIndex ≥ environment.getPageCount then
    (invalidPageIndexResult environment.sizeBits pageIndex, painter)
  else
    match environment.getPage pageIndex with
    | none => (invalidPageIndexResult environment.sizeBits pageIndex, painter)
    | some page =>
      environment.processContents painter
        (environment.rectangleMatrix rectangle page.m_mediaBox) page

/-- `PDFRenderer::render(QPainter*, const QMatrix&, size_t)` (lines 61-77): the error list
and the painter afterwards. -/
def PDFRenderer.renderWithMatrix {Painter Matrix : Type}
    (environment : RenderEnvironment Painter Matrix) (painter : Painter) (matrix : Matrix)
    (pageIndex : Nat) : List PDFRenderError × Painter :=
  if pageIndex ≥ environment.getPageCount then
    (invalidPageIndexResult environment.sizeBits pageIndex, painter)
  else
    match environment.getPage pageIndex with
    | none => (invalidPageIndexResult environment.sizeBits pageIndex, painter)
    | some page => environment.processContents painter matrix page

/-- A page with the given media box and nothing else. -/
def blankPage (mediaBox : QRectF) : PDFPage :=
  ⟨mediaBox, mediaBox, mediaBox, mediaBox, mediaBox, PageRotation.None, PDFObject.null,
    PDFObject.null⟩

/-- A render environment on a 64-bit platform with two pages, of which the catalog can hand
out only the first; the painter counts the pages processed and processing reports one
error of another kind. -/
def sampleEnvironment : RenderEnvironment Nat Unit :=
  { sizeBits := 64
    getPageCount := 2
    getPage := fun index => if index = 0 then some (blankPage ⟨0, 0, 612, 792⟩) else none
    rectangleMatrix := fun _ _ => ()
    processContents := fun painter _ _ =>
      ([⟨RenderErrorType.other 1, "Not implemented."⟩], painter + 1) }

/-! ## Theorems -/

theorem PageTree.induct {motive : PageTree → Prop} (page : motive PageTree.page)
    (pages : ∀ kids : List (PDFObjectReference × PageTree),
      (∀ kid ∈ kids, motive kid.2) → motive (PageTree.pages kids)) :
    ∀ tree, motive tree
  | PageTree.page => page
  | PageTree.pages kids => pages kids (go kids)
where
  go : ∀ kids : List (PDFObjectReference × PageTree), ∀ kid ∈ kids, motive kid.2
    | [] => fun _ h => absurd h (List.not_mem_nil _)
    | (ref, tree) :: rest => fun kid h =>
      (List.mem_cons.mp h).elim
        (fun e => by rw [e]; exact PageTree.induct page pages tree)
        (go rest kid)

/-! ### The attribute resolver -/

theorem getObject_dictionary (document : PDFDocument) (dictionary : PDFDictionary) :
    document.getObject (PDFObject.dictionary dictionary) = PDFObject.dictionary dictionary := rfl

theorem attributes_parse_congr {document : PDFDocument} {node : PDFObject}
    {dictionary : PDFDictionary}
    (h : document.getObject node = PDFObject.dictionary dictionary)
    (templateAttributes : PDFPageInheritableAttributes) :
    PDFPageInheritableAttributes.parse templateAttributes node document =
      PDFPageInheritableAttributes.parse templateAttributes (PDFObject.dictionary dictionary)
        document := by
  unfold PDFPageInheritableAttributes.parse
  rw [h, getObject_dictionary]

theorem rotationFromInteger_ok_of_valid {rotation : Int} (h : validRotation rotation) :
    ∃ pageRotation, rotationFromInteger (normalizeRotation rotation) = Except.ok pageRotation := by
  unfold validRotation at h
  unfold rotationFromInteger
  rcases h with h | h | h | h <;> rw [h] <;> simp

theorem attributes_parse_ok {document : PDFDocument} {dictionary : PDFDictionary}
    (h : dictionary.RotateValid document) (templateAttributes : PDFPageInheritableAttributes) :
    PDFPageInheritableAttributes.parse templateAttributes (PDFObject.dictionary dictionary)
        document = Except.ok (templateAttributes.resolve dictionary document) := by
  have key : ∃ attributes, PDFPageInheritableAttributes.parse templateAttributes
      (PDFObject.dictionary dictionary) document = Except.ok attributes := by
    unfold PDFPageInheritableAttributes.parse
    rw [getObject_dictionary]
    by_cases hr : PDFDictionary.hasKey dictionary "Rotate" = true
    · obtain ⟨pageRotation, hp⟩ := rotationFromInteger_ok_of_valid (h hr)
      simp only [hr, hp, if_true]
      exact ⟨_, rfl⟩
    · simp only [hr]
      exact ⟨_, rfl⟩
  obtain ⟨attributes, ha⟩ := key
  unfold PDFPageInheritableAttributes.resolve
  rw [ha]

/-! ### The trace of the visited set -/

theorem visitReferences_append (visited first second : List PDFObjectReference) :
    visitReferences visited (first ++ second) =
      if (visitReferences visited first).1 = true then
        visitReferences (visitReferences visited first).2 second
      else visitReferences visited first := by
  induction first generalizing visited with
  | nil => simp [visitReferences]
  | cons ref rest ih =>
    by_cases h : ref ∈ visited
    · simp [visitReferences, h]
    · simp only [List.cons_append, visitReferences, h, if_false]
      exact ih (ref :: visited)

theorem visitReferences_true_iff (visited refs : List PDFObjectReference) :
    (visitReferences visited refs).1 = true ↔ refs.Nodup ∧ ∀ ref ∈ refs, ref ∉ visited := by
  induction refs generalizing visited with
  | nil => simp [visitReferences]
  | cons ref rest ih =>
    by_cases h : ref ∈ visited
    · simp [visitReferences, h]
    · simp only [visitReferences, h, if_false, ih, List.nodup_cons, List.mem_cons]
      constructor
      · rintro ⟨hn, hd⟩
        refine ⟨⟨fun hm => (hd ref hm) (Or.inl rfl), hn⟩, ?_⟩
        rintro r (rfl | hr)
        · exact h
        · exact fun hv => hd r hr (Or.inr hv)
      · rintro ⟨⟨hnm, hn⟩, hd⟩
        refine ⟨hn, ?_⟩
        rintro r hr (rfl | hv)
        · exact hnm hr
        · exact hd r (Or.inr hr) hv

theorem visitReferences_true_snd (visited refs : List PDFObjectReference)
    (h : (visitReferences visited refs).1 = true) :
    (visitReferences visited refs).2 = refs.reverse ++ visited := by
  induction refs generalizing visited with
  | nil => simp [visitReferences]
  | cons ref rest ih =>
    by_cases hm : ref ∈ visited
    · simp [visitReferences, hm] at h
    · simp only [visitReferences, hm, if_false] at h ⊢
      rw [ih _ h]
      simp

/-- At a repeated reference the traced set holds exactly the references met before it. -/
theorem visitReferences_false_split (visited refs : List PDFObjectReference)
    (h : (visitReferences visited refs).1 = false) :
    ∃ before ref after, refs = before ++ ref :: after ∧ before.Nodup ∧
      (∀ r ∈ before, r ∉ visited) ∧ (ref ∈ before ∨ ref ∈ visited) ∧
      (visitReferences visited refs).2 = before.reverse ++ visited := by
  induction refs generalizing visited with
  | nil => simp [visitReferences] at h
  | cons ref rest ih =>
    by_cases hm : ref ∈ visited
    · exact ⟨[], ref, rest, rfl, List.nodup_nil, by simp, Or.inr hm, by simp [visitReferences, hm]⟩
    · simp only [visitReferences, hm, if_false] at h ⊢
      obtain ⟨before, r, after, he, hn, hd, hor, hs⟩ := ih _ h
      refine ⟨ref :: before, r, after, by rw [he]; rfl, ?_, ?_, ?_, ?_⟩
      · exact List.nodup_cons.mpr ⟨fun hb => hd ref hb (List.mem_cons_self _ _), hn⟩
      · rintro x (_ | ⟨_, hx⟩)
        · exact hm
        · exact fun hv => hd x hx (List.mem_cons_of_mem _ hv)
      · rcases hor with hb | hv
        · exact Or.inl (List.mem_cons_of_mem _ hb)
        · rcases List.mem_cons.mp hv with rfl | hv
          · exact Or.inl (List.mem_cons_self _ _)
          · exact Or.inr hv
      · rw [hs]; simp

/-! ### Shapes -/

theorem kidsDescribed_iff (document : PDFDocument) (kids : List (PDFObjectReference × PageTree)) :
    PageTree.Describes.kidsDescribed document kids ↔
      ∀ kid ∈ kids, PageTree.Describes document (PDFObject.reference kid.1) kid.2 := by
  induction kids with
  | nil => simp [PageTree.Describes.kidsDescribed]
  | cons kid rest ih => simp [PageTree.Describes.kidsDescribed, ih]

theorem leafPaths_ne_nil (document : PDFDocument) (node : PDFObject) (tree : PageTree) :
    ∀ path ∈ tree.leafPaths document node, path ≠ [] := by
  cases tree with
  | page => simp [PageTree.leafPaths]
  | pages kids =>
    intro path hp
    simp only [PageTree.leafPaths, List.mem_map] at hp
    obtain ⟨rest, -, rfl⟩ := hp
    exact List.cons_ne_nil _ _

theorem kidsLeafPaths_ne_nil (document : PDFDocument)
    (kids : List (PDFObjectReference × PageTree)) :
    ∀ path ∈ PageTree.leafPaths.kidsLeafPaths document kids, path ≠ [] := by
  induction kids with
  | nil => simp [PageTree.leafPaths.kidsLeafPaths]
  | cons kid rest ih =>
    intro path hp
    simp only [PageTree.leafPaths.kidsLeafPaths, List.mem_append] at hp
    rcases hp with hp | hp
    · exact leafPaths_ne_nil document _ _ path hp
    · exact ih path hp

theorem ofPath_cons (document : PDFDocument) (attributes : PDFPageInheritableAttributes)
    (dictionary : PDFDictionary) {path : List PDFDictionary} (h : path ≠ []) :
    PDFPage.ofPath document attributes (dictionary :: path) =
      PDFPage.ofPath document (attributes.resolve dictionary document) path := by
  cases path with
  | nil => exact absurd rfl h
  | cons next rest => simp [PDFPage.ofPath]

theorem pagesOf_pages (document : PDFDocument) (attributes : PDFPageInheritableAttributes)
    (node : PDFObject) (kids : List (PDFObjectReference × PageTree)) :
    (PageTree.pages kids).pagesOf document attributes node =
      (PageTree.leafPaths.kidsLeafPaths document kids).map
        (PDFPage.ofPath document
          (attributes.resolve (document.dictionaryOf node) document)) := by
  unfold PageTree.pagesOf
  simp only [PageTree.leafPaths, List.map_map]
  apply List.map_congr_left
  intro path hp
  exact ofPath_cons document attributes _ (kidsLeafPaths_ne_nil document kids path hp)

theorem dictionaryOf_eq {document : PDFDocument} {node : PDFObject} {dictionary : PDFDictionary}
    (h : document.getObject node = PDFObject.dictionary dictionary) :
    document.dictionaryOf node = dictionary := by
  unfold PDFDocument.dictionaryOf
  rw [h]

/-! ### The walk over a described shape -/

theorem parseKids_agrees (document : PDFDocument) (fuel : Nat)
    (attributes : PDFPageInheritableAttributes)
    (kids : List (PDFObjectReference × PageTree))
    (ih : ∀ kid ∈ kids, ∀ (pages : List PDFPage) (visited : List PDFObjectReference),
      (PDFPage.parseImpl document fuel pages visited attributes
          (PDFObject.reference kid.1)).Agrees
        (pages ++ kid.2.pagesOf document attributes (PDFObject.reference kid.1))
        (visitReferences visited kid.2.kidReferences))
    (pages : List PDFPage) (visited : List PDFObjectReference) :
    (PDFPage.parseKids
        (fun pages1 visited1 kid =>
          PDFPage.parseImpl document fuel pages1 visited1 attributes kid)
        pages visited (PageTree.kidObjects kids)).Agrees
      (pages ++ (PageTree.leafPaths.kidsLeafPaths document kids).map
        (PDFPage.ofPath document attributes))
      (visitReferences visited (PageTree.kidReferences.kidsReferences kids)) := by
  induction kids generalizing pages visited with
  | nil =>
    right; left
    simp [PageTree.kidObjects, PDFPage.parseKids, PageTree.leafPaths.kidsLeafPaths,
      PageTree.kidReferences.kidsReferences, visitReferences]
  | cons kid rest ihr =>
    have ihRest := ihr (fun k hk => ih k (List.mem_cons_of_mem _ hk))
    have ihKid := ih kid (List.mem_cons_self _ _) pages (kid.1 :: visited)
    simp only [PageTree.kidObjects, List.map_cons, PDFPage.parseKids,
      PageTree.leafPaths.kidsLeafPaths, PageTree.kidReferences.kidsReferences, visitReferences]
    by_cases hm : kid.1 ∈ visited
    · right; right
      simp only [hm, if_true]
      exact ⟨trivial, pages, rfl⟩
    · simp only [hm, if_false]
      rw [visitReferences_append]
      rcases ihKid with hk | ⟨ht, hk⟩ | ⟨ht, partialPages, hk⟩
      · left
        rw [hk]
      · rw [hk]
        simp only [ht, if_true]
        have := ihRest (pages ++ kid.2.pagesOf document attributes (PDFObject.reference kid.1))
          (visitReferences (kid.1 :: visited) kid.2.kidReferences).2
        simpa [PageTree.kidObjects, PageTree.pagesOf, List.append_assoc] using this
      · right; right
        rw [hk]
        simp only [ht]
        exact ⟨by simp [ht], partialPages, rfl⟩

theorem parseImpl_agrees (document : PDFDocument) (tree : PageTree) :
    ∀ (node : PDFObject), tree.Describes document node →
      ∀ (fuel : Nat) (pages : List PDFPage) (visited : List PDFObjectReference)
        (attributes : PDFPageInheritableAttributes),
      (PDFPage.parseImpl document fuel pages visited attributes node).Agrees
        (pages ++ tree.pagesOf document attributes node)
        (visitReferences visited tree.kidReferences) := by
  induction tree using PageTree.induct with
  | page =>
    intro node hd fuel pages visited attributes
    obtain ⟨dictionary, hnode, htype, hrot⟩ := hd
    cases fuel with
    | zero => left; rfl
    | succ fuel =>
      right; left
      refine ⟨rfl, ?_⟩
      simp only [PDFPage.parseImpl, hnode, htype, attributes_parse_congr hnode,
        attributes_parse_ok hrot]
      simp [PageTree.pagesOf, PageTree.leafPaths, PDFPage.ofPath, dictionaryOf_eq hnode,
        PageTree.kidReferences, visitReferences]
  | pages kids ih =>
    intro node hd fuel pages visited attributes
    obtain ⟨⟨dictionary, hnode, htype, hrot, hkids⟩, hdesc⟩ := hd
    rw [kidsDescribed_iff] at hdesc
    cases fuel with
    | zero => left; rfl
    | succ fuel =>
      have := parseKids_agrees document fuel (attributes.resolve dictionary document) kids
        (fun kid hk pages1 visited1 => ih kid hk _ (hdesc kid hk) fuel pages1 visited1 _)
        pages visited
      simp only [PDFPage.parseImpl, hnode, htype, attributes_parse_congr hnode,
        attributes_parse_ok hrot, hkids, if_true]
      rw [pagesOf_pages, dictionaryOf_eq hnode]
      simpa [PageTree.kidReferences] using this

/-! ### The visited set only grows -/

theorem parseKids_visited_suffix
    (descend : List PDFPage → List PDFObjectReference → PDFObject → ParseOutcome)
    (hdescend : ∀ pages visited kid pages1 visited1,
      descend pages visited kid = ParseOutcome.done pages1 visited1 →
        ∃ added, visited1 = added ++ visited)
    (kids : List PDFObject) :
    ∀ pages visited pages1 visited1,
      PDFPage.parseKids descend pages visited kids = ParseOutcome.done pages1 visited1 →
        ∃ added, visited1 = added ++ visited := by
  induction kids with
  | nil =>
    intro pages visited pages1 visited1 h
    simp only [PDFPage.parseKids, ParseOutcome.done.injEq] at h
    exact ⟨[], by simp [h.2]⟩
  | cons kid rest ih =>
    intro pages visited pages1 visited1 h
    cases kid with
    | reference ref =>
      simp only [PDFPage.parseKids] at h
      by_cases hm : ref ∈ visited
      · simp [hm] at h
      · simp only [hm, if_false] at h
        cases hd : descend pages (ref :: visited) (PDFObject.reference ref) with
        | done pages2 visited2 =>
          rw [hd] at h
          obtain ⟨added2, h2⟩ := hdescend _ _ _ _ _ hd
          obtain ⟨added, ha⟩ := ih _ _ _ _ h
          exact ⟨added ++ added2 ++ [ref], by rw [ha, h2]; simp⟩
        | thrown e pages2 visited2 => rw [hd] at h; simp at h
        | outOfFuel => rw [hd] at h; simp at h
    | _ => simp [PDFPage.parseKids] at h

theorem parseImpl_visited_suffix (document : PDFDocument) (fuel : Nat) :
    ∀ pages visited attributes node pages1 visited1,
      PDFPage.parseImpl document fuel pages visited attributes node =
          ParseOutcome.done pages1 visited1 →
        ∃ added, visited1 = added ++ visited := by
  induction fuel with
  | zero =>
    intro pages visited attributes node pages1 visited1 h
    simp [PDFPage.parseImpl] at h
  | succ fuel ih =>
    intro pages visited attributes node pages1 visited1 h
    simp only [PDFPage.parseImpl] at h
    split at h
    · split at h
      · split at h
        · simp at h
        · split at h
          · split at h
            · exact parseKids_visited_suffix _ (fun p v k p1 v1 hd => ih p v _ k p1 v1 hd) _ _ _ _ _ h
            · simp at h
          · split at h
            · simp only [ParseOutcome.done.injEq] at h
              exact ⟨[], by simp [h.2]⟩
            · simp at h
      · simp at h
    · simp at h

/-! ### The fuel of `parse` is never used up -/

theorem lookup_eq_null_of_not_mem (objects : List (PDFObjectReference × PDFObject))
    (ref : PDFObjectReference) (h : ∀ entry ∈ objects, entry.1 ≠ ref) :
    PDFDocument.lookup objects ref = PDFObject.null := by
  induction objects with
  | nil => rfl
  | cons entry rest ih =>
    have h1 : entry.1 ≠ ref := h entry (List.mem_cons_self _ _)
    simp only [PDFDocument.lookup, h1, if_false]
    exact ih (fun e he => h e (List.mem_cons_of_mem _ he))

theorem unvisited_append_le (document : PDFDocument) (added visited : List PDFObjectReference) :
    document.unvisited (added ++ visited) ≤ document.unvisited visited := by
  unfold PDFDocument.unvisited
  generalize document.objects = objects
  induction objects with
  | nil => simp
  | cons entry rest ih =>
    simp only [List.filter_cons]
    by_cases h1 : entry.1 ∈ visited
    · have h2 : entry.1 ∈ added ++ visited := List.mem_append_right _ h1
      simpa [h1, h2] using ih
    · by_cases h2 : entry.1 ∈ added ++ visited
      · simp only [h1, h2, not_true_eq_false, decide_False, not_false_eq_true, decide_True,
          if_true, List.length_cons]
        simp only [Bool.false_eq_true, if_false]
        omega
      · simp only [h1, h2, not_false_eq_true, decide_True, if_true, List.length_cons]
        omega

theorem unvisited_cons_lt (document : PDFDocument) (ref : PDFObjectReference)
    (visited : List PDFObjectReference) (hnew : ref ∉ visited)
    (hstored : ∃ entry ∈ document.objects, entry.1 = ref) :
    document.unvisited (ref :: visited) < document.unvisited visited := by
  unfold PDFDocument.unvisited
  obtain ⟨entry, hmem, href⟩ := hstored
  generalize document.objects = objects at hmem
  induction objects with
  | nil => simp at hmem
  | cons first rest ih =>
    have hle := unvisited_append_le ⟨rest⟩ [ref] visited
    simp only [PDFDocument.unvisited, List.singleton_append] at hle
    simp only [List.filter_cons]
    by_cases hf : first.1 = ref
    · have h1 : first.1 ∉ visited := hf ▸ hnew
      have h2 : first.1 ∈ ref :: visited := hf ▸ List.mem_cons_self _ _
      simp only [h1, h2, not_true_eq_false, decide_False, not_false_eq_true, decide_True,
        if_true, List.length_cons, Bool.false_eq_true, if_false]
      omega
    · have hrest : entry ∈ rest := by
        rcases List.mem_cons.mp hmem with h | h
        · exact absurd (h ▸ href) hf
        · exact h
      have := ih hrest
      by_cases h1 : first.1 ∈ visited
      · have h2 : first.1 ∈ ref :: visited := List.mem_cons_of_mem _ h1
        simpa [h1, h2] using this
      · have h2 : first.1 ∉ ref :: visited := by
          intro hc
          rcases List.mem_cons.mp hc with h | h
          · exact hf h
          · exact h1 h
        simp only [h1, h2, not_false_eq_true, decide_True, if_true, List.length_cons]
        omega

theorem parseImpl_ne_outOfFuel (document : PDFDocument) (fuel : Nat) :
    ∀ pages visited attributes node, document.unvisited visited + 2 ≤ fuel →
      PDFPage.parseImpl document fuel pages visited attributes node ≠ ParseOutcome.outOfFuel := by
  induction fuel with
  | zero => intro pages visited attributes node h; omega
  | succ fuel ih =>
    intro pages visited attributes node hfuel
    have loop : ∀ (current : PDFPageInheritableAttributes) (kids : List PDFObject)
        (pages1 : List PDFPage) (visited1 : List PDFObjectReference),
        document.unvisited visited1 + 2 ≤ fuel + 1 →
        PDFPage.parseKids
          (fun p v kid => PDFPage.parseImpl document fuel p v current kid)
          pages1 visited1 kids ≠ ParseOutcome.outOfFuel := by
      intro current kids
      induction kids with
      | nil => intro pages1 visited1 _; simp [PDFPage.parseKids]
      | cons kid rest ihk =>
        intro pages1 visited1 hv
        cases kid with
        | reference ref =>
          simp only [PDFPage.parseKids]
          by_cases hm : ref ∈ visited1
          · simp [hm]
          · simp only [hm, if_false]
            have hdescend : PDFPage.parseImpl document fuel pages1 (ref :: visited1) current
                (PDFObject.reference ref) ≠ ParseOutcome.outOfFuel := by
              by_cases hs : ∃ entry ∈ document.objects, entry.1 = ref
              · have := unvisited_cons_lt document ref visited1 hm hs
                exact ih _ _ _ _ (by omega)
              · have hnull : document.getObject (PDFObject.reference ref) = PDFObject.null :=
                  lookup_eq_null_of_not_mem _ _ (fun e he hc => hs ⟨e, he, hc⟩)
                cases fuel with
                | zero => omega
                | succ fuel => simp [PDFPage.parseImpl, hnull]
            cases hd : PDFPage.parseImpl document fuel pages1 (ref :: visited1) current
                (PDFObject.reference ref) with
            | done pages2 visited2 =>
              simp only []
              obtain ⟨added, ha⟩ := parseImpl_visited_suffix document fuel _ _ _ _ _ _ hd
              apply ihk
              have := unvisited_append_le document (added ++ [ref]) visited1
              rw [ha]
              simp only [List.append_assoc, List.singleton_append] at this
              omega
            | thrown e pages2 visited2 => simp
            | outOfFuel => exact absurd hd hdescend
        | _ => simp [PDFPage.parseKids]
    simp only [PDFPage.parseImpl]
    split
    · split
      · split
        · simp
        · split
          · split
            · exact loop _ _ _ _ hfuel
            · simp
          · split <;> simp
      · simp
    · simp

theorem unvisited_nil_le (document : PDFDocument) :
    document.unvisited [] + 2 ≤ document.parseFuel := by
  unfold PDFDocument.unvisited PDFDocument.parseFuel
  have := List.length_filter_le (fun entry : PDFObjectReference × PDFObject =>
    decide (entry.1 ∉ ([] : List PDFObjectReference))) document.objects
  omega

theorem parse_ne_none (document : PDFDocument) (root : PDFObject) :
    PDFPage.parse document root ≠ none := by
  have := parseImpl_ne_outOfFuel document document.parseFuel [] []
    PDFPageInheritableAttributes.default root (unvisited_nil_le document)
  unfold PDFPage.parse
  split <;> simp_all


/-- Under a described shape, `parse` returns the pages of the shape when no reference repeats. -/
theorem parse_of_describes {document : PDFDocument} {root : PDFObject} {tree : PageTree}
    (hd : tree.Describes document root) :
    (tree.kidReferences.Nodup →
      PDFPage.parse document root = some (Except.ok
        (tree.pagesOf document PDFPageInheritableAttributes.default root))) ∧
    (¬ tree.kidReferences.Nodup →
      PDFPage.parse document root = some (Except.error PDFParserException.detectedCycles)) := by
  have hfuel := parseImpl_ne_outOfFuel document document.parseFuel [] []
    PDFPageInheritableAttributes.default root (unvisited_nil_le document)
  have hagree := parseImpl_agrees document tree root hd document.parseFuel [] []
    PDFPageInheritableAttributes.default
  have htrace := visitReferences_true_iff [] tree.kidReferences
  unfold PDFPage.parse
  rcases hagree with h | ⟨ht, h⟩ | ⟨ht, partialPages, h⟩
  · exact absurd h hfuel
  · constructor
    · intro _
      rw [h]
      simp
    · intro hn
      exact absurd (htrace.mp ht).1 hn
  · constructor
    · intro hn
      have : (visitReferences [] tree.kidReferences).1 = true := htrace.mpr ⟨hn, by simp⟩
      rw [ht] at this
      exact absurd this (by simp)
    · intro _
      rw [h]

theorem leafPaths_length (document : PDFDocument) (tree : PageTree) :
    ∀ node, (tree.leafPaths document node).length = tree.leafCount := by
  induction tree using PageTree.induct with
  | page => intro node; rfl
  | pages kids ih =>
    intro node
    simp only [PageTree.leafPaths, PageTree.leafCount, List.length_map]
    induction kids with
    | nil => rfl
    | cons kid rest ihr =>
      simp only [PageTree.leafPaths.kidsLeafPaths, PageTree.leafCount.kidsLeafCount,
        List.length_append]
      rw [ih kid (List.mem_cons_self _ _), ihr (fun k hk => ih k (List.mem_cons_of_mem _ hk))]

theorem sampleTree_wellFormed : sampleTree.WellFormed sampleDocument (PDFObject.reference (ref 1)) := by
  refine ⟨?_, by decide⟩
  refine ⟨⟨_, rfl, rfl, ?_, rfl⟩, ⟨_, rfl, rfl, ?_⟩, ⟨⟨_, rfl, rfl, ?_, rfl⟩, ⟨_, rfl, rfl, ?_⟩, ⟨_, rfl, rfl, ?_⟩, trivial⟩, trivial⟩
  · intro _; right; left; rfl
  · intro h; exact absurd h (by decide)
  · intro h; exact absurd h (by decide)
  · intro _; right; right; left; rfl
  · intro h; exact absurd h (by decide)

/-- Over a shape that is well formed, `PDFPage::parse` succeeds and returns as many pages as
the shape has `Page` leaves. -/
theorem pages_length_of_wellFormed (document : PDFDocument) (root : PDFObject)
    (tree : PageTree) (h : tree.WellFormed document root) :
    ∃ pages, PDFPage.parse document root = some (Except.ok pages) ∧
      pages.length = tree.leafCount :=
  ⟨_, (parse_of_describes h.1).1 h.2, by
    simp [PageTree.pagesOf, leafPaths_length]⟩

theorem kidsLeafPaths_eq_flatten (document : PDFDocument)
    (kids : List (PDFObjectReference × PageTree)) :
    PageTree.leafPaths.kidsLeafPaths document kids =
      (kids.map (fun kid => kid.2.leafPaths document (PDFObject.reference kid.1))).flatten := by
  induction kids with
  | nil => rfl
  | cons kid rest ih => simp [PageTree.leafPaths.kidsLeafPaths, ih]

theorem pagesOf_pages_flatten (document : PDFDocument) (attributes : PDFPageInheritableAttributes)
    (node : PDFObject) (kids : List (PDFObjectReference × PageTree)) :
    (PageTree.pages kids).pagesOf document attributes node =
      (kids.map (fun kid => kid.2.pagesOf document
        (attributes.resolve (document.dictionaryOf node) document)
        (PDFObject.reference kid.1))).flatten := by
  rw [pagesOf_pages, kidsLeafPaths_eq_flatten]
  simp [PageTree.pagesOf, List.map_flatten, List.map_map, Function.comp_def]

/-- C2: for every well-formed page tree, `PDFPage::parse` returns the pages of the tree in
depth-first, left-to-right order: the result is the page sequence of the root, where the
sequence of a `Page` leaf is its one page and the sequence of a `Pages` node is the
concatenation, in `Kids` array order, of the sequences of its kids (each resolved from the
node's own snapshot), so the pages under kid i come before the pages under kid j for i < j. -/
theorem parse_depth_first_order (document : PDFDocument) (root : PDFObject) (tree : PageTree)
    (h : tree.WellFormed document root) :
    PDFPage.parse document root =
        some (Except.ok (tree.pagesOf document PDFPageInheritableAttributes.default root)) ∧
    (∀ (attributes : PDFPageInheritableAttributes) (node : PDFObject),
      PageTree.page.pagesOf document attributes node =
        [PDFPage.fromLeaf document
          (attributes.resolve (document.dictionaryOf node) document)
          (document.dictionaryOf node)]) ∧
    (∀ (attributes : PDFPageInheritableAttributes) (node : PDFObject)
        (kids : List (PDFObjectReference × PageTree)),
      (PageTree.pages kids).pagesOf document attributes node =
        (kids.map (fun kid => kid.2.pagesOf document
          (attributes.resolve (document.dictionaryOf node) document)
          (PDFObject.reference kid.1))).flatten) :=
  ⟨(parse_of_describes h.1).1 h.2, fun _ _ => rfl, pagesOf_pages_flatten document⟩

theorem parse_depth_first_order_witness :
    sampleTree.WellFormed sampleDocument (PDFObject.reference (ref 1)) ∧
    PDFPage.parse sampleDocument (PDFObject.reference (ref 1)) =
      some (Except.ok
        [ { m_mediaBox := ⟨0, 0, 200, 100⟩, m_cropBox := ⟨0, 0, 200, 100⟩,
            m_bleedBox := ⟨0, 0, 200, 100⟩, m_trimBox := ⟨0, 0, 200, 100⟩,
            m_artBox := ⟨0, 0, 200, 100⟩, m_pageRotation := PageRotation.Rotate90,
            m_resources := PDFObject.dictionary
              [("ProcSet", PDFObject.array [PDFObject.name "PDF"])],
            m_contents := PDFObject.null },
          { m_mediaBox := ⟨0, 0, 612, 792⟩, m_cropBox := ⟨0, 0, 612, 792⟩,
            m_bleedBox := ⟨0, 0, 612, 792⟩, m_trimBox := ⟨0, 0, 612, 792⟩,
            m_artBox := ⟨0, 0, 612, 792⟩, m_pageRotation := PageRotation.Rotate180,
            m_resources := PDFObject.dictionary
              [("ProcSet", PDFObject.array [PDFObject.name "PDF"])],
            m_contents := PDFObject.null },
          { m_mediaBox := ⟨0, 0, 612, 792⟩, m_cropBox := ⟨0, 0, 612, 792⟩,
            m_bleedBox := ⟨0, 0, 612, 792⟩, m_trimBox := ⟨0, 0, 612, 792⟩,
            m_artBox := ⟨0, 0, 612, 792⟩, m_pageRotation := PageRotation.Rotate90,
            m_resources := PDFObject.dictionary
              [("ProcSet", PDFObject.array [PDFObject.name "PDF"])],
            m_contents := PDFObject.null } ]) :=
  ⟨sampleTree_wellFormed,
    (parse_depth_first_order sampleDocument (PDFObject.reference (ref 1)) sampleTree
      sampleTree_wellFormed).1.trans rfl⟩

/-! ### Fields of the resolved snapshot -/

theorem resolve_eq {document : PDFDocument} {dictionary : PDFDictionary}
    (h : dictionary.RotateValid document) (attributes : PDFPageInheritableAttributes) :
    ∃ rotation : Option PageRotation,
      (dictionary.hasKey "Rotate" = false → rotation = attributes.m_pageRotation) ∧
      (dictionary.hasKey "Rotate" = true →
        rotationFromInteger (normalizeRotation (document.readInteger (dictionary.get "Rotate") 0))
          = Except.ok (rotation.getD PageRotation.None) ∧ rotation.isSome = true) ∧
      attributes.resolve dictionary document =
        { m_mediaBox :=
            if dictionary.hasKey "MediaBox" = true then
              document.readRectangle (dictionary.get "MediaBox") attributes.m_mediaBox
            else attributes.m_mediaBox
          m_cropBox :=
            if dictionary.hasKey "CropBox" = true then
              document.readRectangle (dictionary.get "CropBox") attributes.m_cropBox
            else attributes.m_cropBox
          m_resources :=
            if dictionary.hasKey "Resources" = true then dictionary.get "Resources"
            else attributes.m_resources
          m_pageRotation := rotation } := by
  have hok := attributes_parse_ok h attributes
  unfold PDFPageInheritableAttributes.parse at hok
  rw [getObject_dictionary] at hok
  by_cases hr : PDFDictionary.hasKey dictionary "Rotate" = true
  · obtain ⟨pageRotation, hp⟩ := rotationFromInteger_ok_of_valid (h hr)
    refine ⟨some pageRotation, fun hc => absurd hr (by simp [hc]), fun _ => ⟨hp, rfl⟩, ?_⟩
    simp only [hr, hp, if_true] at hok
    rw [← Except.ok.inj hok]
    split_ifs <;> rfl
  · refine ⟨attributes.m_pageRotation, fun _ => rfl, fun hc => absurd hc hr, ?_⟩
    simp only [hr, if_false] at hok
    rw [← Except.ok.inj hok]
    split_ifs <;> rfl

theorem resolve_mediaBox {document : PDFDocument} {dictionary : PDFDictionary}
    (h : dictionary.RotateValid document) (attributes : PDFPageInheritableAttributes) :
    (attributes.resolve dictionary document).m_mediaBox =
      if dictionary.hasKey "MediaBox" = true then
        document.readRectangle (dictionary.get "MediaBox") attributes.m_mediaBox
      else attributes.m_mediaBox := by
  obtain ⟨rotation, -, -, he⟩ := resolve_eq h attributes
  rw [he]

theorem resolve_cropBox {document : PDFDocument} {dictionary : PDFDictionary}
    (h : dictionary.RotateValid document) (attributes : PDFPageInheritableAttributes) :
    (attributes.resolve dictionary document).m_cropBox =
      if dictionary.hasKey "CropBox" = true then
        document.readRectangle (dictionary.get "CropBox") attributes.m_cropBox
      else attributes.m_cropBox := by
  obtain ⟨rotation, -, -, he⟩ := resolve_eq h attributes
  rw [he]

theorem resolve_resources {document : PDFDocument} {dictionary : PDFDictionary}
    (h : dictionary.RotateValid document) (attributes : PDFPageInheritableAttributes) :
    (attributes.resolve dictionary document).m_resources =
      if dictionary.hasKey "Resources" = true then dictionary.get "Resources"
      else attributes.m_resources := by
  obtain ⟨rotation, -, -, he⟩ := resolve_eq h attributes
  rw [he]

/-! ### Ways through a described shape -/

theorem ofPath_append_leaf (document : PDFDocument) (ancestors : List PDFDictionary)
    (leaf : PDFDictionary) (attributes : PDFPageInheritableAttributes) :
    PDFPage.ofPath document attributes (ancestors ++ [leaf]) =
      PDFPage.fromLeaf document
        ((ancestors.foldl (fun current dictionary => current.resolve dictionary document)
          attributes).resolve leaf document) leaf := by
  induction ancestors generalizing attributes with
  | nil => rfl
  | cons first rest ih =>
    rw [List.cons_append, ofPath_cons document attributes first (by simp), ih]
    rfl

theorem leafPaths_rotateValid (document : PDFDocument) (tree : PageTree) :
    ∀ node, tree.Describes document node →
      ∀ path ∈ tree.leafPaths document node, ∀ dictionary ∈ path,
        PDFDictionary.RotateValid document dictionary := by
  induction tree using PageTree.induct with
  | page =>
    intro node hd path hp dictionary hmem
    obtain ⟨d, hnode, -, hrot⟩ := hd
    simp only [PageTree.leafPaths, dictionaryOf_eq hnode, List.mem_singleton] at hp
    subst hp
    simp only [List.mem_singleton] at hmem
    subst hmem
    exact hrot
  | pages kids ih =>
    intro node hd path hp dictionary hmem
    obtain ⟨⟨d, hnode, -, hrot, -⟩, hdesc⟩ := hd
    rw [kidsDescribed_iff] at hdesc
    simp only [PageTree.leafPaths, dictionaryOf_eq hnode, List.mem_map,
      kidsLeafPaths_eq_flatten, List.mem_flatten] at hp
    obtain ⟨rest, ⟨paths, ⟨kid, hkid, rfl⟩, hrest⟩, rfl⟩ := hp
    rcases List.mem_cons.mp hmem with rfl | hmem
    · exact hrot
    · exact ih kid hkid _ (hdesc kid hkid) rest hrest dictionary hmem

/-- The page at an index of the result is the page at the end of the way with that index. -/
theorem parse_index_of_path {document : PDFDocument} {root : PDFObject} {tree : PageTree}
    (h : tree.WellFormed document root) {index : Nat} {path : List PDFDictionary}
    (hpath : (tree.leafPaths document root)[index]? = some path) :
    ∃ pages, PDFPage.parse document root = some (Except.ok pages) ∧
      pages[index]? = some (PDFPage.ofPath document PDFPageInheritableAttributes.default path) ∧
      ∀ dictionary ∈ path, PDFDictionary.RotateValid document dictionary := by
  refine ⟨_, (parse_of_describes h.1).1 h.2, ?_, ?_⟩
  · simp [PageTree.pagesOf, hpath]
  · exact leafPaths_rotateValid document tree root h.1 path (List.getElem?_mem hpath)

/-! ### Inheritance along a way -/

theorem get_eq_null_of_hasKey_false (dictionary : PDFDictionary) (key : String)
    (h : dictionary.hasKey key = false) : dictionary.get key = PDFObject.null := by
  induction dictionary with
  | nil => rfl
  | cons entry rest ih =>
    simp only [PDFDictionary.hasKey, List.any_cons, Bool.or_eq_false_iff] at h
    simp only [PDFDictionary.get, h.1]
    exact ih (by simpa [PDFDictionary.hasKey] using h.2)

theorem readRectangle_null (document : PDFDocument) (defaultValue : QRectF) :
    document.readRectangle PDFObject.null defaultValue = defaultValue := rfl

theorem foldl_resolve_resources_of_absent (document : PDFDocument)
    (dictionaries : List PDFDictionary)
    (hvalid : ∀ dictionary ∈ dictionaries, PDFDictionary.RotateValid document dictionary)
    (habsent : ∀ dictionary ∈ dictionaries, PDFDictionary.hasKey dictionary "Resources" = false)
    (attributes : PDFPageInheritableAttributes) :
    (dictionaries.foldl (fun current dictionary => current.resolve dictionary document)
      attributes).m_resources = attributes.m_resources := by
  induction dictionaries generalizing attributes with
  | nil => rfl
  | cons first rest ih =>
    rw [List.foldl_cons,
      ih (fun d hd => hvalid d (List.mem_cons_of_mem _ hd))
        (fun d hd => habsent d (List.mem_cons_of_mem _ hd)),
      resolve_resources (hvalid first (List.mem_cons_self _ _)),
      habsent first (List.mem_cons_self _ _)]
    simp

theorem foldl_resolve_cropBox_of_absent (document : PDFDocument)
    (dictionaries : List PDFDictionary)
    (hvalid : ∀ dictionary ∈ dictionaries, PDFDictionary.RotateValid document dictionary)
    (habsent : ∀ dictionary ∈ dictionaries, PDFDictionary.hasKey dictionary "CropBox" = false)
    (attributes : PDFPageInheritableAttributes) :
    (dictionaries.foldl (fun current dictionary => current.resolve dictionary document)
      attributes).m_cropBox = attributes.m_cropBox := by
  induction dictionaries generalizing attributes with
  | nil => rfl
  | cons first rest ih =>
    rw [List.foldl_cons,
      ih (fun d hd => hvalid d (List.mem_cons_of_mem _ hd))
        (fun d hd => habsent d (List.mem_cons_of_mem _ hd)),
      resolve_cropBox (hvalid first (List.mem_cons_self _ _)),
      habsent first (List.mem_cons_self _ _)]
    simp

/-- C6: in a well-formed page tree, a `Page` leaf whose own dictionary has a `MediaBox` entry
holding a rectangle and no `Resources` key gives a page whose media box is the leaf's own
`MediaBox` and whose resources are the dereferenced `Resources` entry of the nearest ancestor
`Pages` node that has a `Resources` key.  The leaf is the one at `index` in depth-first
order; `ancestors` are the dictionaries of the nodes above it, the root's first. -/
theorem leaf_own_mediaBox_inherited_resources (document : PDFDocument) (root : PDFObject)
    (tree : PageTree) (h : tree.WellFormed document root) (index : Nat)
    (ancestors outer inner : List PDFDictionary) (holder leaf : PDFDictionary) (box : QRectF)
    (hpath : (tree.leafPaths document root)[index]? = some (ancestors ++ [leaf]))
    (hmedia : leaf.hasKey "MediaBox" = true)
    (hbox : ∀ defaultValue, document.readRectangle (leaf.get "MediaBox") defaultValue = box)
    (hnone : leaf.hasKey "Resources" = false)
    (hancestors : ancestors = outer ++ holder :: inner)
    (hholder : holder.hasKey "Resources" = true)
    (hinner : ∀ dictionary ∈ inner, PDFDictionary.hasKey dictionary "Resources" = false) :
    ∃ pages page, PDFPage.parse document root = some (Except.ok pages) ∧
      pages[index]? = some page ∧
      page.m_mediaBox = box ∧
      page.m_resources = document.getObject (holder.get "Resources") := by
  obtain ⟨pages, hparse, hpage, hvalid⟩ := parse_index_of_path h hpath
  refine ⟨pages, _, hparse, hpage, ?_, ?_⟩
  · rw [ofPath_append_leaf]
    show (PDFPageInheritableAttributes.resolve _ leaf document).m_mediaBox = box
    rw [resolve_mediaBox (hvalid leaf (by simp)), hmedia, if_pos rfl, hbox]
  · rw [ofPath_append_leaf]
    show document.getObject (PDFPageInheritableAttributes.resolve _ leaf document).m_resources
      = document.getObject (holder.get "Resources")
    rw [resolve_resources (hvalid leaf (by simp)), hnone, hancestors, List.foldl_append,
      List.foldl_cons,
      foldl_resolve_resources_of_absent document inner
        (fun d hd => hvalid d (by simp [hancestors, hd])) hinner,
      resolve_resources (hvalid holder (by simp [hancestors])), hholder]
    simp

theorem leaf_own_mediaBox_inherited_resources_witness :
    ∃ pages page,
      PDFPage.parse sampleDocument (PDFObject.reference (ref 1)) = some (Except.ok pages) ∧
      pages[0]? = some page ∧
      page.m_mediaBox = ⟨0, 0, 200, 100⟩ ∧
      page.m_resources =
        PDFObject.dictionary [("ProcSet", PDFObject.array [PDFObject.name "PDF"])] :=
  leaf_own_mediaBox_inherited_resources sampleDocument (PDFObject.reference (ref 1)) sampleTree
    sampleTree_wellFormed 0
    [sampleDocument.dictionaryOf (PDFObject.reference (ref 1))] [] []
    (sampleDocument.dictionaryOf (PDFObject.reference (ref 1)))
    (sampleDocument.dictionaryOf (PDFObject.reference (ref 2)))
    ⟨0, 0, 200, 100⟩ rfl rfl (fun _ => rfl) rfl rfl rfl
    (fun _ hd => absurd hd (List.not_mem_nil _))

/-- C7, as stated, fails: the leaf of `cropDocument` has none of the keys `CropBox`,
`BleedBox`, `TrimBox`, `ArtBox`, yet its crop, bleed, trim and art boxes are the `CropBox`
inherited from the root and differ from its media box. -/
theorem leaf_boxes_differ_from_mediaBox_under_inherited_cropBox :
    (cropDocument.dictionaryOf (PDFObject.reference (ref 2))).hasKey "CropBox" = false ∧
    (cropDocument.dictionaryOf (PDFObject.reference (ref 2))).hasKey "BleedBox" = false ∧
    (cropDocument.dictionaryOf (PDFObject.reference (ref 2))).hasKey "TrimBox" = false ∧
    (cropDocument.dictionaryOf (PDFObject.reference (ref 2))).hasKey "ArtBox" = false ∧
    ∃ page, PDFPage.parse cropDocument (PDFObject.reference (ref 1)) = some (Except.ok [page]) ∧
      page.m_mediaBox = ⟨0, 0, 612, 792⟩ ∧
      page.m_cropBox = ⟨10, 10, 90, 90⟩ ∧ page.m_bleedBox = ⟨10, 10, 90, 90⟩ ∧
      page.m_trimBox = ⟨10, 10, 90, 90⟩ ∧ page.m_artBox = ⟨10, 10, 90, 90⟩ ∧
      page.m_cropBox ≠ page.m_mediaBox ∧ page.m_bleedBox ≠ page.m_mediaBox ∧
      page.m_trimBox ≠ page.m_mediaBox ∧ page.m_artBox ≠ page.m_mediaBox :=
  ⟨rfl, rfl, rfl, rfl, _, rfl, rfl, rfl, rfl, rfl, rfl, by decide, by decide, by decide,
    by decide⟩

/-- C7, amended: in a well-formed page tree, a `Page` leaf whose own dictionary has none of
the keys `CropBox`, `BleedBox`, `TrimBox`, `ArtBox` and none of whose ancestors has a
`CropBox` key gives a page whose crop, bleed, trim and art boxes all equal its effective
media box. -/
theorem leaf_boxes_fall_back_to_mediaBox (document : PDFDocument) (root : PDFObject)
    (tree : PageTree) (h : tree.WellFormed document root) (index : Nat)
    (ancestors : List PDFDictionary) (leaf : PDFDictionary)
    (hpath : (tree.leafPaths document root)[index]? = some (ancestors ++ [leaf]))
    (hcrop : leaf.hasKey "CropBox" = false) (hbleed : leaf.hasKey "BleedBox" = false)
    (htrim : leaf.hasKey "TrimBox" = false) (hart : leaf.hasKey "ArtBox" = false)
    (hancestors : ∀ dictionary ∈ ancestors, PDFDictionary.hasKey dictionary "CropBox" = false) :
    ∃ pages page, PDFPage.parse document root = some (Except.ok pages) ∧
      pages[index]? = some page ∧
      page.m_cropBox = page.m_mediaBox ∧ page.m_bleedBox = page.m_mediaBox ∧
      page.m_trimBox = page.m_mediaBox ∧ page.m_artBox = page.m_mediaBox := by
  obtain ⟨pages, hparse, hpage, hvalid⟩ := parse_index_of_path h hpath
  refine ⟨pages, _, hparse, hpage, ?_⟩
  rw [ofPath_append_leaf]
  have hsnapshot : (PDFPageInheritableAttributes.resolve
      (ancestors.foldl (fun current dictionary => current.resolve dictionary document)
        PDFPageInheritableAttributes.default) leaf document).m_cropBox = QRectF.null := by
    rw [resolve_cropBox (hvalid leaf (by simp)), hcrop,
      foldl_resolve_cropBox_of_absent document ancestors
        (fun d hd => hvalid d (by simp [hd])) hancestors]
    rfl
  simp only [PDFPage.fromLeaf, hsnapshot, get_eq_null_of_hasKey_false _ _ hbleed,
    get_eq_null_of_hasKey_false _ _ htrim, get_eq_null_of_hasKey_false _ _ hart,
    readRectangle_null]
  exact ⟨rfl, rfl, rfl, rfl⟩

theorem leaf_boxes_fall_back_to_mediaBox_witness :
    ∃ pages page,
      PDFPage.parse sampleDocument (PDFObject.reference (ref 1)) = some (Except.ok pages) ∧
      pages[2]? = some page ∧
      page.m_cropBox = page.m_mediaBox ∧ page.m_bleedBox = page.m_mediaBox ∧
      page.m_trimBox = page.m_mediaBox ∧ page.m_artBox = page.m_mediaBox :=
  leaf_boxes_fall_back_to_mediaBox sampleDocument (PDFObject.reference (ref 1)) sampleTree
    sampleTree_wellFormed 2
    [sampleDocument.dictionaryOf (PDFObject.reference (ref 1)),
      sampleDocument.dictionaryOf (PDFObject.reference (ref 3))]
    (sampleDocument.dictionaryOf (PDFObject.reference (ref 5)))
    rfl rfl rfl rfl rfl
    (fun d hd => by
      rcases List.mem_cons.mp hd with rfl | hd
      · rfl
      · rcases List.mem_cons.mp hd with rfl | hd
        · rfl
        · exact absurd hd (List.not_mem_nil _))

/-! ### More fuel does not change a finished walk -/

theorem parseKids_fuel_mono
    (descend descend1 : List PDFPage → List PDFObjectReference → PDFObject → ParseOutcome)
    (hdescend : ∀ pages visited kid, descend pages visited kid ≠ ParseOutcome.outOfFuel →
      descend1 pages visited kid = descend pages visited kid)
    (kids : List PDFObject) :
    ∀ pages visited, PDFPage.parseKids descend pages visited kids ≠ ParseOutcome.outOfFuel →
      PDFPage.parseKids descend1 pages visited kids =
        PDFPage.parseKids descend pages visited kids := by
  induction kids with
  | nil => intro pages visited _; rfl
  | cons kid rest ih =>
    intro pages visited h
    cases kid with
    | reference ref =>
      simp only [PDFPage.parseKids] at h ⊢
      by_cases hm : ref ∈ visited
      · simp [hm]
      · simp only [hm, if_false] at h ⊢
        cases hd : descend pages (ref :: visited) (PDFObject.reference ref) with
        | done pages2 visited2 =>
          rw [hd] at h
          rw [hdescend _ _ _ (by rw [hd]; simp), hd]
          exact ih _ _ h
        | thrown e pages2 visited2 =>
          rw [hdescend _ _ _ (by rw [hd]; simp), hd]
        | outOfFuel => rw [hd] at h; exact absurd rfl h
    | _ => rfl

theorem parseImpl_succ (document : PDFDocument) (fuel : Nat) (pages : List PDFPage)
    (visited : List PDFObjectReference) (attributes : PDFPageInheritableAttributes)
    (node : PDFObject) :
    PDFPage.parseImpl document (fuel + 1) pages visited attributes node =
      match document.getObject node with
      | PDFObject.dictionary entries =>
        match document.getObject (PDFDictionary.get entries "Type") with
        | PDFObject.name typeString =>
          match PDFPageInheritableAttributes.parse attributes node document with
          | Except.error e => ParseOutcome.thrown e pages visited
          | Except.ok current =>
            if typeString = "Pages" then
              match document.getObject (PDFDictionary.get entries "Kids") with
              | PDFObject.array kidsArray =>
                PDFPage.parseKids
                  (fun pages1 visited1 kid =>
                    PDFPage.parseImpl document fuel pages1 visited1 current kid)
                  pages visited kidsArray
              | _ => ParseOutcome.thrown PDFParserException.expectedValidKids pages visited
            else if typeString = "Page" then
              ParseOutcome.done (pages ++ [PDFPage.fromLeaf document current entries]) visited
            else ParseOutcome.thrown PDFParserException.expectedValidTypeItem pages visited
        | _ => ParseOutcome.thrown PDFParserException.expectedValidTypeItem pages visited
      | _ => ParseOutcome.thrown PDFParserException.expectedDictionary pages visited := rfl

theorem parseImpl_fuel_succ (document : PDFDocument) (fuel : Nat) :
    ∀ pages visited attributes node,
      PDFPage.parseImpl document fuel pages visited attributes node ≠ ParseOutcome.outOfFuel →
      PDFPage.parseImpl document (fuel + 1) pages visited attributes node =
        PDFPage.parseImpl document fuel pages visited attributes node := by
  induction fuel with
  | zero => intro pages visited attributes node h; exact absurd rfl h
  | succ fuel ih =>
    intro pages visited attributes node h
    rw [parseImpl_succ document fuel] at h ⊢
    rw [parseImpl_succ document (fuel + 1)]
    split
    · split
      · split
        · rfl
        · split
          · split
            · rename_i hk
              simp only [*] at h
              exact parseKids_fuel_mono _ _ (fun p v k hne => ih p v _ k hne) _ _ _ h
            · rfl
          · rfl
      · rfl
    · rfl

theorem parseImpl_fuel_mono (document : PDFDocument) (fuel more : Nat)
    (pages : List PDFPage) (visited : List PDFObjectReference)
    (attributes : PDFPageInheritableAttributes) (node : PDFObject)
    (h : PDFPage.parseImpl document fuel pages visited attributes node ≠ ParseOutcome.outOfFuel) :
    PDFPage.parseImpl document (fuel + more) pages visited attributes node =
      PDFPage.parseImpl document fuel pages visited attributes node := by
  induction more with
  | zero => rfl
  | succ more ih =>
    rw [← Nat.add_assoc, parseImpl_fuel_succ document (fuel + more) _ _ _ _ (by rw [ih]; exact h),
      ih]

/-- Two finished walks from the same start agree, whatever their fuel. -/
theorem parseImpl_fuel_agree (document : PDFDocument) (fuel1 fuel2 : Nat)
    (pages : List PDFPage) (visited : List PDFObjectReference)
    (attributes : PDFPageInheritableAttributes) (node : PDFObject)
    (h1 : PDFPage.parseImpl document fuel1 pages visited attributes node ≠ ParseOutcome.outOfFuel)
    (h2 : PDFPage.parseImpl document fuel2 pages visited attributes node ≠ ParseOutcome.outOfFuel) :
    PDFPage.parseImpl document fuel1 pages visited attributes node =
      PDFPage.parseImpl document fuel2 pages visited attributes node := by
  rw [← parseImpl_fuel_mono document fuel1 fuel2 _ _ _ _ h1,
    ← parseImpl_fuel_mono document fuel2 fuel1 _ _ _ _ h2, Nat.add_comm]

/-- The walk started by `parse` gives the outcome of any finished walk from the same start. -/
theorem parseImpl_parseFuel_eq (document : PDFDocument) (root : PDFObject) (fuel : Nat)
    (h : PDFPage.parseImpl document fuel [] [] PDFPageInheritableAttributes.default root ≠
      ParseOutcome.outOfFuel) :
    PDFPage.parseImpl document document.parseFuel [] [] PDFPageInheritableAttributes.default root
      = PDFPage.parseImpl document fuel [] [] PDFPageInheritableAttributes.default root :=
  parseImpl_fuel_agree document _ _ _ _ _ _
    (parseImpl_ne_outOfFuel document document.parseFuel [] []
      PDFPageInheritableAttributes.default root (unvisited_nil_le document)) h

/-- C8: `PDFPage::parse` is all-or-nothing.  Whenever the walk from the root ends with an
exception (whatever its fuel in the embedding, whichever of the structural errors it is, and
whatever pages had been appended to the working list at that moment), `parse` hands the
caller the exception alone and none of the pages. -/
theorem parse_all_or_nothing (document : PDFDocument) (root : PDFObject) (fuel : Nat)
    (exception : PDFParserException) (partialPages : List PDFPage)
    (visited : List PDFObjectReference)
    (h : PDFPage.parseImpl document fuel [] [] PDFPageInheritableAttributes.default root =
      ParseOutcome.thrown exception partialPages visited) :
    PDFPage.parse document root = some (Except.error exception) := by
  unfold PDFPage.parse
  rw [parseImpl_parseFuel_eq document root fuel (by rw [h]; simp), h]

theorem parse_all_or_nothing_witness :
    (∃ page, PDFPage.parseImpl brokenSecondKidDocument 2 [] []
        PDFPageInheritableAttributes.default (PDFObject.reference (ref 1)) =
      ParseOutcome.thrown PDFParserException.invalidPageRotation [page] [ref 3, ref 2]) ∧
    PDFPage.parse brokenSecondKidDocument (PDFObject.reference (ref 1)) =
      some (Except.error PDFParserException.invalidPageRotation) :=
  ⟨⟨_, rfl⟩,
    parse_all_or_nothing brokenSecondKidDocument (PDFObject.reference (ref 1)) 2
      PDFParserException.invalidPageRotation _ [ref 3, ref 2] rfl⟩

/-- C4, the failing input: a dictionary with `Rotate` -90, a negative multiple of 90, is
rejected with "Invalid page rotation." (the truncating division leaves -90 as it is), while
`Rotate` 450 is accepted and normalised to 90. -/
theorem attributes_parse_rotate_minus_90_throws (document : PDFDocument)
    (templateAttributes : PDFPageInheritableAttributes) :
    PDFPageInheritableAttributes.parse templateAttributes
        (PDFObject.dictionary [("Rotate", PDFObject.int (-90))]) document =
      Except.error PDFParserException.invalidPageRotation ∧
    normalizeRotation (-90) = -90 ∧
    PDFPageInheritableAttributes.parse templateAttributes
        (PDFObject.dictionary [("Rotate", PDFObject.int 450)]) document =
      Except.ok { templateAttributes with m_pageRotation := some PageRotation.Rotate90 } :=
  ⟨rfl, rfl, rfl⟩

theorem normalizeRotation_not_canonical (rotation : Int) (h : ¬ (90 ∣ rotation)) :
    rotationFromInteger (normalizeRotation rotation) =
      Except.error PDFParserException.invalidPageRotation := by
  unfold rotationFromInteger normalizeRotation
  generalize Int.tdiv rotation 360 = fullCircles
  simp only []
  split_ifs <;> first | rfl | omega

/-- C5: for every integer r that is not a multiple of 90, the attribute resolver applied to
a node whose dictionary has `Rotate` = r (directly or through a reference) throws "Invalid
page rotation." and so yields no snapshot. -/
theorem attributes_parse_rejects_non_multiple_of_90 (document : PDFDocument)
    (templateAttributes : PDFPageInheritableAttributes) (node : PDFObject)
    (dictionary : PDFDictionary) (rotation : Int)
    (hnode : document.getObject node = PDFObject.dictionary dictionary)
    (hrotate : document.getObject (dictionary.get "Rotate") = PDFObject.int rotation)
    (hmultiple : ¬ (90 ∣ rotation)) :
    PDFPageInheritableAttributes.parse templateAttributes node document =
      Except.error PDFParserException.invalidPageRotation := by
  have hkey : dictionary.hasKey "Rotate" = true := by
    by_contra hc
    have hnull := get_eq_null_of_hasKey_false dictionary "Rotate" (by simpa using hc)
    rw [hnull] at hrotate
    exact absurd hrotate (by simp [PDFDocument.getObject])
  have hread : document.readInteger (dictionary.get "Rotate") 0 = rotation := by
    unfold PDFDocument.readInteger
    rw [hrotate]
  rw [attributes_parse_congr hnode]
  unfold PDFPageInheritableAttributes.parse
  rw [getObject_dictionary]
  simp only [hkey, hread, normalizeRotation_not_canonical rotation hmultiple, if_true]

theorem attributes_parse_rejects_non_multiple_of_90_witness :
    ¬ ((90 : Int) ∣ 37) ∧
    PDFPageInheritableAttributes.parse PDFPageInheritableAttributes.default
        (PDFObject.reference (ref 1)) catalogDocument =
      Except.error PDFParserException.invalidPageRotation :=
  ⟨by decide,
    attributes_parse_rejects_non_multiple_of_90 catalogDocument
      PDFPageInheritableAttributes.default (PDFObject.reference (ref 1))
      [("Type", PDFObject.name "Catalog"), ("Rotate", PDFObject.int 37)] 37 rfl rfl
      (by decide)⟩

/-- C9: the visited set is shared by the whole walk.  In a page tree that is sound node by
node, if some reference occurs a second time among the `Kids` entries (in walk order, the
shared part unrolled under each parent, be it a `Pages` node or a `Page` leaf),
`PDFPage::parse` fails with "Detected cycles in page tree.", and the exception is thrown at
the first repeated reference: at that moment the visited set holds exactly the references
met before it, each once. -/
theorem parse_repeated_reference_is_cycle (document : PDFDocument) (root : PDFObject)
    (tree : PageTree) (hdescribes : tree.Describes document root)
    (hrepeated : ¬ tree.kidReferences.Nodup) :
    PDFPage.parse document root = some (Except.error PDFParserException.detectedCycles) ∧
    ∃ (before after : List PDFObjectReference) (repeated : PDFObjectReference)
        (partialPages : List PDFPage),
      tree.kidReferences = before ++ repeated :: after ∧ before.Nodup ∧ repeated ∈ before ∧
      PDFPage.parseImpl document document.parseFuel [] [] PDFPageInheritableAttributes.default
          root =
        ParseOutcome.thrown PDFParserException.detectedCycles partialPages before.reverse := by
  refine ⟨(parse_of_describes hdescribes).2 hrepeated, ?_⟩
  have hfuel := parseImpl_ne_outOfFuel document document.parseFuel [] []
    PDFPageInheritableAttributes.default root (unvisited_nil_le document)
  have hagree := parseImpl_agrees document tree root hdescribes document.parseFuel [] []
    PDFPageInheritableAttributes.default
  rcases hagree with h | ⟨ht, -⟩ | ⟨ht, partialPages, h⟩
  · exact absurd h hfuel
  · exact absurd ((visitReferences_true_iff [] tree.kidReferences).mp ht).1 hrepeated
  · obtain ⟨before, repeated, after, hsplit, hnodup, -, hmem, hset⟩ :=
      visitReferences_false_split [] tree.kidReferences ht
    refine ⟨before, after, repeated, partialPages, hsplit, hnodup, ?_, ?_⟩
    · rcases hmem with hm | hm
      · exact hm
      · exact absurd hm (List.not_mem_nil _)
    · rw [h, hset, List.append_nil]

theorem diamondTree_describes :
    diamondTree.Describes diamondDocument (PDFObject.reference (ref 1)) :=
  ⟨⟨_, rfl, rfl, fun h => absurd h (by decide), rfl⟩,
    ⟨⟨_, rfl, rfl, fun h => absurd h (by decide), rfl⟩,
      ⟨_, rfl, rfl, fun h => absurd h (by decide)⟩, trivial⟩,
    ⟨⟨_, rfl, rfl, fun h => absurd h (by decide), rfl⟩,
      ⟨_, rfl, rfl, fun h => absurd h (by decide)⟩, trivial⟩,
    trivial⟩

theorem parse_repeated_reference_is_cycle_witness :
    diamondTree.kidReferences = [ref 2, ref 4, ref 3, ref 4] ∧
    PDFPage.parse diamondDocument (PDFObject.reference (ref 1)) =
      some (Except.error PDFParserException.detectedCycles) :=
  ⟨rfl,
    (parse_repeated_reference_is_cycle diamondDocument (PDFObject.reference (ref 1)) diamondTree
      diamondTree_describes (by decide)).1⟩

/-! ### Cycles -/

theorem parseKids_done_all
    (descend : List PDFPage → List PDFObjectReference → PDFObject → ParseOutcome)
    (kids : List PDFObject) :
    ∀ pages visited pages1 visited1,
      PDFPage.parseKids descend pages visited kids = ParseOutcome.done pages1 visited1 →
      ∀ kid ∈ kids, ∃ p v p1 v1, descend p v kid = ParseOutcome.done p1 v1 := by
  induction kids with
  | nil => intro _ _ _ _ _ kid hk; exact absurd hk (List.not_mem_nil _)
  | cons first rest ih =>
    intro pages visited pages1 visited1 h kid hk
    cases first with
    | reference ref =>
      simp only [PDFPage.parseKids] at h
      by_cases hm : ref ∈ visited
      · simp [hm] at h
      · simp only [hm, if_false] at h
        cases hd : descend pages (ref :: visited) (PDFObject.reference ref) with
        | done pages2 visited2 =>
          rw [hd] at h
          rcases List.mem_cons.mp hk with rfl | hk
          · exact ⟨_, _, _, _, hd⟩
          · exact ih _ _ _ _ h kid hk
        | thrown e pages2 visited2 => rw [hd] at h; simp at h
        | outOfFuel => rw [hd] at h; simp at h
    | _ => simp [PDFPage.parseKids] at h

/-- A walk that returns normally has met no node that is its own descendant. -/
theorem parseImpl_done_acyclic (document : PDFDocument) (fuel : Nat) :
    ∀ pages visited attributes node pages1 visited1,
      PDFPage.parseImpl document fuel pages visited attributes node =
          ParseOutcome.done pages1 visited1 →
      ∀ reached, Relation.ReflTransGen document.IsKid node reached →
        ¬ Relation.TransGen document.IsKid reached reached := by
  induction fuel with
  | zero =>
    intro pages visited attributes node pages1 visited1 h
    simp [PDFPage.parseImpl] at h
  | succ fuel ih =>
    intro pages visited attributes node pages1 visited1 h
    rw [parseImpl_succ] at h
    split at h
    · rename_i entries hnode
      split at h
      · rename_i typeString htype
        split at h
        · simp at h
        · split at h
          · rename_i hpages
            split at h
            · rename_i kidsArray hkids
              have hall := parseKids_done_all _ _ _ _ _ _ h
              have hkid : ∀ kid, document.IsKid node kid → ∀ reached,
                  Relation.ReflTransGen document.IsKid kid reached →
                  ¬ Relation.TransGen document.IsKid reached reached := by
                intro kid hk
                obtain ⟨dictionary, kids, hn, -, hks, hmem⟩ := hk
                rw [hnode] at hn
                cases hn
                rw [hkids] at hks
                cases hks
                obtain ⟨p, v, p1, v1, hd⟩ := hall kid hmem
                exact ih _ _ _ _ _ _ hd
              intro reached hreach hcycle
              rcases Relation.ReflTransGen.cases_head hreach with heq | ⟨kid, hk, hrest⟩
              · subst heq
                obtain ⟨kid, hk, hback⟩ := Relation.TransGen.head'_iff.mp hcycle
                exact hkid kid hk node hback hcycle
              · exact hkid kid hk reached hrest hcycle
            · simp at h
          · rename_i hpages
            have hnokid : ∀ kid, ¬ document.IsKid node kid := by
              rintro kid ⟨dictionary, kids, hn, ht, -, -⟩
              rw [hnode] at hn
              cases hn
              rw [htype] at ht
              cases ht
              exact hpages rfl
            intro reached hreach hcycle
            rcases Relation.ReflTransGen.cases_head hreach with heq | ⟨kid, hk, -⟩
            · subst heq
              obtain ⟨kid, hk, -⟩ := Relation.TransGen.head'_iff.mp hcycle
              exact hnokid kid hk
            · exact hnokid kid hk
      · simp at h
    · simp at h

/-- In a graph that is sound node by node, the walk can only end normally or with the cycle
exception (or run out of fuel). -/
theorem parseImpl_sound_outcome (document : PDFDocument) (fuel : Nat) :
    ∀ pages visited attributes node,
      (∀ reached, Relation.ReflTransGen document.IsKid node reached →
        document.NodeSound reached) →
      PDFPage.parseImpl document fuel pages visited attributes node = ParseOutcome.outOfFuel ∨
      (∃ p v, PDFPage.parseImpl document fuel pages visited attributes node =
        ParseOutcome.done p v) ∨
      (∃ p v, PDFPage.parseImpl document fuel pages visited attributes node =
        ParseOutcome.thrown PDFParserException.detectedCycles p v) := by
  induction fuel with
  | zero => intro _ _ _ _ _; left; rfl
  | succ fuel ih =>
    intro pages visited attributes node hsound
    obtain ⟨dictionary, hnode, hrotate, htype⟩ := hsound node Relation.ReflTransGen.refl
    rw [parseImpl_succ]
    rcases htype with htype | ⟨htype, references, hkids⟩
    · right; left
      simp only [hnode, htype, attributes_parse_congr hnode, attributes_parse_ok hrotate]
      exact ⟨_, _, rfl⟩
    · simp only [hnode, htype, attributes_parse_congr hnode, attributes_parse_ok hrotate, hkids,
        if_true]
      have loop : ∀ (rest : List PDFObjectReference),
          (∀ r ∈ rest, document.IsKid node (PDFObject.reference r)) →
          ∀ (pages1 : List PDFPage) (visited1 : List PDFObjectReference),
          PDFPage.parseKids
              (fun p v kid => PDFPage.parseImpl document fuel p v
                (attributes.resolve dictionary document) kid)
              pages1 visited1 (rest.map PDFObject.reference) = ParseOutcome.outOfFuel ∨
          (∃ p v, PDFPage.parseKids
              (fun p v kid => PDFPage.parseImpl document fuel p v
                (attributes.resolve dictionary document) kid)
              pages1 visited1 (rest.map PDFObject.reference) = ParseOutcome.done p v) ∨
          (∃ p v, PDFPage.parseKids
              (fun p v kid => PDFPage.parseImpl document fuel p v
                (attributes.resolve dictionary document) kid)
              pages1 visited1 (rest.map PDFObject.reference) =
                ParseOutcome.thrown PDFParserException.detectedCycles p v) := by
        intro rest
        induction rest with
        | nil => intro _ pages1 visited1; right; left; exact ⟨_, _, rfl⟩
        | cons r rest ihr =>
          intro hk pages1 visited1
          simp only [List.map_cons, PDFPage.parseKids]
          by_cases hm : r ∈ visited1
          · right; right
            simp only [hm, if_true]
            exact ⟨_, _, rfl⟩
          · simp only [hm, if_false]
            have hkid := hk r (List.mem_cons_self _ _)
            rcases ih pages1 (r :: visited1) (attributes.resolve dictionary document)
              (PDFObject.reference r)
              (fun reached hr => hsound reached (Relation.ReflTransGen.head hkid hr))
              with hd | ⟨p, v, hd⟩ | ⟨p, v, hd⟩
            · left; rw [hd]
            · rw [hd]
              exact ihr (fun r1 h1 => hk r1 (List.mem_cons_of_mem _ h1)) p v
            · right; right; rw [hd]; exact ⟨_, _, rfl⟩
      exact loop references
        (fun r hr => ⟨dictionary, _, hnode, htype, hkids, List.mem_map_of_mem _ hr⟩) pages visited

/-- C3, as stated, fails: in `cycleBehindBadRotateDocument` the `Pages` node 3 is reachable
from the root and is its own kid, yet `parse` fails with the rotation error of the page
visited before it, not with the cycle error. -/
theorem parse_cycle_behind_bad_rotate_reports_rotation :
    Relation.ReflTransGen cycleBehindBadRotateDocument.IsKid (PDFObject.reference (ref 1))
      (PDFObject.reference (ref 3)) ∧
    Relation.TransGen cycleBehindBadRotateDocument.IsKid (PDFObject.reference (ref 3))
      (PDFObject.reference (ref 3)) ∧
    PDFPage.parse cycleBehindBadRotateDocument (PDFObject.reference (ref 1)) =
      some (Except.error PDFParserException.invalidPageRotation) ∧
    PDFPage.parse cycleBehindBadRotateDocument (PDFObject.reference (ref 1)) ≠
      some (Except.error PDFParserException.detectedCycles) := by
  refine ⟨?_, ?_, rfl, ?_⟩
  · exact Relation.ReflTransGen.single
      ⟨_, _, rfl, rfl, rfl, List.mem_cons_of_mem _ (List.mem_cons_self _ _)⟩
  · exact Relation.TransGen.single ⟨_, _, rfl, rfl, rfl, List.mem_cons_self _ _⟩
  · have h : PDFPage.parse cycleBehindBadRotateDocument (PDFObject.reference (ref 1)) =
        some (Except.error PDFParserException.invalidPageRotation) := rfl
    rw [h]
    simp

/-- C3, amended: for every page tree in which every node reachable from the root is sound on
its own (a dictionary of type `Pages` or `Page`, `Kids` an array of references, `Rotate`
accepted) and some node reachable from the root has itself among its `Kids`, directly or
transitively, `PDFPage::parse` fails with "Detected cycles in page tree." and returns no
pages. -/
theorem parse_cycle_detected (document : PDFDocument) (root : PDFObject)
    (hsound : ∀ reached, Relation.ReflTransGen document.IsKid root reached →
      document.NodeSound reached)
    (hcycle : ∃ node, Relation.ReflTransGen document.IsKid root node ∧
      Relation.TransGen document.IsKid node node) :
    PDFPage.parse document root = some (Except.error PDFParserException.detectedCycles) := by
  have hfuel := parseImpl_ne_outOfFuel document document.parseFuel [] []
    PDFPageInheritableAttributes.default root (unvisited_nil_le document)
  obtain ⟨node, hreach, hloop⟩ := hcycle
  unfold PDFPage.parse
  rcases parseImpl_sound_outcome document document.parseFuel [] []
    PDFPageInheritableAttributes.default root hsound with h | ⟨p, v, h⟩ | ⟨p, v, h⟩
  · exact absurd h hfuel
  · exact absurd hloop (parseImpl_done_acyclic document _ _ _ _ _ _ _ h node hreach)
  · rw [h]

theorem isKid_iff_mem_kidsOf (document : PDFDocument) (parent kid : PDFObject) :
    document.IsKid parent kid ↔ kid ∈ document.kidsOf parent := by
  unfold PDFDocument.IsKid PDFDocument.kidsOf
  constructor
  · rintro ⟨dictionary, kids, hn, ht, hk, hmem⟩
    simp only [hn, ht, hk, if_true]
    exact hmem
  · intro h
    split at h
    · rename_i entries hn
      split at h
      · rename_i typeString ht
        split at h
        · rename_i hp
          split at h
          · rename_i kids hk
            subst hp
            exact ⟨entries, kids, hn, ht, hk, h⟩
          · exact absurd h (List.not_mem_nil _)
        · exact absurd h (List.not_mem_nil _)
      · exact absurd h (List.not_mem_nil _)
    · exact absurd h (List.not_mem_nil _)

theorem cyclicDocument_reachable (node : PDFObject)
    (h : Relation.ReflTransGen cyclicDocument.IsKid (PDFObject.reference (ref 1)) node) :
    node = PDFObject.reference (ref 1) ∨ node = PDFObject.reference (ref 2) ∨
      node = PDFObject.reference (ref 3) := by
  induction h with
  | refl => exact Or.inl rfl
  | tail _ hkid ih =>
    rw [isKid_iff_mem_kidsOf] at hkid
    rcases ih with rfl | rfl | rfl
    · have hk : cyclicDocument.kidsOf (PDFObject.reference (ref 1)) =
          [PDFObject.reference (ref 2), PDFObject.reference (ref 3)] := rfl
      rw [hk] at hkid
      rcases List.mem_cons.mp hkid with rfl | hkid
      · exact Or.inr (Or.inl rfl)
      · rcases List.mem_cons.mp hkid with rfl | hkid
        · exact Or.inr (Or.inr rfl)
        · exact absurd hkid (List.not_mem_nil _)
    · have hk : cyclicDocument.kidsOf (PDFObject.reference (ref 2)) = [] := rfl
      rw [hk] at hkid
      exact absurd hkid (List.not_mem_nil _)
    · have hk : cyclicDocument.kidsOf (PDFObject.reference (ref 3)) =
          [PDFObject.reference (ref 1)] := rfl
      rw [hk] at hkid
      rcases List.mem_cons.mp hkid with rfl | hkid
      · exact Or.inl rfl
      · exact absurd hkid (List.not_mem_nil _)

theorem cyclicDocument_sound (node : PDFObject)
    (h : Relation.ReflTransGen cyclicDocument.IsKid (PDFObject.reference (ref 1)) node) :
    cyclicDocument.NodeSound node := by
  rcases cyclicDocument_reachable node h with rfl | rfl | rfl
  · exact ⟨_, rfl, fun h => absurd h (by decide), Or.inr ⟨rfl, [ref 2, ref 3], rfl⟩⟩
  · exact ⟨_, rfl, fun h => absurd h (by decide), Or.inl rfl⟩
  · exact ⟨_, rfl, fun h => absurd h (by decide), Or.inr ⟨rfl, [ref 1], rfl⟩⟩

theorem cyclicDocument_cycle :
    Relation.TransGen cyclicDocument.IsKid (PDFObject.reference (ref 1))
      (PDFObject.reference (ref 1)) :=
  Relation.TransGen.head
    ⟨_, _, rfl, rfl, rfl, List.mem_cons_of_mem _ (List.mem_cons_self _ _)⟩
    (Relation.TransGen.single ⟨_, _, rfl, rfl, rfl, List.mem_cons_self _ _⟩)

theorem parse_cycle_detected_witness :
    Relation.TransGen cyclicDocument.IsKid (PDFObject.reference (ref 1))
      (PDFObject.reference (ref 1)) ∧
    PDFPage.parse cyclicDocument (PDFObject.reference (ref 1)) =
      some (Except.error PDFParserException.detectedCycles) :=
  ⟨cyclicDocument_cycle,
    parse_cycle_detected cyclicDocument (PDFObject.reference (ref 1)) cyclicDocument_sound
      ⟨PDFObject.reference (ref 1), Relation.ReflTransGen.refl, cyclicDocument_cycle⟩⟩

/-! ### The resolver as a frame -/

theorem rotationFromInteger_ok_degrees {rotation : Int} {pageRotation : PageRotation}
    (h : rotationFromInteger rotation = Except.ok pageRotation) :
    pageRotation.degrees = rotation := by
  unfold rotationFromInteger at h
  split_ifs at h with h0 h90 h180 h270
  · cases h; rw [h0]; rfl
  · cases h; rw [h90]; rfl
  · cases h; rw [h180]; rfl
  · cases h; rw [h270]; rfl

theorem rotateValid_of_parse_ok {document : PDFDocument} {dictionary : PDFDictionary}
    {templateAttributes result : PDFPageInheritableAttributes}
    (h : PDFPageInheritableAttributes.parse templateAttributes
      (PDFObject.dictionary dictionary) document = Except.ok result) :
    dictionary.RotateValid document := by
  intro hkey
  unfold PDFPageInheritableAttributes.parse at h
  rw [getObject_dictionary] at h
  simp only [hkey, if_true] at h
  cases hr : rotationFromInteger
      (normalizeRotation (document.readInteger (PDFDictionary.get dictionary "Rotate") 0)) with
  | error e => rw [hr] at h; cases h
  | ok pageRotation =>
    have hd := rotationFromInteger_ok_degrees hr
    unfold validRotation
    rw [← hd]
    cases pageRotation
    · exact Or.inl rfl
    · exact Or.inr (Or.inl rfl)
    · exact Or.inr (Or.inr (Or.inl rfl))
    · exact Or.inr (Or.inr (Or.inr rfl))

theorem parse_ok_eq_resolve {document : PDFDocument} {dictionary : PDFDictionary}
    {templateAttributes result : PDFPageInheritableAttributes}
    (h : PDFPageInheritableAttributes.parse templateAttributes
      (PDFObject.dictionary dictionary) document = Except.ok result) :
    result = templateAttributes.resolve dictionary document := by
  have := attributes_parse_ok (rotateValid_of_parse_ok h) templateAttributes
  rw [h] at this
  exact Except.ok.inj this

/-- C14: the attribute resolver returns the template unchanged when the node does not
dereference to a dictionary; when it does and a snapshot is returned, every field whose key
(`MediaBox`, `CropBox`, `Resources`, `Rotate`) is absent from the dictionary is the template's
field.  The template is an argument of a function and so is the same value afterwards. -/
theorem attributes_parse_keeps_template (document : PDFDocument)
    (templateAttributes : PDFPageInheritableAttributes) (node : PDFObject) :
    ((∀ dictionary, document.getObject node ≠ PDFObject.dictionary dictionary) →
      PDFPageInheritableAttributes.parse templateAttributes node document =
        Except.ok templateAttributes) ∧
    (∀ (dictionary : PDFDictionary) (result : PDFPageInheritableAttributes),
      document.getObject node = PDFObject.dictionary dictionary →
      PDFPageInheritableAttributes.parse templateAttributes node document = Except.ok result →
      (dictionary.hasKey "MediaBox" = false → result.m_mediaBox = templateAttributes.m_mediaBox) ∧
      (dictionary.hasKey "CropBox" = false → result.m_cropBox = templateAttributes.m_cropBox) ∧
      (dictionary.hasKey "Resources" = false →
        result.m_resources = templateAttributes.m_resources) ∧
      (dictionary.hasKey "Rotate" = false →
        result.m_pageRotation = templateAttributes.m_pageRotation)) := by
  constructor
  · intro hnot
    unfold PDFPageInheritableAttributes.parse
    split
    · rename_i entries hnode
      exact absurd hnode (hnot entries)
    · rfl
  · intro dictionary result hnode hparse
    rw [attributes_parse_congr hnode] at hparse
    have hvalid := rotateValid_of_parse_ok hparse
    rw [parse_ok_eq_resolve hparse]
    obtain ⟨rotation, hnone, -, he⟩ := resolve_eq hvalid templateAttributes
    rw [he]
    refine ⟨?_, ?_, ?_, ?_⟩
    · intro hk; simp [hk]
    · intro hk; simp [hk]
    · intro hk; simp [hk]
    · intro hk; exact hnone hk

theorem attributes_parse_keeps_template_witness :
    PDFPageInheritableAttributes.parse PDFPageInheritableAttributes.default
        (PDFObject.reference (ref 7)) sampleDocument =
      Except.ok PDFPageInheritableAttributes.default ∧
    ∀ result,
      PDFPageInheritableAttributes.parse PDFPageInheritableAttributes.default
          (PDFObject.reference (ref 2)) sampleDocument = Except.ok result →
      result.m_cropBox = QRectF.null ∧ result.m_resources = PDFObject.null ∧
        result.m_pageRotation = none :=
  ⟨(attributes_parse_keeps_template sampleDocument PDFPageInheritableAttributes.default
      (PDFObject.reference (ref 7))).1 (fun _ h => by cases h),
    fun result h =>
      have hall := (attributes_parse_keeps_template sampleDocument
        PDFPageInheritableAttributes.default (PDFObject.reference (ref 2))).2
        (sampleDocument.dictionaryOf (PDFObject.reference (ref 2))) result rfl h
      ⟨hall.2.1 rfl, hall.2.2.1 rfl, hall.2.2.2 rfl⟩⟩

/-! ### A normal return comes from a well-formed tree -/

theorem parseImpl_done_describes (document : PDFDocument) (fuel : Nat) :
    ∀ pages visited attributes node pages1 visited1,
      PDFPage.parseImpl document fuel pages visited attributes node =
          ParseOutcome.done pages1 visited1 →
      ∃ tree : PageTree, tree.Describes document node ∧
        (visitReferences visited tree.kidReferences).1 = true := by
  induction fuel with
  | zero =>
    intro pages visited attributes node pages1 visited1 h
    simp [PDFPage.parseImpl] at h
  | succ fuel ih =>
    intro pages visited attributes node pages1 visited1 h
    rw [parseImpl_succ] at h
    split at h
    · rename_i entries hnode
      split at h
      · rename_i typeString htype
        split at h
        · simp at h
        · rename_i current hparse
          rw [attributes_parse_congr hnode] at hparse
          have hvalid := rotateValid_of_parse_ok hparse
          split at h
          · rename_i hpages
            subst hpages
            split at h
            · rename_i kidsArray hkids
              have loop : ∀ (items : List PDFObject) (p : List PDFPage)
                  (v : List PDFObjectReference) (p1 : List PDFPage)
                  (v1 : List PDFObjectReference),
                  PDFPage.parseKids
                    (fun pages1 visited1 kid =>
                      PDFPage.parseImpl document fuel pages1 visited1 current kid)
                    p v items = ParseOutcome.done p1 v1 →
                  ∃ kids : List (PDFObjectReference × PageTree),
                    items = PageTree.kidObjects kids ∧
                    PageTree.Describes.kidsDescribed document kids ∧
                    (visitReferences v (PageTree.kidReferences.kidsReferences kids)).1 = true := by
                intro items
                induction items with
                | nil =>
                  intro p v p1 v1 _
                  exact ⟨[], rfl, trivial, rfl⟩
                | cons kid rest ihr =>
                  intro p v p1 v1 hk
                  cases kid with
                  | reference r =>
                    simp only [PDFPage.parseKids] at hk
                    by_cases hm : r ∈ v
                    · simp [hm] at hk
                    · simp only [hm, if_false] at hk
                      cases hd : PDFPage.parseImpl document fuel p (r :: v) current
                          (PDFObject.reference r) with
                      | done p2 v2 =>
                        rw [hd] at hk
                        obtain ⟨tree, hdesc, htrace⟩ := ih _ _ _ _ _ _ hd
                        have hagree := parseImpl_agrees document tree _ hdesc fuel p (r :: v)
                          current
                        rw [hd] at hagree
                        have hv2 : v2 = (visitReferences (r :: v) tree.kidReferences).2 := by
                          rcases hagree with hc | ⟨-, hc⟩ | ⟨hc, -⟩
                          · cases hc
                          · cases hc; rfl
                          · rw [htrace] at hc; cases hc
                        obtain ⟨kids, hitems, hkd, hkt⟩ := ihr _ _ _ _ hk
                        refine ⟨(r, tree) :: kids, ?_, ⟨hdesc, hkd⟩, ?_⟩
                        · simp [PageTree.kidObjects] at hitems ⊢
                          exact hitems
                        · simp only [PageTree.kidReferences.kidsReferences, visitReferences, hm,
                            if_false]
                          rw [visitReferences_append, htrace, if_pos rfl, ← hv2]
                          exact hkt
                      | thrown e p2 v2 => rw [hd] at hk; simp at hk
                      | outOfFuel => rw [hd] at hk; simp at hk
                  | _ => simp [PDFPage.parseKids] at hk
              obtain ⟨kids, hitems, hkd, hkt⟩ := loop _ _ _ _ _ h
              refine ⟨PageTree.pages kids, ⟨⟨entries, hnode, htype, hvalid, ?_⟩, hkd⟩, hkt⟩
              rw [hkids, hitems]
            · simp at h
          · split at h
            · rename_i hpage
              subst hpage
              exact ⟨PageTree.page, ⟨entries, hnode, htype, hvalid⟩, rfl⟩
            · simp at h
      · simp at h
    · simp at h

/-- Whenever `parse` returns pages, the graph below the root is a well-formed tree and the
pages are the pages of that tree. -/
theorem parse_ok_wellFormed {document : PDFDocument} {root : PDFObject} {pages : List PDFPage}
    (h : PDFPage.parse document root = some (Except.ok pages)) :
    ∃ tree : PageTree, tree.WellFormed document root ∧
      pages = tree.pagesOf document PDFPageInheritableAttributes.default root := by
  have hdone : ∃ visited, PDFPage.parseImpl document document.parseFuel [] []
      PDFPageInheritableAttributes.default root = ParseOutcome.done pages visited := by
    unfold PDFPage.parse at h
    split at h
    · rename_i p v hp
      simp only [Option.some.injEq, Except.ok.injEq] at h
      subst h
      exact ⟨v, hp⟩
    · simp at h
    · simp at h
  obtain ⟨visited, hd⟩ := hdone
  obtain ⟨tree, hdesc, htrace⟩ := parseImpl_done_describes document _ _ _ _ _ _ _ hd
  have hnodup := ((visitReferences_true_iff [] tree.kidReferences).mp htrace).1
  refine ⟨tree, ⟨hdesc, hnodup⟩, ?_⟩
  have := (parse_of_describes hdesc).1 hnodup
  rw [h] at this
  simpa using this

/-! ### Rotation along a way -/

theorem resolve_pageRotation_of_absent {document : PDFDocument} {dictionary : PDFDictionary}
    (h : dictionary.RotateValid document) (attributes : PDFPageInheritableAttributes)
    (habsent : dictionary.hasKey "Rotate" = false) :
    (attributes.resolve dictionary document).m_pageRotation = attributes.m_pageRotation := by
  obtain ⟨rotation, hnone, -, he⟩ := resolve_eq h attributes
  rw [he]
  exact hnone habsent

theorem resolve_pageRotation_of_present {document : PDFDocument} {dictionary : PDFDictionary}
    (h : dictionary.RotateValid document) (attributes : PDFPageInheritableAttributes)
    (hpresent : dictionary.hasKey "Rotate" = true) :
    ∃ pageRotation,
      (attributes.resolve dictionary document).m_pageRotation = some pageRotation ∧
      pageRotation.degrees =
        normalizeRotation (document.readInteger (dictionary.get "Rotate") 0) := by
  obtain ⟨rotation, -, hsome, he⟩ := resolve_eq h attributes
  obtain ⟨hok, hisSome⟩ := hsome hpresent
  cases rotation with
  | none => cases hisSome
  | some pageRotation =>
    refine ⟨pageRotation, by rw [he], ?_⟩
    exact rotationFromInteger_ok_degrees hok

theorem foldl_resolve_pageRotation_of_absent (document : PDFDocument)
    (dictionaries : List PDFDictionary)
    (hvalid : ∀ dictionary ∈ dictionaries, PDFDictionary.RotateValid document dictionary)
    (habsent : ∀ dictionary ∈ dictionaries, PDFDictionary.hasKey dictionary "Rotate" = false)
    (attributes : PDFPageInheritableAttributes) :
    (dictionaries.foldl (fun current dictionary => current.resolve dictionary document)
      attributes).m_pageRotation = attributes.m_pageRotation := by
  induction dictionaries generalizing attributes with
  | nil => rfl
  | cons first rest ih =>
    rw [List.foldl_cons,
      ih (fun d hd => hvalid d (List.mem_cons_of_mem _ hd))
        (fun d hd => habsent d (List.mem_cons_of_mem _ hd)),
      resolve_pageRotation_of_absent (hvalid first (List.mem_cons_self _ _)) _
        (habsent first (List.mem_cons_self _ _))]

theorem ofPath_eq_fromLeaf_foldl (document : PDFDocument) (path : List PDFDictionary)
    (hne : path ≠ []) (attributes : PDFPageInheritableAttributes) :
    ∃ leaf, PDFPage.ofPath document attributes path =
      PDFPage.fromLeaf document
        (path.foldl (fun current dictionary => current.resolve dictionary document) attributes)
        leaf := by
  obtain ⟨ancestors, leaf, rfl⟩ := (List.eq_nil_or_concat path).resolve_left hne
  refine ⟨leaf, ?_⟩
  rw [List.concat_eq_append, ofPath_append_leaf, List.foldl_append]
  rfl

/-- C15: every page returned by `PDFPage::parse` has one of the four canonical rotations.
A result is returned only for a well-formed tree, and the page at any index is the leaf at
that index of the tree: its rotation is the normalised `Rotate` value of the nearest node on
the way from the root to the leaf (the leaf included) that has a `Rotate` key, and
`PageRotation::None` when no node on that way has one. -/
theorem page_rotation_canonical_and_inherited (document : PDFDocument) (root : PDFObject)
    (pages : List PDFPage) (index : Nat) (page : PDFPage)
    (hparse : PDFPage.parse document root = some (Except.ok pages))
    (hpage : pages[index]? = some page) :
    (page.m_pageRotation.degrees = 0 ∨ page.m_pageRotation.degrees = 90 ∨
      page.m_pageRotation.degrees = 180 ∨ page.m_pageRotation.degrees = 270) ∧
    (∃ tree : PageTree, tree.WellFormed document root) ∧
    ∀ tree : PageTree, tree.WellFormed document root →
      ∃ path : List PDFDictionary,
        (tree.leafPaths document root)[index]? = some path ∧
        (∀ (outer inner : List PDFDictionary) (holder : PDFDictionary),
          path = outer ++ holder :: inner → holder.hasKey "Rotate" = true →
          (∀ dictionary ∈ inner, PDFDictionary.hasKey dictionary "Rotate" = false) →
          page.m_pageRotation.degrees =
            normalizeRotation (document.readInteger (holder.get "Rotate") 0)) ∧
        ((∀ dictionary ∈ path, PDFDictionary.hasKey dictionary "Rotate" = false) →
          page.m_pageRotation = PageRotation.None) := by
  refine ⟨?_, ?_, ?_⟩
  · cases page.m_pageRotation
    · exact Or.inl rfl
    · exact Or.inr (Or.inl rfl)
    · exact Or.inr (Or.inr (Or.inl rfl))
    · exact Or.inr (Or.inr (Or.inr rfl))
  · obtain ⟨tree, hwf, -⟩ := parse_ok_wellFormed hparse
    exact ⟨tree, hwf⟩
  · intro tree hwf
    have hpages := (parse_of_describes hwf.1).1 hwf.2
    rw [hparse] at hpages
    simp only [Option.some.injEq, Except.ok.injEq] at hpages
    subst hpages
    simp only [PageTree.pagesOf, List.getElem?_map, Option.map_eq_some'] at hpage
    obtain ⟨path, hpath, hof⟩ := hpage
    have hmem := List.getElem?_mem hpath
    have hvalid := leafPaths_rotateValid document tree root hwf.1 path hmem
    obtain ⟨leaf, hleaf⟩ := ofPath_eq_fromLeaf_foldl document path
      (leafPaths_ne_nil document root tree path hmem) PDFPageInheritableAttributes.default
    have hrot : page.m_pageRotation =
        (path.foldl (fun current dictionary => current.resolve dictionary document)
          PDFPageInheritableAttributes.default).getPageRotation := by
      rw [← hof, hleaf]
      rfl
    refine ⟨path, hpath, ?_, ?_⟩
    · intro outer inner holder hsplit hholder hinner
      subst hsplit
      obtain ⟨pageRotation, hsome, hdeg⟩ := resolve_pageRotation_of_present
        (hvalid holder (by simp))
        (outer.foldl (fun current dictionary => current.resolve dictionary document)
          PDFPageInheritableAttributes.default) hholder
      rw [hrot, List.foldl_append, List.foldl_cons]
      unfold PDFPageInheritableAttributes.getPageRotation
      rw [foldl_resolve_pageRotation_of_absent document inner
        (fun d hd => hvalid d (by simp [hd])) hinner, hsome]
      exact hdeg
    · intro habsent
      rw [hrot]
      unfold PDFPageInheritableAttributes.getPageRotation
      rw [foldl_resolve_pageRotation_of_absent document path hvalid habsent]
      rfl

theorem page_rotation_canonical_and_inherited_witness :
    ∃ pages page,
      PDFPage.parse sampleDocument (PDFObject.reference (ref 1)) = some (Except.ok pages) ∧
      pages[1]? = some page ∧ page.m_pageRotation.degrees = 180 := by
  have hparse := (parse_of_describes sampleTree_wellFormed.1).1 sampleTree_wellFormed.2
  have hpage : (sampleTree.pagesOf sampleDocument PDFPageInheritableAttributes.default
      (PDFObject.reference (ref 1)))[1]? =
      some (PDFPage.ofPath sampleDocument PDFPageInheritableAttributes.default
        [sampleDocument.dictionaryOf (PDFObject.reference (ref 1)),
          sampleDocument.dictionaryOf (PDFObject.reference (ref 3)),
          sampleDocument.dictionaryOf (PDFObject.reference (ref 4))]) := rfl
  refine ⟨_, _, hparse, hpage, ?_⟩
  obtain ⟨path, hpath, hnearest, -⟩ :=
    (page_rotation_canonical_and_inherited sampleDocument (PDFObject.reference (ref 1)) _ 1 _
      hparse hpage).2.2 sampleTree sampleTree_wellFormed
  have hp : path = [sampleDocument.dictionaryOf (PDFObject.reference (ref 1)),
      sampleDocument.dictionaryOf (PDFObject.reference (ref 3)),
      sampleDocument.dictionaryOf (PDFObject.reference (ref 4))] :=
    (Option.some.inj hpath).symm
  exact hnearest [sampleDocument.dictionaryOf (PDFObject.reference (ref 1)),
      sampleDocument.dictionaryOf (PDFObject.reference (ref 3))] []
    (sampleDocument.dictionaryOf (PDFObject.reference (ref 4))) hp rfl
    (fun _ hd => absurd hd (List.not_mem_nil _))

theorem parseKids_append
    (descend : List PDFPage → List PDFObjectReference → PDFObject → ParseOutcome)
    (first second : List PDFObject) :
    ∀ pages visited,
      PDFPage.parseKids descend pages visited (first ++ second) =
        match PDFPage.parseKids descend pages visited first with
        | ParseOutcome.done pages1 visited1 => PDFPage.parseKids descend pages1 visited1 second
        | other => other := by
  induction first with
  | nil => intro pages visited; rfl
  | cons kid rest ih =>
    intro pages visited
    cases kid with
    | reference r =>
      simp only [List.cons_append, PDFPage.parseKids]
      by_cases hm : r ∈ visited
      · simp [hm]
      · simp only [hm, if_false]
        cases descend pages (r :: visited) (PDFObject.reference r) with
        | done p v => exact ih p v
        | thrown e p v => rfl
        | outOfFuel => rfl
    | _ => rfl

/-- The loop over kids that are described by shapes and whose references are all new returns
normally, with the traced visited set. -/
theorem parseKids_described (document : PDFDocument) (fuel : Nat)
    (attributes : PDFPageInheritableAttributes)
    (kids : List (PDFObjectReference × PageTree))
    (hdescribed : PageTree.Describes.kidsDescribed document kids)
    (pages : List PDFPage) (visited : List PDFObjectReference)
    (hfresh : (visitReferences visited (PageTree.kidReferences.kidsReferences kids)).1 = true) :
    PDFPage.parseKids
        (fun pages1 visited1 kid =>
          PDFPage.parseImpl document fuel pages1 visited1 attributes kid)
        pages visited (PageTree.kidObjects kids) = ParseOutcome.outOfFuel ∨
    ∃ pages1, PDFPage.parseKids
        (fun pages1 visited1 kid =>
          PDFPage.parseImpl document fuel pages1 visited1 attributes kid)
        pages visited (PageTree.kidObjects kids) =
      ParseOutcome.done pages1
        (visitReferences visited (PageTree.kidReferences.kidsReferences kids)).2 := by
  rw [kidsDescribed_iff] at hdescribed
  have hagree := parseKids_agrees document fuel attributes kids
    (fun kid hk p v => parseImpl_agrees document kid.2 _ (hdescribed kid hk) fuel p v attributes)
    pages visited
  rcases hagree with h | ⟨-, h⟩ | ⟨ht, -⟩
  · exact Or.inl h
  · exact Or.inr ⟨_, h⟩
  · rw [hfresh] at ht
    cases ht

theorem parseImpl_trail (document : PDFDocument) (exception : PDFParserException)
    (targetReferences : List PDFObjectReference) (trail : PageTrail) :
    ∀ node, trail.Leads document node →
      (∀ fuel pages visited attributes,
        (visitReferences visited targetReferences).1 = true →
        PDFPage.parseImpl document fuel pages visited attributes (trail.target node) =
            ParseOutcome.outOfFuel ∨
          ∃ p v, PDFPage.parseImpl document fuel pages visited attributes (trail.target node) =
            ParseOutcome.thrown exception p v) →
      ∀ fuel pages visited attributes,
        (visitReferences visited (trail.references ++ targetReferences)).1 = true →
        PDFPage.parseImpl document fuel pages visited attributes node =
            ParseOutcome.outOfFuel ∨
          ∃ p v, PDFPage.parseImpl document fuel pages visited attributes node =
            ParseOutcome.thrown exception p v := by
  induction trail with
  | stop =>
    intro node _ hlocal fuel pages visited attributes hfresh
    exact hlocal fuel pages visited attributes hfresh
  | step before reference after rest ih =>
    intro node hleads hlocal fuel pages visited attributes hfresh
    obtain ⟨⟨dictionary, hnode, htype, hrotate, hkids⟩, hbefore, hrest⟩ := hleads
    cases fuel with
    | zero => left; rfl
    | succ fuel =>
      rw [parseImpl_succ]
      simp only [hnode, htype, attributes_parse_congr hnode, attributes_parse_ok hrotate, hkids,
        if_true]
      rw [parseKids_append]
      simp only [PageTrail.references, List.append_assoc, List.cons_append] at hfresh
      rw [visitReferences_append] at hfresh
      have hfirst : (visitReferences visited
          (PageTree.kidReferences.kidsReferences before)).1 = true := by
        by_contra hc
        simp only [hc, if_false] at hfresh
        exact hc hfresh
      simp only [hfirst, if_true] at hfresh
      rcases parseKids_described document fuel (attributes.resolve dictionary document) before
        hbefore pages visited hfirst with hb | ⟨pages1, hb⟩
      · left; rw [hb]
      · rw [hb]
        simp only [PDFPage.parseKids]
        generalize (visitReferences visited
          (PageTree.kidReferences.kidsReferences before)).2 = visited1 at hfresh ⊢
        by_cases hm : reference ∈ visited1
        · simp [visitReferences, hm] at hfresh
        · simp only [visitReferences, hm, if_false] at hfresh ⊢
          rcases ih (PDFObject.reference reference) hrest hlocal fuel pages1
            (reference :: visited1) (attributes.resolve dictionary document) hfresh
            with hd | ⟨p, v, hd⟩
          · left; rw [hd]
          · right; rw [hd]; exact ⟨p, v, rfl⟩

/-- An exception thrown at the end of a way whose references are all new is what `parse`
reports. -/
theorem parse_trail (document : PDFDocument) (root : PDFObject) (trail : PageTrail)
    (exception : PDFParserException) (targetReferences : List PDFObjectReference)
    (hleads : trail.Leads document root)
    (hfresh : (trail.references ++ targetReferences).Nodup)
    (hlocal : ∀ fuel pages visited attributes,
      (visitReferences visited targetReferences).1 = true →
      PDFPage.parseImpl document fuel pages visited attributes (trail.target root) =
          ParseOutcome.outOfFuel ∨
        ∃ p v, PDFPage.parseImpl document fuel pages visited attributes (trail.target root) =
          ParseOutcome.thrown exception p v) :
    PDFPage.parse document root = some (Except.error exception) := by
  have hfuel := parseImpl_ne_outOfFuel document document.parseFuel [] []
    PDFPageInheritableAttributes.default root (unvisited_nil_le document)
  have htrace : (visitReferences [] (trail.references ++ targetReferences)).1 = true :=
    (visitReferences_true_iff [] _).mpr ⟨hfresh, by simp⟩
  unfold PDFPage.parse
  rcases parseImpl_trail document exception targetReferences trail root hleads hlocal
    document.parseFuel [] [] PDFPageInheritableAttributes.default htrace with h | ⟨p, v, h⟩
  · exact absurd h hfuel
  · rw [h]

/-- C11: for every node reached by the walk (the root or a kid reference at the end of a way
whose earlier kids are sound and whose references are all new): if it dereferences to
anything that is not a dictionary (a dangling reference gives the null object),
`PDFPage::parse` fails with "Expected dictionary in page tree."; if it is a dictionary whose
`Type` entry does not dereference to a name (an absent entry gives the null object), it fails
with "Expected valid type item in page tree.".  Nothing is assumed about the node's `Rotate`
entry: the inheritable attributes are read only after the type test. -/
theorem parse_expected_dictionary_and_type (document : PDFDocument) (root : PDFObject)
    (trail : PageTrail) (hleads : trail.Leads document root)
    (hfresh : trail.references.Nodup) :
    ((∀ dictionary, document.getObject (trail.target root) ≠ PDFObject.dictionary dictionary) →
      PDFPage.parse document root =
        some (Except.error PDFParserException.expectedDictionary)) ∧
    (∀ dictionary : PDFDictionary,
      document.getObject (trail.target root) = PDFObject.dictionary dictionary →
      (∀ typeString, document.getObject (dictionary.get "Type") ≠ PDFObject.name typeString) →
      PDFPage.parse document root =
        some (Except.error PDFParserException.expectedValidTypeItem)) := by
  constructor
  · intro hnot
    apply parse_trail document root trail _ [] hleads (by simpa using hfresh)
    intro fuel pages visited attributes _
    cases fuel with
    | zero => left; rfl
    | succ fuel =>
      right
      rw [parseImpl_succ]
      split
      · rename_i entries hnode
        exact absurd hnode (hnot entries)
      · exact ⟨_, _, rfl⟩
  · intro dictionary hnode htype
    apply parse_trail document root trail _ [] hleads (by simpa using hfresh)
    intro fuel pages visited attributes _
    cases fuel with
    | zero => left; rfl
    | succ fuel =>
      right
      rw [parseImpl_succ]
      simp only [hnode]
      exact ⟨_, _, rfl⟩

theorem missingTypeTrail_leads :
    missingTypeTrail.Leads missingTypeDocument (PDFObject.reference (ref 1)) :=
  ⟨⟨_, rfl, rfl, fun h => absurd h (by decide), rfl⟩,
    ⟨⟨_, rfl, rfl, fun h => absurd h (by decide)⟩, trivial⟩,
    ⟨_, rfl, rfl, fun h => absurd h (by decide), rfl⟩, trivial, trivial⟩

theorem danglingKidTrail_leads :
    danglingKidTrail.Leads danglingKidDocument (PDFObject.reference (ref 1)) :=
  ⟨⟨_, rfl, rfl, fun h => absurd h (by decide), rfl⟩, trivial,
    ⟨_, rfl, rfl, fun h => absurd h (by decide), rfl⟩, trivial, trivial⟩

theorem parse_expected_dictionary_and_type_witness :
    PDFPage.parse danglingKidDocument (PDFObject.reference (ref 1)) =
      some (Except.error PDFParserException.expectedDictionary) ∧
    (missingTypeDocument.dictionaryOf (PDFObject.reference (ref 4))).hasKey "Rotate" = true ∧
    PDFPage.parse missingTypeDocument (PDFObject.reference (ref 1)) =
      some (Except.error PDFParserException.expectedValidTypeItem) :=
  ⟨(parse_expected_dictionary_and_type danglingKidDocument (PDFObject.reference (ref 1))
      danglingKidTrail danglingKidTrail_leads (by decide)).1 (fun _ h => by cases h),
    rfl,
    (parse_expected_dictionary_and_type missingTypeDocument (PDFObject.reference (ref 1))
      missingTypeTrail missingTypeTrail_leads (by decide)).2
      [("Rotate", PDFObject.int 37)] rfl (fun _ h => by cases h)⟩

/-- C12, as stated, fails: the root of `pagesBadRotateDocument` is a `Pages` node without a
`Kids` entry, and `parse` fails on it with the rotation error, not with the kids error. -/
theorem parse_pages_without_kids_reports_rotation :
    (∃ dictionary : PDFDictionary,
      pagesBadRotateDocument.getObject (PDFObject.reference (ref 1)) =
        PDFObject.dictionary dictionary ∧
      pagesBadRotateDocument.getObject (dictionary.get "Type") = PDFObject.name "Pages" ∧
      dictionary.hasKey "Kids" = false) ∧
    PDFPage.parse pagesBadRotateDocument (PDFObject.reference (ref 1)) =
      some (Except.error PDFParserException.invalidPageRotation) ∧
    PDFPage.parse pagesBadRotateDocument (PDFObject.reference (ref 1)) ≠
      some (Except.error PDFParserException.expectedValidKids) :=
  ⟨⟨_, rfl, rfl, rfl⟩, rfl, by
    have h : PDFPage.parse pagesBadRotateDocument (PDFObject.reference (ref 1)) =
      some (Except.error PDFParserException.invalidPageRotation) := rfl
    rw [h]
    simp⟩

/-- C12, amended: for every `Pages` node reached by the walk whose `Rotate` entry, if
present, is accepted by the attribute resolver: if its `Kids` entry does not dereference to
an array (an absent entry gives the null object), `PDFPage::parse` fails with "Expected valid
kids in page tree."; if `Kids` is an array with an element that is not a reference, and the
elements before it are references to sound subtrees with new references (so that this
element is reached), `parse` fails with the same message. -/
theorem parse_invalid_kids (document : PDFDocument) (root : PDFObject) (trail : PageTrail)
    (dictionary : PDFDictionary) (hleads : trail.Leads document root)
    (hnode : document.getObject (trail.target root) = PDFObject.dictionary dictionary)
    (htype : document.getObject (dictionary.get "Type") = PDFObject.name "Pages")
    (hrotate : dictionary.RotateValid document) :
    ((∀ items, document.getObject (dictionary.get "Kids") ≠ PDFObject.array items) →
      trail.references.Nodup →
      PDFPage.parse document root =
        some (Except.error PDFParserException.expectedValidKids)) ∧
    (∀ (before : List (PDFObjectReference × PageTree)) (element : PDFObject)
        (after : List PDFObject),
      document.getObject (dictionary.get "Kids") =
        PDFObject.array (PageTree.kidObjects before ++ element :: after) →
      (∀ reference, element ≠ PDFObject.reference reference) →
      PageTree.Describes.kidsDescribed document before →
      (trail.references ++ PageTree.kidReferences.kidsReferences before).Nodup →
      PDFPage.parse document root =
        some (Except.error PDFParserException.expectedValidKids)) := by
  constructor
  · intro hkids hfresh
    apply parse_trail document root trail _ [] hleads (by simpa using hfresh)
    intro fuel pages visited attributes _
    cases fuel with
    | zero => left; rfl
    | succ fuel =>
      right
      rw [parseImpl_succ]
      simp only [hnode, htype, attributes_parse_congr hnode, attributes_parse_ok hrotate, if_true]
      exact ⟨_, _, rfl⟩
  · intro before element after hkids helement hbefore hfresh
    apply parse_trail document root trail _ (PageTree.kidReferences.kidsReferences before)
      hleads hfresh
    intro fuel pages visited attributes htrace
    cases fuel with
    | zero => left; rfl
    | succ fuel =>
      rw [parseImpl_succ]
      simp only [hnode, htype, attributes_parse_congr hnode, attributes_parse_ok hrotate, hkids,
        if_true]
      rw [parseKids_append]
      rcases parseKids_described document fuel (attributes.resolve dictionary document) before
        hbefore pages visited htrace with hb | ⟨pages1, hb⟩
      · left; rw [hb]
      · right
        rw [hb]
        cases element with
        | reference r => exact absurd rfl (helement r)
        | _ => exact ⟨_, _, rfl⟩

theorem parse_invalid_kids_witness :
    PDFPage.parse kidsDocument (PDFObject.reference (ref 1)) =
      some (Except.error PDFParserException.expectedValidKids) ∧
    PDFPage.parse kidsDocument (PDFObject.reference (ref 3)) =
      some (Except.error PDFParserException.expectedValidKids) :=
  ⟨(parse_invalid_kids kidsDocument (PDFObject.reference (ref 1))
      (PageTrail.step [] (ref 2) [PDFObject.reference (ref 3)] PageTrail.stop)
      [("Type", PDFObject.name "Pages")]
      ⟨⟨_, rfl, rfl, fun h => absurd h (by decide), rfl⟩, trivial, trivial⟩
      rfl rfl (fun h => absurd h (by decide))).1 (fun _ h => by cases h) (by decide),
    (parse_invalid_kids kidsDocument (PDFObject.reference (ref 3)) PageTrail.stop
      (kidsDocument.dictionaryOf (PDFObject.reference (ref 3))) trivial rfl rfl
      (fun h => absurd h (by decide))).2
      [(ref 4, PageTree.page)] (PDFObject.dictionary [("Type", PDFObject.name "Page")]) []
      rfl (fun _ h => by cases h)
      ⟨⟨_, rfl, rfl, fun h => absurd h (by decide)⟩, trivial⟩ (by decide)⟩

/-! ### Siblings -/

theorem unvisited_le_parseFuel (document : PDFDocument) (visited : List PDFObjectReference) :
    document.unvisited visited + 2 ≤ document.parseFuel := by
  unfold PDFDocument.unvisited PDFDocument.parseFuel
  have := List.length_filter_le (fun entry : PDFObjectReference × PDFObject =>
    decide (entry.1 ∉ visited)) document.objects
  omega

theorem kidsReferences_append (first second : List (PDFObjectReference × PageTree)) :
    PageTree.kidReferences.kidsReferences (first ++ second) =
      PageTree.kidReferences.kidsReferences first ++
        PageTree.kidReferences.kidsReferences second := by
  induction first with
  | nil => rfl
  | cons kid rest ih => simp [PageTree.kidReferences.kidsReferences, ih]

/-- C13: sibling isolation.  At a sound `Pages` node whose kid references are all new, the
walk returns the incoming pages followed by three runs of pages: those under the kids before
a given kid, those under the kid, and those under the kids after it; and the pages under the
kid are exactly what the walk gives when it is started on that kid alone, with an empty page
list and an empty visited set, from the node's own resolved snapshot.  So every kid starts
from the node's snapshot, whatever its siblings and their descendants override. -/
theorem kid_parsed_from_node_snapshot (document : PDFDocument) (node : PDFObject)
    (dictionary : PDFDictionary) (before after : List (PDFObjectReference × PageTree))
    (kid : PDFObjectReference × PageTree)
    (hdescribes : (PageTree.pages (before ++ kid :: after)).Describes document node)
    (hnode : document.getObject node = PDFObject.dictionary dictionary)
    (fuel : Nat) (hfuel : document.parseFuel ≤ fuel)
    (pages : List PDFPage) (visited : List PDFObjectReference)
    (attributes : PDFPageInheritableAttributes)
    (hfresh : (visitReferences visited
      (PageTree.pages (before ++ kid :: after)).kidReferences).1 = true) :
    ∃ (pagesBefore pagesOfKid pagesAfter : List PDFPage)
        (visitedEnd visitedOfKid : List PDFObjectReference),
      PDFPage.parseImpl document (fuel + 1) pages visited attributes node =
        ParseOutcome.done (pages ++ pagesBefore ++ pagesOfKid ++ pagesAfter) visitedEnd ∧
      PDFPage.parseImpl document fuel [] [] (attributes.resolve dictionary document)
          (PDFObject.reference kid.1) =
        ParseOutcome.done pagesOfKid visitedOfKid := by
  have hdk := hdescribes.2
  rw [kidsDescribed_iff] at hdk
  have hkid := hdk kid (by simp)
  have hnodup := ((visitReferences_true_iff _ _).mp hfresh).1
  have hkidNodup : kid.2.kidReferences.Nodup := by
    simp only [PageTree.kidReferences, kidsReferences_append,
      PageTree.kidReferences.kidsReferences] at hnodup
    have h1 := (List.nodup_append.mp hnodup).2.1
    have h2 := (List.nodup_cons.mp h1).2
    exact (List.nodup_append.mp h2).1
  refine ⟨(PageTree.pages before).pagesOf document attributes node,
    kid.2.pagesOf document (attributes.resolve dictionary document) (PDFObject.reference kid.1),
    (PageTree.pages after).pagesOf document attributes node,
    (visitReferences visited (PageTree.pages (before ++ kid :: after)).kidReferences).2,
    (visitReferences [] kid.2.kidReferences).2, ?_, ?_⟩
  · have hne := parseImpl_ne_outOfFuel document (fuel + 1) pages visited attributes node
      (by have := unvisited_le_parseFuel document visited; omega)
    rcases parseImpl_agrees document _ node hdescribes (fuel + 1) pages visited attributes
      with h | ⟨-, h⟩ | ⟨ht, -⟩
    · exact absurd h hne
    · rw [h, pagesOf_pages_flatten, pagesOf_pages_flatten, pagesOf_pages_flatten,
        dictionaryOf_eq hnode]
      simp [List.append_assoc]
    · rw [hfresh] at ht
      cases ht
  · have hne := parseImpl_ne_outOfFuel document fuel [] []
      (attributes.resolve dictionary document) (PDFObject.reference kid.1)
      (by have := unvisited_le_parseFuel document []; omega)
    rcases parseImpl_agrees document kid.2 _ hkid fuel [] []
      (attributes.resolve dictionary document) with h | ⟨-, h⟩ | ⟨ht, -⟩
    · exact absurd h hne
    · rw [h, List.nil_append]
    · rw [(visitReferences_true_iff [] _).mpr ⟨hkidNodup, by simp⟩] at ht
      cases ht

theorem siblingDocument_describes :
    (PageTree.pages ([(ref 2, PageTree.pages [(ref 4, PageTree.page)])] ++
      (ref 3, PageTree.page) :: [])).Describes siblingDocument (PDFObject.reference (ref 1)) :=
  ⟨⟨_, rfl, rfl, fun _ => Or.inr (Or.inl rfl), rfl⟩,
    ⟨⟨_, rfl, rfl, fun _ => Or.inr (Or.inr (Or.inl rfl)), rfl⟩,
      ⟨_, rfl, rfl, fun h => absurd h (by decide)⟩, trivial⟩,
    ⟨_, rfl, rfl, fun h => absurd h (by decide)⟩, trivial⟩

theorem kid_parsed_from_node_snapshot_witness :
    ∃ (pagesBefore pagesOfKid pagesAfter : List PDFPage)
        (visitedEnd visitedOfKid : List PDFObjectReference),
      PDFPage.parseImpl siblingDocument 7 [] [] PDFPageInheritableAttributes.default
          (PDFObject.reference (ref 1)) =
        ParseOutcome.done ([] ++ pagesBefore ++ pagesOfKid ++ pagesAfter) visitedEnd ∧
      PDFPage.parseImpl siblingDocument 6 [] []
          (PDFPageInheritableAttributes.default.resolve
            (siblingDocument.dictionaryOf (PDFObject.reference (ref 1))) siblingDocument)
          (PDFObject.reference (ref 3)) =
        ParseOutcome.done pagesOfKid visitedOfKid :=
  kid_parsed_from_node_snapshot siblingDocument (PDFObject.reference (ref 1))
    (siblingDocument.dictionaryOf (PDFObject.reference (ref 1)))
    [(ref 2, PageTree.pages [(ref 4, PageTree.page)])] [] (ref 3, PageTree.page)
    siblingDocument_describes rfl 6 (by decide) [] [] PDFPageInheritableAttributes.default
    (by decide)

/-! ### References met by the walk occur in the document -/

theorem mem_itemReferences {items : List PDFObject} {item : PDFObject}
    (hitem : item ∈ items) {r : PDFObjectReference} (hr : r ∈ item.references) :
    r ∈ PDFObject.references.itemReferences items := by
  induction items with
  | nil => exact absurd hitem (List.not_mem_nil _)
  | cons first rest ih =>
    simp only [PDFObject.references.itemReferences, List.mem_append]
    rcases List.mem_cons.mp hitem with rfl | h
    · exact Or.inl hr
    · exact Or.inr (ih h)

theorem get_references_subset (dictionary : PDFDictionary) (key : String)
    {r : PDFObjectReference} (hr : r ∈ (dictionary.get key).references) :
    r ∈ PDFObject.references.entryReferences dictionary := by
  induction dictionary with
  | nil => simp [PDFDictionary.get, PDFObject.references] at hr
  | cons entry rest ih =>
    simp only [PDFObject.references.entryReferences, List.mem_append]
    simp only [PDFDictionary.get] at hr
    split_ifs at hr
    · exact Or.inl hr
    · exact Or.inr (ih hr)

theorem lookup_references_subset (objects : List (PDFObjectReference × PDFObject))
    (reference : PDFObjectReference) {r : PDFObjectReference}
    (hr : r ∈ (PDFDocument.lookup objects reference).references) :
    r ∈ PDFDocument.storedReferences objects := by
  induction objects with
  | nil => simp [PDFDocument.lookup, PDFObject.references] at hr
  | cons entry rest ih =>
    simp only [PDFDocument.storedReferences, List.mem_cons, List.mem_append]
    simp only [PDFDocument.lookup] at hr
    split_ifs at hr
    · exact Or.inr (Or.inl hr)
    · exact Or.inr (Or.inr (ih hr))

theorem getObject_references_subset (document : PDFDocument) (object : PDFObject)
    {r : PDFObjectReference} (hr : r ∈ (document.getObject object).references) :
    r ∈ document.allReferences object := by
  unfold PDFDocument.allReferences
  cases object with
  | reference reference =>
    exact List.mem_append_right _ (lookup_references_subset _ _ hr)
  | _ => exact List.mem_append_left _ hr

/-- Every reference in the `Kids` array of a node occurs in the node object or in the
storage. -/
theorem kid_reference_mem (document : PDFDocument) (node : PDFObject)
    (dictionary : PDFDictionary) (items : List PDFObject) (r : PDFObjectReference)
    (hnode : document.getObject node = PDFObject.dictionary dictionary)
    (hkids : document.getObject (dictionary.get "Kids") = PDFObject.array items)
    (hr : PDFObject.reference r ∈ items) :
    r ∈ document.allReferences node := by
  have h1 : r ∈ (document.getObject (dictionary.get "Kids")).references := by
    rw [hkids]
    exact mem_itemReferences hr (List.mem_singleton.mpr rfl)
  have h2 := getObject_references_subset document _ h1
  unfold PDFDocument.allReferences at h2
  rcases List.mem_append.mp h2 with h3 | h3
  · have h4 : r ∈ (document.getObject node).references := by
      rw [hnode]
      exact get_references_subset dictionary "Kids" h3
    exact getObject_references_subset document node h4
  · exact List.mem_append_right _ h3

/-! ### The nesting depth of the walk -/

theorem filter_not_mem_append_le (references added visited : List PDFObjectReference) :
    (references.filter (fun r => decide (r ∉ added ++ visited))).length ≤
      (references.filter (fun r => decide (r ∉ visited))).length := by
  induction references with
  | nil => simp
  | cons first rest ih =>
    simp only [List.filter_cons]
    by_cases h1 : first ∈ visited
    · have h2 : first ∈ added ++ visited := List.mem_append_right _ h1
      simpa [h1, h2] using ih
    · by_cases h2 : first ∈ added ++ visited
      · simp only [h1, h2, not_true_eq_false, decide_False, not_false_eq_true, decide_True,
          if_true, List.length_cons, Bool.false_eq_true, if_false]
        omega
      · simp only [h1, h2, not_false_eq_true, decide_True, if_true, List.length_cons]
        omega

theorem filter_not_mem_cons_lt (references : List PDFObjectReference)
    (reference : PDFObjectReference) (visited : List PDFObjectReference)
    (hnew : reference ∉ visited) (hmem : reference ∈ references) :
    (references.filter (fun r => decide (r ∉ reference :: visited))).length <
      (references.filter (fun r => decide (r ∉ visited))).length := by
  induction references with
  | nil => exact absurd hmem (List.not_mem_nil _)
  | cons first rest ih =>
    have hle := filter_not_mem_append_le rest [reference] visited
    simp only [List.singleton_append] at hle
    simp only [List.filter_cons]
    by_cases hf : first = reference
    · have h1 : first ∉ visited := hf ▸ hnew
      have h2 : first ∈ reference :: visited := hf ▸ List.mem_cons_self _ _
      simp only [h1, h2, not_true_eq_false, decide_False, not_false_eq_true, decide_True,
        if_true, List.length_cons, Bool.false_eq_true, if_false]
      omega
    · have hrest : reference ∈ rest := by
        rcases List.mem_cons.mp hmem with h | h
        · exact absurd h.symm hf
        · exact h
      have := ih hrest
      by_cases h1 : first ∈ visited
      · have h2 : first ∈ reference :: visited := List.mem_cons_of_mem _ h1
        simpa [h1, h2] using this
      · have h2 : first ∉ reference :: visited := by
          intro hc
          rcases List.mem_cons.mp hc with h | h
          · exact hf h
          · exact h1 h
        simp only [h1, h2, not_false_eq_true, decide_True, if_true, List.length_cons]
        omega

/-- With as much fuel as there are distinct references not yet visited, plus one, the walk
does not run out of fuel. -/
theorem parseImpl_depth_bound (document : PDFDocument) (references : List PDFObjectReference)
    (hstored : ∀ r ∈ PDFDocument.storedReferences document.objects, r ∈ references)
    (fuel : Nat) :
    ∀ pages visited attributes node,
      (∀ r ∈ node.references, r ∈ references) →
      (references.dedup.filter (fun r => decide (r ∉ visited))).length + 1 ≤ fuel →
      PDFPage.parseImpl document fuel pages visited attributes node ≠ ParseOutcome.outOfFuel := by
  induction fuel with
  | zero => intro pages visited attributes node _ h; omega
  | succ fuel ih =>
    intro pages visited attributes node hnodeRefs hfuel
    have hall : ∀ r ∈ document.allReferences node, r ∈ references := by
      intro r hr
      rcases List.mem_append.mp hr with h | h
      · exact hnodeRefs r h
      · exact hstored r h
    have loop : ∀ (current : PDFPageInheritableAttributes) (kids : List PDFObject),
        (∀ r, PDFObject.reference r ∈ kids → r ∈ references) →
        ∀ (pages1 : List PDFPage) (visited1 : List PDFObjectReference),
        (references.dedup.filter (fun r => decide (r ∉ visited1))).length + 1 ≤ fuel + 1 →
        PDFPage.parseKids
          (fun p v kid => PDFPage.parseImpl document fuel p v current kid)
          pages1 visited1 kids ≠ ParseOutcome.outOfFuel := by
      intro current kids
      induction kids with
      | nil => intro _ pages1 visited1 _; simp [PDFPage.parseKids]
      | cons kid rest ihk =>
        intro hkids pages1 visited1 hv
        cases kid with
        | reference r =>
          simp only [PDFPage.parseKids]
          by_cases hm : r ∈ visited1
          · simp [hm]
          · simp only [hm, if_false]
            have hr : r ∈ references := hkids r (List.mem_cons_self _ _)
            have hlt := filter_not_mem_cons_lt references.dedup r visited1 hm
              (List.mem_dedup.mpr hr)
            have hdescend : PDFPage.parseImpl document fuel pages1 (r :: visited1) current
                (PDFObject.reference r) ≠ ParseOutcome.outOfFuel :=
              ih _ _ _ _ (fun x hx => by
                simp only [PDFObject.references, List.mem_singleton] at hx
                rw [hx]; exact hr) (by omega)
            cases hd : PDFPage.parseImpl document fuel pages1 (r :: visited1) current
                (PDFObject.reference r) with
            | done pages2 visited2 =>
              simp only []
              obtain ⟨added, ha⟩ := parseImpl_visited_suffix document fuel _ _ _ _ _ _ hd
              apply ihk (fun x hx => hkids x (List.mem_cons_of_mem _ hx))
              have := filter_not_mem_append_le references.dedup (added ++ [r]) visited1
              rw [ha]
              simp only [List.append_assoc, List.singleton_append] at this
              omega
            | thrown e pages2 visited2 => simp
            | outOfFuel => exact absurd hd hdescend
        | _ => simp [PDFPage.parseKids]
    rw [parseImpl_succ]
    split
    · rename_i entries hnode
      split
      · split
        · simp
        · split
          · split
            · rename_i kidsArray hkids
              exact loop _ _
                (fun r hr => hall r (kid_reference_mem document node entries kidsArray r hnode
                  hkids hr)) _ _ hfuel
            · simp
          · split <;> simp
      · simp
    · simp

theorem parseKids_congr
    (descend descend1 : List PDFPage → List PDFObjectReference → PDFObject → ParseOutcome)
    (hagree : ∀ pages visited reference, reference ∉ visited →
      descend pages (reference :: visited) (PDFObject.reference reference) =
        descend1 pages (reference :: visited) (PDFObject.reference reference))
    (kids : List PDFObject) :
    ∀ pages visited,
      PDFPage.parseKids descend pages visited kids =
        PDFPage.parseKids descend1 pages visited kids := by
  induction kids with
  | nil => intro pages visited; rfl
  | cons kid rest ih =>
    intro pages visited
    cases kid with
    | reference r =>
      simp only [PDFPage.parseKids]
      by_cases hm : r ∈ visited
      · simp [hm]
      · simp only [hm, if_false]
        rw [← hagree pages visited r hm]
        cases descend pages (r :: visited) (PDFObject.reference r) with
        | done p v => exact ih p v
        | thrown e p v => rfl
        | outOfFuel => rfl
    | _ => rfl

/-- C20: `PDFPage::parse` terminates on every finite object graph, cyclic or not: it always
ends with pages or with an exception.  The loop over the kids descends only into a kid whose
reference was not in the visited set and has just been inserted (the loop cannot tell apart
two continuations that agree on such calls), so the nesting of `parseImpl` calls never
exceeds the number of distinct references of the document plus one: with that much fuel, or
more, the walk never runs out of fuel, and it ends as the walk of `parse` does. -/
theorem parse_terminates_within_reference_count (document : PDFDocument) (root : PDFObject) :
    (∃ result, PDFPage.parse document root = some result) ∧
    (∀ fuel, document.referenceCount root + 1 ≤ fuel →
      PDFPage.parseImpl document fuel [] [] PDFPageInheritableAttributes.default root ≠
        ParseOutcome.outOfFuel ∧
      PDFPage.parseImpl document fuel [] [] PDFPageInheritableAttributes.default root =
        PDFPage.parseImpl document document.parseFuel [] []
          PDFPageInheritableAttributes.default root) ∧
    (∀ (descend descend1 : List PDFPage → List PDFObjectReference → PDFObject → ParseOutcome),
      (∀ pages visited reference, reference ∉ visited →
        descend pages (reference :: visited) (PDFObject.reference reference) =
          descend1 pages (reference :: visited) (PDFObject.reference reference)) →
      ∀ kids pages visited,
        PDFPage.parseKids descend pages visited kids =
          PDFPage.parseKids descend1 pages visited kids) := by
  refine ⟨?_, ?_, ?_⟩
  · cases h : PDFPage.parse document root with
    | none => exact absurd h (parse_ne_none document root)
    | some result => exact ⟨result, rfl⟩
  · intro fuel hfuel
    have hne : PDFPage.parseImpl document fuel [] [] PDFPageInheritableAttributes.default root ≠
        ParseOutcome.outOfFuel := by
      apply parseImpl_depth_bound document (document.allReferences root)
        (fun r hr => List.mem_append_right _ hr) fuel
      · exact fun r hr => List.mem_append_left _ hr
      · unfold PDFDocument.referenceCount at hfuel
        have := List.length_filter_le (fun r : PDFObjectReference =>
          decide (r ∉ ([] : List PDFObjectReference))) (document.allReferences root).dedup
        omega
    exact ⟨hne, (parseImpl_parseFuel_eq document root fuel hne).symm⟩
  · intro descend descend1 hagree kids pages visited
    exact parseKids_congr descend descend1 hagree kids pages visited

/-! ### Vectors and flags -/

theorem vectorAt_of_lt {α : Type} (items : List α) (index : Nat) (h : index < items.length) :
    vectorAt items index = Except.ok (items.get ⟨index, h⟩) := by
  unfold vectorAt
  rw [List.getElem?_eq_getElem h]
  rfl

theorem vectorAt_of_le {α : Type} (items : List α) (index : Nat) (h : items.length ≤ index) :
    vectorAt items index = Except.error StdException.outOfRange := by
  unfold vectorAt
  rw [List.getElem?_eq_none h]

theorem vectorAt_set_same {α : Type} (items : List α) (index : Nat) (item : α)
    (h : index < items.length) : vectorAt (items.set index item) index = Except.ok item := by
  unfold vectorAt
  rw [List.getElem?_set_self h]

theorem vectorAt_set_other {α : Type} (items : List α) (index other : Nat) (item : α)
    (h : other ≠ index) : vectorAt (items.set index item) other = vectorAt items other := by
  unfold vectorAt
  rw [List.getElem?_set_ne (Ne.symm h)]

theorem flags_or_and_self (flags flag : Nat) : (flags ||| flag) &&& flag = flag := by
  apply Nat.eq_of_testBit_eq
  intro j
  simp only [Nat.testBit_and, Nat.testBit_or]
  cases Nat.testBit flags j <;> cases Nat.testBit flag j <;> rfl

theorem flags_clear_and_self (flags flag : Nat) :
    (flags ^^^ (flags &&& flag)) &&& flag = 0 := by
  apply Nat.eq_of_testBit_eq
  intro j
  simp only [Nat.testBit_and, Nat.testBit_xor, Nat.zero_testBit]
  cases Nat.testBit flags j <;> cases Nat.testBit flag j <;> rfl

theorem testFlag_setFlag_same (flags flag : Nat) (enabled : Bool) (h : flag ≠ 0) :
    QFlags.testFlag (QFlags.setFlag flags flag enabled) flag = enabled := by
  unfold QFlags.testFlag QFlags.setFlag
  cases enabled
  · simp only [Bool.false_eq_true, if_false, flags_clear_and_self]
    simp [h, Ne.symm h]
  · simp only [if_true, flags_or_and_self]
    simp [h]

theorem editedItemsFrom_length (start : Nat) (items : List PDFDocumentTextFlow.Item) :
    (editedItemsFrom start items).length = items.length := by
  induction items generalizing start with
  | nil => rfl
  | cons item rest ih => simp [editedItemsFrom, ih]

theorem editedItemsFrom_flags (start : Nat) (items : List PDFDocumentTextFlow.Item) :
    ∀ edited ∈ editedItemsFrom start items, edited.editedItemFlags = EditedItemFlag.None := by
  induction items generalizing start with
  | nil => intro edited h; exact absurd h (List.not_mem_nil _)
  | cons item rest ih =>
    intro edited h
    simp only [editedItemsFrom, List.mem_cons] at h
    rcases h with rfl | h
    · rfl
    · exact ih _ edited h

theorem setTextFlow_length (editor : PDFDocumentTextFlowEditor)
    (textFlow : PDFDocumentTextFlow) :
    (editor.setTextFlow textFlow).m_editedTextFlow.length = textFlow.getSize :=
  editedItemsFrom_length 0 textFlow.m_items

theorem setTextFlow_isActive (editor : PDFDocumentTextFlowEditor)
    (textFlow : PDFDocumentTextFlow) (index : Nat) (h : index < textFlow.getSize) :
    (editor.setTextFlow textFlow).isActive index = Except.ok true := by
  have hlen : index < (editor.setTextFlow textFlow).m_editedTextFlow.length := by
    rw [setTextFlow_length]; exact h
  unfold PDFDocumentTextFlowEditor.isActive PDFDocumentTextFlowEditor.getEditedItem
  rw [vectorAt_of_lt _ _ hlen]
  have hflags := editedItemsFrom_flags 0 textFlow.m_items
    ((editor.setTextFlow textFlow).m_editedTextFlow.get ⟨index, hlen⟩) (List.get_mem _ _ _)
  simp only [hflags]
  rfl

/-- C17: editor index stability.  For every text flow of n items loaded with `setTextFlow`
and every valid index k, `removeItem(k)` succeeds, the editor still has n edited slots and n
original items, `isActive(k)` is false and `isActive(j)` is true for every other valid index
j.  More generally, in every editor state `removeItem(k)` at a valid index keeps the number
of slots and the original flow, makes `isActive(k)` false and leaves `isActive`,
`isModified` and `getText` of every other index as they were. -/
theorem removeItem_index_stability (start : PDFDocumentTextFlowEditor)
    (textFlow : PDFDocumentTextFlow) (index : Nat) (hindex : index < textFlow.getSize) :
    (∃ after, (start.setTextFlow textFlow).removeItem index = Except.ok after ∧
      after.m_editedTextFlow.length = textFlow.getSize ∧
      after.m_originalTextFlow.getSize = textFlow.getSize ∧
      after.isActive index = Except.ok false ∧
      ∀ other, other < textFlow.getSize → other ≠ index →
        after.isActive other = Except.ok true) ∧
    (∀ (editor : PDFDocumentTextFlowEditor) (position : Nat),
      position < editor.m_editedTextFlow.length →
      ∃ after, editor.removeItem position = Except.ok after ∧
        after.m_editedTextFlow.length = editor.m_editedTextFlow.length ∧
        after.m_originalTextFlow = editor.m_originalTextFlow ∧
        after.isActive position = Except.ok false ∧
        ∀ other, other ≠ position →
          after.isActive other = editor.isActive other ∧
          after.isModified other = editor.isModified other ∧
          after.getText other = editor.getText other) := by
  have general : ∀ (editor : PDFDocumentTextFlowEditor) (position : Nat),
      position < editor.m_editedTextFlow.length →
      ∃ after, editor.removeItem position = Except.ok after ∧
        after.m_editedTextFlow.length = editor.m_editedTextFlow.length ∧
        after.m_originalTextFlow = editor.m_originalTextFlow ∧
        after.isActive position = Except.ok false ∧
        ∀ other, other ≠ position →
          after.isActive other = editor.isActive other ∧
          after.isModified other = editor.isModified other ∧
          after.getText other = editor.getText other := by
    intro editor position hposition
    unfold PDFDocumentTextFlowEditor.removeItem PDFDocumentTextFlowEditor.getEditedItem
    rw [vectorAt_of_lt _ _ hposition]
    refine ⟨_, rfl, by simp, rfl, ?_, ?_⟩
    · unfold PDFDocumentTextFlowEditor.isActive PDFDocumentTextFlowEditor.getEditedItem
      simp only [vectorAt_set_same _ _ _ hposition]
      rw [testFlag_setFlag_same _ _ _ (by decide)]
      rfl
    · intro other hother
      unfold PDFDocumentTextFlowEditor.isActive PDFDocumentTextFlowEditor.isModified
        PDFDocumentTextFlowEditor.getText PDFDocumentTextFlowEditor.getEditedItem
      simp only [vectorAt_set_other _ _ _ _ hother]
      exact ⟨trivial, trivial, trivial⟩
  refine ⟨?_, general⟩
  obtain ⟨after, hremove, hlength, horiginal, hremoved, hothers⟩ :=
    general (start.setTextFlow textFlow) index (by rw [setTextFlow_length]; exact hindex)
  refine ⟨after, hremove, by rw [hlength, setTextFlow_length], by rw [horiginal]; rfl,
    hremoved, ?_⟩
  intro other hlt hne
  rw [(hothers other hne).1]
  exact setTextFlow_isActive start textFlow other hlt

theorem removeItem_index_stability_witness :
    ∃ after, (PDFDocumentTextFlowEditor.empty.setTextFlow sampleTextFlow).removeItem 1 =
        Except.ok after ∧
      after.m_editedTextFlow.length = 3 ∧ after.m_originalTextFlow.getSize = 3 ∧
      after.isActive 1 = Except.ok false ∧
      after.isActive 0 = Except.ok true ∧ after.isActive 2 = Except.ok true := by
  obtain ⟨after, hremove, hlength, horiginal, hremoved, hothers⟩ :=
    (removeItem_index_stability PDFDocumentTextFlowEditor.empty sampleTextFlow 1
      (by decide)).1
  exact ⟨after, hremove, hlength, horiginal, hremoved, hothers 0 (by decide) (by decide),
    hothers 2 (by decide) (by decide)⟩

/-- C19: for every editor state and every index that is not less than the number of edited
items, `isActive`, `isRemoved`, `isModified` and `getText` end with the out of range
exception of `std::vector::at` instead of a value.  The queries are `const` member functions:
they are functions of the editor and return nothing but their result, so the editor is the
same afterwards. -/
theorem queries_out_of_range (editor : PDFDocumentTextFlowEditor) (index : Nat)
    (h : editor.m_editedTextFlow.length ≤ index) :
    editor.isActive index = Except.error StdException.outOfRange ∧
    editor.isRemoved index = Except.error StdException.outOfRange ∧
    editor.isModified index = Except.error StdException.outOfRange ∧
    editor.getText index = Except.error StdException.outOfRange := by
  have hat : editor.getEditedItem index = Except.error StdException.outOfRange :=
    vectorAt_of_le _ _ h
  have hactive : editor.isActive index = Except.error StdException.outOfRange := by
    unfold PDFDocumentTextFlowEditor.isActive
    rw [hat]
  refine ⟨hactive, ?_, ?_, ?_⟩
  · unfold PDFDocumentTextFlowEditor.isRemoved
    rw [hactive]
  · unfold PDFDocumentTextFlowEditor.isModified
    rw [hat]
  · unfold PDFDocumentTextFlowEditor.getText
    rw [hat]

theorem queries_out_of_range_witness :
    (PDFDocumentTextFlowEditor.empty.setTextFlow sampleTextFlow).m_editedTextFlow.length ≤ 3 ∧
    (PDFDocumentTextFlowEditor.empty.setTextFlow sampleTextFlow).isActive 3 =
      Except.error StdException.outOfRange ∧
    (PDFDocumentTextFlowEditor.empty.setTextFlow sampleTextFlow).isRemoved 3 =
      Except.error StdException.outOfRange ∧
    (PDFDocumentTextFlowEditor.empty.setTextFlow sampleTextFlow).isModified 3 =
      Except.error StdException.outOfRange ∧
    (PDFDocumentTextFlowEditor.empty.setTextFlow sampleTextFlow).getText 3 =
      Except.error StdException.outOfRange :=
  ⟨by decide,
    queries_out_of_range (PDFDocumentTextFlowEditor.empty.setTextFlow sampleTextFlow) 3
      (by decide)⟩

theorem vectorAt_of_getElem? {α : Type} (items : List α) (index : Nat) (item : α)
    (h : items[index]? = some item) : vectorAt items index = Except.ok item := by
  unfold vectorAt
  rw [h]

theorem setText_spec (editor : PDFDocumentTextFlowEditor) (index : Nat)
    (original : PDFDocumentTextFlow.Item)
    (hindex : index < editor.m_editedTextFlow.length)
    (horiginal : editor.m_originalTextFlow.m_items[index]? = some original) (text : String) :
    ∃ after, editor.setText text index = Except.ok after ∧
      after.isModified index = Except.ok (decide (text ≠ original.text)) ∧
      after.getText index = Except.ok text ∧
      after.m_originalTextFlow = editor.m_originalTextFlow ∧
      after.m_editedTextFlow.length = editor.m_editedTextFlow.length := by
  have hset : index < (editor.m_editedTextFlow.set index
      { editor.m_editedTextFlow.get ⟨index, hindex⟩ with text := text }).length := by
    simpa using hindex
  unfold PDFDocumentTextFlowEditor.setText PDFDocumentTextFlowEditor.getEditedItem
  rw [vectorAt_of_lt _ _ hindex]
  simp only []
  unfold PDFDocumentTextFlowEditor.updateModifiedFlag PDFDocumentTextFlowEditor.getEditedItem
    PDFDocumentTextFlowEditor.getOriginalItem PDFDocumentTextFlow.getItem
  simp only [vectorAt_set_same _ _ _ hindex, vectorAt_of_getElem? _ _ _ horiginal]
  refine ⟨_, rfl, ?_, ?_, rfl, by simp⟩
  · unfold PDFDocumentTextFlowEditor.isModified PDFDocumentTextFlowEditor.getEditedItem
    simp only [vectorAt_set_same _ _ _ hset]
    rw [testFlag_setFlag_same _ _ _ (by decide)]
  · unfold PDFDocumentTextFlowEditor.getText PDFDocumentTextFlowEditor.getEditedItem
    simp only [vectorAt_set_same _ _ _ hset]

/-- C18: editor modification flag.  In every editor state that has the slot `index` and an
original item at `index` (every flow loaded with `setTextFlow` is such a state for each valid
index, and `setText` keeps it so), `setText(t, index)` succeeds and afterwards
`isModified(index)` is true exactly when `t` differs from the original item's text; so
setting the original text gives false, setting a differing text gives true, and setting the
original text after that gives false again. -/
theorem setText_modified_flag (editor : PDFDocumentTextFlowEditor) (index : Nat)
    (original : PDFDocumentTextFlow.Item)
    (hindex : index < editor.m_editedTextFlow.length)
    (horiginal : editor.m_originalTextFlow.m_items[index]? = some original) :
    (∀ text, ∃ after, editor.setText text index = Except.ok after ∧
      after.isModified index = Except.ok (decide (text ≠ original.text)) ∧
      after.getText index = Except.ok text ∧
      after.m_originalTextFlow = editor.m_originalTextFlow ∧
      after.m_editedTextFlow.length = editor.m_editedTextFlow.length) ∧
    (∃ same, editor.setText original.text index = Except.ok same ∧
      same.isModified index = Except.ok false) ∧
    (∀ text, text ≠ original.text →
      ∃ changed restored, editor.setText text index = Except.ok changed ∧
        changed.isModified index = Except.ok true ∧
        changed.setText original.text index = Except.ok restored ∧
        restored.isModified index = Except.ok false) := by
  refine ⟨setText_spec editor index original hindex horiginal, ?_, ?_⟩
  · obtain ⟨same, hset, hmodified, -⟩ :=
      setText_spec editor index original hindex horiginal original.text
    exact ⟨same, hset, by simpa using hmodified⟩
  · intro text hne
    obtain ⟨changed, hset, hmodified, -, horiginal1, hlength1⟩ :=
      setText_spec editor index original hindex horiginal text
    obtain ⟨restored, hset2, hmodified2, -⟩ :=
      setText_spec changed index original (by rw [hlength1]; exact hindex)
        (by rw [horiginal1]; exact horiginal) original.text
    exact ⟨changed, restored, hset, by simpa [hne] using hmodified, hset2,
      by simpa using hmodified2⟩

theorem setTextFlow_original (editor : PDFDocumentTextFlowEditor)
    (textFlow : PDFDocumentTextFlow) :
    (editor.setTextFlow textFlow).m_originalTextFlow = textFlow := rfl

theorem setText_modified_flag_witness :
    (∃ same, (PDFDocumentTextFlowEditor.empty.setTextFlow sampleTextFlow).setText "beta" 1 =
        Except.ok same ∧ same.isModified 1 = Except.ok false) ∧
    ∃ changed restored,
      (PDFDocumentTextFlowEditor.empty.setTextFlow sampleTextFlow).setText "delta" 1 =
        Except.ok changed ∧
      changed.isModified 1 = Except.ok true ∧
      changed.setText "beta" 1 = Except.ok restored ∧
      restored.isModified 1 = Except.ok false :=
  ⟨(setText_modified_flag (PDFDocumentTextFlowEditor.empty.setTextFlow sampleTextFlow) 1
      (textItem "beta") (by decide) rfl).2.1,
    (setText_modified_flag (PDFDocumentTextFlowEditor.empty.setTextFlow sampleTextFlow) 1
      (textItem "beta") (by decide) rfl).2.2 "delta" (by decide)⟩

theorem parse_terminates_within_reference_count_witness :
    cyclicDocument.referenceCount (PDFObject.reference (ref 1)) = 3 ∧
    PDFPage.parseImpl cyclicDocument 4 [] [] PDFPageInheritableAttributes.default
        (PDFObject.reference (ref 1)) ≠ ParseOutcome.outOfFuel ∧
    PDFPage.parseImpl cyclicDocument 2 [] [] PDFPageInheritableAttributes.default
        (PDFObject.reference (ref 1)) = ParseOutcome.outOfFuel :=
  ⟨by decide,
    ((parse_terminates_within_reference_count cyclicDocument (PDFObject.reference (ref 1))).2.1
      4 (by decide)).1,
    rfl⟩

/-! ### Edit flags -/

theorem and_one_eq (flags : Nat) : flags &&& 1 = 0 ∨ flags &&& 1 = 1 := by
  have h : flags &&& 1 ≤ 1 := Nat.and_le_right
  omega

theorem and_two_eq (flags : Nat) : flags &&& 2 = 0 ∨ flags &&& 2 = 2 := by
  have h : flags &&& 2 ≤ 2 := Nat.and_le_right
  have hidem : (flags &&& 2) &&& 2 = flags &&& 2 := by
    rw [Nat.and_assoc, Nat.and_self]
  have hne : flags &&& 2 ≠ 1 := by
    intro hc
    rw [hc] at hidem
    exact absurd hidem (by decide)
  omega

theorem testFlag_removed (flags : Nat) :
    QFlags.testFlag flags EditedItemFlag.Removed =
      decide (flags &&& EditedItemFlag.Removed ≠ 0) := by
  unfold QFlags.testFlag EditedItemFlag.Removed
  rcases and_one_eq flags with h | h <;> simp [h]

theorem testFlag_modified (flags : Nat) :
    QFlags.testFlag flags EditedItemFlag.Modified =
      decide (flags &&& EditedItemFlag.Modified ≠ 0) := by
  unfold QFlags.testFlag EditedItemFlag.Modified
  rcases and_two_eq flags with h | h <;> simp [h]

/-- C21: for every editor state and valid index, with `item` the edited item at the index:
`isActive` holds exactly when the `Removed` bit of the item's flags is not set, `isRemoved` is
the negation of `isActive`, and `isModified` holds exactly when the `Modified` bit is set.
`Removed` and `Modified` are the distinct single bits 2^0 and 2^1, so the four item states
(flags 0 pristine, 2 modified, 1 removed, 3 modified and removed) give the four different
pairs of (`isRemoved`, `isModified`), and two of these states with the same pair are equal.
The queries are `const` member functions: functions of the editor that return their result
only. -/
theorem edit_flag_queries (editor : PDFDocumentTextFlowEditor) (index : Nat) (item : EditedItem)
    (hitem : editor.m_editedTextFlow[index]? = some item) :
    editor.isActive index =
      Except.ok (decide (item.editedItemFlags &&& EditedItemFlag.Removed = 0)) ∧
    editor.isRemoved index =
      Except.ok (decide (item.editedItemFlags &&& EditedItemFlag.Removed ≠ 0)) ∧
    (∀ active removed, editor.isActive index = Except.ok active →
      editor.isRemoved index = Except.ok removed → removed = !active) ∧
    editor.isModified index =
      Except.ok (decide (item.editedItemFlags &&& EditedItemFlag.Modified ≠ 0)) ∧
    (EditedItemFlag.Removed = 2 ^ 0 ∧ EditedItemFlag.Modified = 2 ^ 1 ∧
      EditedItemFlag.Removed &&& EditedItemFlag.Modified = 0) ∧
    ((QFlags.testFlag 0 EditedItemFlag.Removed, QFlags.testFlag 0 EditedItemFlag.Modified) =
        (false, false) ∧
      (QFlags.testFlag 2 EditedItemFlag.Removed, QFlags.testFlag 2 EditedItemFlag.Modified) =
        (false, true) ∧
      (QFlags.testFlag 1 EditedItemFlag.Removed, QFlags.testFlag 1 EditedItemFlag.Modified) =
        (true, false) ∧
      (QFlags.testFlag 3 EditedItemFlag.Removed, QFlags.testFlag 3 EditedItemFlag.Modified) =
        (true, true)) ∧
    (∀ first second : Nat, first < 4 → second < 4 →
      QFlags.testFlag first EditedItemFlag.Removed =
        QFlags.testFlag second EditedItemFlag.Removed →
      QFlags.testFlag first EditedItemFlag.Modified =
        QFlags.testFlag second EditedItemFlag.Modified →
      first = second) := by
  have hat : editor.getEditedItem index = Except.ok item := vectorAt_of_getElem? _ _ _ hitem
  have hactive : editor.isActive index =
      Except.ok (decide (item.editedItemFlags &&& EditedItemFlag.Removed = 0)) := by
    unfold PDFDocumentTextFlowEditor.isActive
    rw [hat]
    simp only [testFlag_removed]
    simp
  have hremoved : editor.isRemoved index =
      Except.ok (decide (item.editedItemFlags &&& EditedItemFlag.Removed ≠ 0)) := by
    unfold PDFDocumentTextFlowEditor.isRemoved
    rw [hactive]
    simp
  refine ⟨hactive, hremoved, ?_, ?_, ⟨rfl, rfl, rfl⟩, ⟨rfl, rfl, rfl, rfl⟩, ?_⟩
  · intro active removed ha hr
    rw [hactive] at ha
    rw [hremoved] at hr
    cases ha
    cases hr
    simp
  · unfold PDFDocumentTextFlowEditor.isModified
    rw [hat]
    simp only [testFlag_modified]
  · intro first second h1 h2
    interval_cases first <;> interval_cases second <;> decide

theorem edit_flag_queries_witness :
    flaggedEditor.isActive 1 = Except.ok false ∧ flaggedEditor.isRemoved 1 = Except.ok true ∧
    flaggedEditor.isModified 1 = Except.ok true ∧ flaggedEditor.isActive 2 = Except.ok true ∧
    flaggedEditor.isModified 2 = Except.ok true :=
  ⟨(edit_flag_queries flaggedEditor 1
      { toItem := textItem "delta", originalIndex := 1, editedItemFlags := 3 } rfl).1,
    (edit_flag_queries flaggedEditor 1
      { toItem := textItem "delta", originalIndex := 1, editedItemFlags := 3 } rfl).2.1,
    (edit_flag_queries flaggedEditor 1
      { toItem := textItem "delta", originalIndex := 1, editedItemFlags := 3 } rfl).2.2.2.1,
    (edit_flag_queries flaggedEditor 2
      { toItem := textItem "omega", originalIndex := 2, editedItemFlags := 2 } rfl).1,
    (edit_flag_queries flaggedEditor 2
      { toItem := textItem "omega", originalIndex := 2, editedItemFlags := 2 } rfl).2.2.2.1⟩

/-! ### The truncated remainder -/

theorem tdiv_360_cases (rotation : Int) :
    (0 ≤ rotation → Int.tdiv rotation 360 = rotation / 360) ∧
    (rotation < 0 → Int.tdiv rotation 360 = -((-rotation) / 360)) := by
  constructor
  · intro h
    exact Int.tdiv_eq_ediv h (by decide)
  · intro h
    have h1 : Int.tdiv rotation 360 = -(Int.tdiv (-rotation) 360) := by
      rw [Int.neg_tdiv, Int.neg_neg]
    rw [h1, Int.tdiv_eq_ediv (by omega) (by decide)]

theorem normalizeRotation_eq (rotation : Int) :
    normalizeRotation rotation = rotation - 360 * Int.tdiv rotation 360 := by
  unfold normalizeRotation
  simp only []
  split_ifs with h
  · rw [Int.mul_comm]
  · simp only [ne_eq, not_not] at h
    rw [h]
    simp

theorem normalizeRotation_cases (rotation : Int) :
    (0 ≤ rotation → normalizeRotation rotation = rotation % 360) ∧
    (rotation < 0 → normalizeRotation rotation = -((-rotation) % 360)) := by
  obtain ⟨hpos, hneg⟩ := tdiv_360_cases rotation
  rw [normalizeRotation_eq]
  constructor
  · intro h
    rw [hpos h]
    omega
  · intro h
    rw [hneg h]
    omega

theorem validRotation_iff (rotation : Int) :
    validRotation rotation ↔
      (0 ≤ rotation ∧ 90 ∣ rotation) ∨ (rotation < 0 ∧ 360 ∣ rotation) := by
  obtain ⟨hpos, hneg⟩ := normalizeRotation_cases rotation
  unfold validRotation
  by_cases h : 0 ≤ rotation
  · rw [hpos h]
    omega
  · rw [hneg (by omega)]
    omega

theorem rotationFromInteger_error_of_not_valid {rotation : Int} (h : ¬ validRotation rotation) :
    rotationFromInteger (normalizeRotation rotation) =
      Except.error PDFParserException.invalidPageRotation := by
  unfold validRotation at h
  unfold rotationFromInteger
  split_ifs with h0 h90 h180 h270
  · exact absurd (Or.inl h0) h
  · exact absurd (Or.inr (Or.inl h90)) h
  · exact absurd (Or.inr (Or.inr (Or.inl h180))) h
  · exact absurd (Or.inr (Or.inr (Or.inr h270))) h
  · rfl

/-- C22: the attribute resolver accepts an integer `Rotate` value r exactly when the
truncated remainder r - 360 * trunc(r / 360) the code computes is 0, 90, 180 or 270, that is
exactly when r is a non-negative multiple of 90 or a negative multiple of 360; for every
other r it throws "Invalid page rotation.".  For r in the range of a 64-bit signed integer,
the product of the full circles and the difference stay between 0 and r, so nothing
overflows, and the result is zero or has the sign of r. -/
theorem rotate_accepted_iff (document : PDFDocument)
    (templateAttributes : PDFPageInheritableAttributes) (node : PDFObject)
    (dictionary : PDFDictionary) (rotation : Int)
    (hnode : document.getObject node = PDFObject.dictionary dictionary)
    (hrotate : document.getObject (dictionary.get "Rotate") = PDFObject.int rotation) :
    normalizeRotation rotation = rotation - 360 * Int.tdiv rotation 360 ∧
    ((∃ result, PDFPageInheritableAttributes.parse templateAttributes node document =
        Except.ok result) ↔
      (normalizeRotation rotation = 0 ∨ normalizeRotation rotation = 90 ∨
        normalizeRotation rotation = 180 ∨ normalizeRotation rotation = 270)) ∧
    ((normalizeRotation rotation = 0 ∨ normalizeRotation rotation = 90 ∨
        normalizeRotation rotation = 180 ∨ normalizeRotation rotation = 270) ↔
      (0 ≤ rotation ∧ 90 ∣ rotation) ∨ (rotation < 0 ∧ 360 ∣ rotation)) ∧
    (¬ ((0 ≤ rotation ∧ 90 ∣ rotation) ∨ (rotation < 0 ∧ 360 ∣ rotation)) →
      PDFPageInheritableAttributes.parse templateAttributes node document =
        Except.error PDFParserException.invalidPageRotation) ∧
    (-(2 : Int) ^ 63 ≤ rotation → rotation < (2 : Int) ^ 63 →
      (-(2 : Int) ^ 63 ≤ Int.tdiv rotation 360 * 360 ∧
        Int.tdiv rotation 360 * 360 < (2 : Int) ^ 63) ∧
      (-(2 : Int) ^ 63 ≤ normalizeRotation rotation ∧
        normalizeRotation rotation < (2 : Int) ^ 63)) ∧
    (0 ≤ rotation → 0 ≤ normalizeRotation rotation ∧ normalizeRotation rotation ≤ rotation) ∧
    (rotation ≤ 0 → normalizeRotation rotation ≤ 0 ∧ rotation ≤ normalizeRotation rotation) := by
  have hkey : dictionary.hasKey "Rotate" = true := by
    by_contra hc
    have hnull := get_eq_null_of_hasKey_false dictionary "Rotate" (by simpa using hc)
    rw [hnull] at hrotate
    exact absurd hrotate (by simp [PDFDocument.getObject])
  have hread : document.readInteger (dictionary.get "Rotate") 0 = rotation := by
    unfold PDFDocument.readInteger
    rw [hrotate]
  have hiff := validRotation_iff rotation
  unfold validRotation at hiff
  have hthrow : ¬ validRotation rotation →
      PDFPageInheritableAttributes.parse templateAttributes node document =
        Except.error PDFParserException.invalidPageRotation := by
    intro hnot
    rw [attributes_parse_congr hnode]
    unfold PDFPageInheritableAttributes.parse
    rw [getObject_dictionary]
    simp only [hkey, hread, rotationFromInteger_error_of_not_valid hnot, if_true]
  obtain ⟨hpos, hneg⟩ := normalizeRotation_cases rotation
  obtain ⟨hdpos, hdneg⟩ := tdiv_360_cases rotation
  refine ⟨normalizeRotation_eq rotation, ?_, hiff, ?_, ?_, ?_, ?_⟩
  · constructor
    · rintro ⟨result, hresult⟩
      rw [attributes_parse_congr hnode] at hresult
      have hvalid := rotateValid_of_parse_ok hresult hkey
      rw [hread] at hvalid
      exact hvalid
    · intro hvalid
      have hrv : dictionary.RotateValid document := by
        intro _
        rw [hread]
        exact hvalid
      exact ⟨_, (attributes_parse_congr hnode templateAttributes).trans
        (attributes_parse_ok hrv templateAttributes)⟩
  · intro hnot
    exact hthrow (fun hv => hnot (hiff.mp hv))
  · intro hlow hhigh
    by_cases h : 0 ≤ rotation
    · rw [hpos h, hdpos h]
      omega
    · rw [hneg (by omega), hdneg (by omega)]
      omega
  · intro h
    rw [hpos h]
    omega
  · intro h
    by_cases h0 : rotation = 0
    · subst h0
      exact ⟨by decide, by decide⟩
    · rw [hneg (by omega)]
      omega

theorem rotate_accepted_iff_witness :
    (∃ result, PDFPageInheritableAttributes.parse PDFPageInheritableAttributes.default
        (PDFObject.dictionary [("Rotate", PDFObject.int (-720))]) sampleDocument =
      Except.ok result) ∧
    PDFPageInheritableAttributes.parse PDFPageInheritableAttributes.default
        (PDFObject.dictionary [("Rotate", PDFObject.int (-180))]) sampleDocument =
      Except.error PDFParserException.invalidPageRotation :=
  ⟨(rotate_accepted_iff sampleDocument PDFPageInheritableAttributes.default
      (PDFObject.dictionary [("Rotate", PDFObject.int (-720))])
      [("Rotate", PDFObject.int (-720))] (-720) rfl rfl).2.1.mpr (Or.inl rfl),
    (rotate_accepted_iff sampleDocument PDFPageInheritableAttributes.default
      (PDFObject.dictionary [("Rotate", PDFObject.int (-180))])
      [("Rotate", PDFObject.int (-180))] (-180) rfl rfl).2.2.2.1 (by decide)⟩

/-- C23: `PDFPage::getRotatedBox` returns the rectangle unchanged for `None` and `Rotate180`
and the rectangle with width and height exchanged, at the same top-left corner, for
`Rotate90` and `Rotate270`; so `Rotate90` and `Rotate270` give the same result, and applying
it twice with the same rotation gives the original rectangle back. -/
theorem getRotatedBox_properties (rect : QRectF) :
    PDFPage.getRotatedBox rect PageRotation.None = rect ∧
    PDFPage.getRotatedBox rect PageRotation.Rotate180 = rect ∧
    PDFPage.getRotatedBox rect PageRotation.Rotate90 =
      ⟨rect.x, rect.y, rect.height, rect.width⟩ ∧
    PDFPage.getRotatedBox rect PageRotation.Rotate270 =
      ⟨rect.x, rect.y, rect.height, rect.width⟩ ∧
    PDFPage.getRotatedBox rect PageRotation.Rotate90 =
      PDFPage.getRotatedBox rect PageRotation.Rotate270 ∧
    ∀ rotation : PageRotation,
      PDFPage.getRotatedBox (PDFPage.getRotatedBox rect rotation) rotation = rect := by
  refine ⟨rfl, rfl, rfl, rfl, rfl, ?_⟩
  intro rotation
  cases rotation <;> rfl

/-- C24, as stated, fails: on a 64-bit platform, for the largest page index the sum
`pageIndex + 1` wraps to 0 in `size_t`, and the one error entry names page 0, not page
`pageIndex + 1`. -/
theorem render_largest_index_names_page_zero :
    2 ^ 64 - 1 ≥ sampleEnvironment.getPageCount ∧
    PDFRenderer.render sampleEnvironment 0 ⟨0, 0, 1, 1⟩ (2 ^ 64 - 1) =
      ([⟨RenderErrorType.Error, "Page 0 doesn't exist."⟩], 0) ∧
    PDFRenderer.renderWithMatrix sampleEnvironment 0 () (2 ^ 64 - 1) =
      ([⟨RenderErrorType.Error, "Page 0 doesn't exist."⟩], 0) ∧
    pageDoesNotExist (2 ^ 64 - 1 + 1) = "Page 18446744073709551616 doesn't exist." ∧
    (PDFRenderer.render sampleEnvironment 0 ⟨0, 0, 1, 1⟩ (2 ^ 64 - 1)).1 ≠
      [⟨RenderErrorType.Error, pageDoesNotExist (2 ^ 64 - 1 + 1)⟩] := by
  refine ⟨by decide, by decide, by decide, by decide, by decide⟩

/-- C24, amended: for both `PDFRenderer::render` overloads and every page index: if the index
is not less than the catalog's page count or the catalog has no page at the index, the
result is a list of exactly one entry of type `Error` whose message names the page number
`pageIndex + 1` computed in `size_t` (which is `pageIndex + 1` for every index but the
largest), and the painter is as before, no contents are processed; otherwise the result is
exactly what processing the contents of the page at the index returns. -/
theorem render_result {Painter Matrix : Type} (environment : RenderEnvironment Painter Matrix)
    (painter : Painter) (rectangle : QRectF) (matrix : Matrix) (pageIndex : Nat) :
    (pageIndex ≥ environment.getPageCount ∨ environment.getPage pageIndex = none →
      PDFRenderer.render environment painter rectangle pageIndex =
        ([⟨RenderErrorType.Error,
          pageDoesNotExist ((pageIndex + 1) % 2 ^ environment.sizeBits)⟩], painter) ∧
      PDFRenderer.renderWithMatrix environment painter matrix pageIndex =
        ([⟨RenderErrorType.Error,
          pageDoesNotExist ((pageIndex + 1) % 2 ^ environment.sizeBits)⟩], painter) ∧
      (pageIndex + 1 < 2 ^ environment.sizeBits →
        (PDFRenderer.render environment painter rectangle pageIndex).1 =
          [⟨RenderErrorType.Error, pageDoesNotExist (pageIndex + 1)⟩] ∧
        (PDFRenderer.renderWithMatrix environment painter matrix pageIndex).1 =
          [⟨RenderErrorType.Error, pageDoesNotExist (pageIndex + 1)⟩])) ∧
    (∀ page, pageIndex < environment.getPageCount → environment.getPage pageIndex = some page →
      PDFRenderer.render environment painter rectangle pageIndex =
        environment.processContents painter
          (environment.rectangleMatrix rectangle page.m_mediaBox) page ∧
      PDFRenderer.renderWithMatrix environment painter matrix pageIndex =
        environment.processContents painter matrix page) := by
  constructor
  · intro hinvalid
    have hrender : PDFRenderer.render environment painter rectangle pageIndex =
        (invalidPageIndexResult environment.sizeBits pageIndex, painter) := by
      unfold PDFRenderer.render
      by_cases hge : pageIndex ≥ environment.getPageCount
      · simp only [hge, if_true]
      · rcases hinvalid with h | h
        · exact absurd h hge
        · simp only [hge, if_false, h]
    have hmatrix : PDFRenderer.renderWithMatrix environment painter matrix pageIndex =
        (invalidPageIndexResult environment.sizeBits pageIndex, painter) := by
      unfold PDFRenderer.renderWithMatrix
      by_cases hge : pageIndex ≥ environment.getPageCount
      · simp only [hge, if_true]
      · rcases hinvalid with h | h
        · exact absurd h hge
        · simp only [hge, if_false, h]
    refine ⟨hrender, hmatrix, ?_⟩
    intro hsmall
    rw [hrender, hmatrix]
    simp only [invalidPageIndexResult, Nat.mod_eq_of_lt hsmall]
    exact ⟨trivial, trivial⟩
  · intro page hlt hpage
    have hnot : ¬ pageIndex ≥ environment.getPageCount := by omega
    unfold PDFRenderer.render PDFRenderer.renderWithMatrix
    simp only [hnot, if_false, hpage]
    exact ⟨trivial, trivial⟩

theorem render_result_witness :
    PDFRenderer.render sampleEnvironment 0 ⟨0, 0, 1, 1⟩ 7 =
      ([⟨RenderErrorType.Error, "Page 8 doesn't exist."⟩], 0) ∧
    PDFRenderer.renderWithMatrix sampleEnvironment 0 () 1 =
      ([⟨RenderErrorType.Error, "Page 2 doesn't exist."⟩], 0) ∧
    PDFRenderer.render sampleEnvironment 0 ⟨0, 0, 1, 1⟩ 0 =
      ([⟨RenderErrorType.other 1, "Not implemented."⟩], 1) :=
  ⟨((render_result sampleEnvironment 0 ⟨0, 0, 1, 1⟩ () 7).1 (Or.inl (by decide))).1,
    ((render_result sampleEnvironment 0 ⟨0, 0, 1, 1⟩ () 1).1 (Or.inr rfl)).2.1,
    ((render_result sampleEnvironment 0 ⟨0, 0, 1, 1⟩ () 0).2 (blankPage ⟨0, 0, 612, 792⟩)
      (by decide) rfl).1⟩

/-! ### Page trees given by the object graph alone -/

/-- When every kid has one parent among the nodes reachable from the root and the root is
nobody's kid, no reachable node is its own descendant. -/
theorem isKid_no_cycle {document : PDFDocument} {root : PDFObject}
    (hroot : ∀ node, Relation.ReflTransGen document.IsKid root node →
      ¬ document.IsKid node root)
    (hparent : ∀ a b kid, Relation.ReflTransGen document.IsKid root a →
      Relation.ReflTransGen document.IsKid root b →
      document.IsKid a kid → document.IsKid b kid → a = b) :
    ∀ node, Relation.ReflTransGen document.IsKid root node →
      ¬ Relation.TransGen document.IsKid node node := by
  intro node hreach
  induction hreach with
  | refl =>
    intro hc
    obtain ⟨x, hx, hk⟩ := Relation.TransGen.tail'_iff.mp hc
    exact hroot x hx hk
  | tail hp hk ih =>
    intro hc
    obtain ⟨x, hx, hxk⟩ := Relation.TransGen.tail'_iff.mp hc
    have hxr : Relation.ReflTransGen document.IsKid root x := (hp.tail hk).trans hx
    have hxp := hparent x _ _ hxr hp hxk hk
    subst hxp
    exact ih (Relation.TransGen.head' hk hx)

/-- Under the same conditions two different kids of a reachable node have no descendant in
common. -/
theorem isKid_siblings_disjoint {document : PDFDocument} {root : PDFObject}
    (hroot : ∀ node, Relation.ReflTransGen document.IsKid root node →
      ¬ document.IsKid node root)
    (hparent : ∀ a b kid, Relation.ReflTransGen document.IsKid root a →
      Relation.ReflTransGen document.IsKid root b →
      document.IsKid a kid → document.IsKid b kid → a = b)
    {node a b : PDFObject} (hnode : Relation.ReflTransGen document.IsKid root node)
    (ha : document.IsKid node a) (hb : document.IsKid node b) (hab : a ≠ b) :
    ∀ m, Relation.ReflTransGen document.IsKid a m →
      Relation.ReflTransGen document.IsKid b m → False := by
  have hcyc := isKid_no_cycle hroot hparent
  intro m ham
  induction ham with
  | refl =>
    intro hba
    rcases Relation.ReflTransGen.cases_tail hba with h | ⟨x, hx, hxa⟩
    · exact hab h
    · have hxr : Relation.ReflTransGen document.IsKid root x := (hnode.tail hb).trans hx
      have hxn := hparent x node _ hxr hnode hxa ha
      subst hxn
      exact hcyc _ hnode (Relation.TransGen.head' hb hx)
  | tail hap hpm ih =>
    intro hbm
    rename_i p m
    have hpr : Relation.ReflTransGen document.IsKid root p := (hnode.tail ha).trans hap
    rcases Relation.ReflTransGen.cases_tail hbm with h | ⟨q, hq, hqm⟩
    · subst h
      have hpn := hparent p node _ hpr hnode hpm hb
      subst hpn
      exact hcyc _ hnode (Relation.TransGen.head' ha hap)
    · have hqr : Relation.ReflTransGen document.IsKid root q := (hnode.tail hb).trans hq
      have hqp := hparent q p _ hqr hpr hqm hpm
      subst hqp
      exact ih hq

/-- Every reference in the visited set after a walk that returned normally was in the set
before, or is a `Kids` entry of a node reachable from the walked node. -/
theorem parseImpl_visited_bound (document : PDFDocument) (fuel : Nat) :
    ∀ pages visited attributes node pages1 visited1,
      PDFPage.parseImpl document fuel pages visited attributes node =
          ParseOutcome.done pages1 visited1 →
      ∀ x ∈ visited1, x ∈ visited ∨
        ∃ m, Relation.ReflTransGen document.IsKid node m ∧
          document.IsKid m (PDFObject.reference x) := by
  induction fuel with
  | zero =>
    intro pages visited attributes node pages1 visited1 h
    simp [PDFPage.parseImpl] at h
  | succ fuel ih =>
    intro pages visited attributes node pages1 visited1 h
    rw [parseImpl_succ] at h
    split at h
    · rename_i entries hnode
      split at h
      · rename_i typeString htype
        split at h
        · simp at h
        · rename_i current hparse
          split at h
          · rename_i hpages
            subst hpages
            split at h
            · rename_i kidsArray hkids
              have loop : ∀ (items : List PDFObject),
                  (∀ k ∈ items, document.IsKid node k) →
                  ∀ (p : List PDFPage) (v : List PDFObjectReference) (p1 : List PDFPage)
                    (v1 : List PDFObjectReference),
                  PDFPage.parseKids
                    (fun pages1 visited1 kid =>
                      PDFPage.parseImpl document fuel pages1 visited1 current kid)
                    p v items = ParseOutcome.done p1 v1 →
                  ∀ x ∈ v1, x ∈ v ∨
                    ∃ m, Relation.ReflTransGen document.IsKid node m ∧
                      document.IsKid m (PDFObject.reference x) := by
                intro items
                induction items with
                | nil =>
                  intro _ p v p1 v1 hk x hx
                  simp only [PDFPage.parseKids, ParseOutcome.done.injEq] at hk
                  obtain ⟨-, rfl⟩ := hk
                  exact Or.inl hx
                | cons kid rest ihr =>
                  intro hsub p v p1 v1 hk x hx
                  cases kid with
                  | reference r =>
                    simp only [PDFPage.parseKids] at hk
                    by_cases hm : r ∈ v
                    · simp [hm] at hk
                    · simp only [hm, if_false] at hk
                      have hkid := hsub _ (List.mem_cons_self _ _)
                      cases hd : PDFPage.parseImpl document fuel p (r :: v) current
                          (PDFObject.reference r) with
                      | done p2 v2 =>
                        rw [hd] at hk
                        rcases ihr (fun k hk1 => hsub k (List.mem_cons_of_mem _ hk1))
                          _ _ _ _ hk x hx with h2 | h2
                        · rcases ih _ _ _ _ _ _ hd x h2 with h3 | ⟨m, hm1, hm2⟩
                          · rcases List.mem_cons.mp h3 with rfl | h4
                            · exact Or.inr ⟨node, Relation.ReflTransGen.refl, hkid⟩
                            · exact Or.inl h4
                          · exact Or.inr ⟨m, Relation.ReflTransGen.head hkid hm1, hm2⟩
                        · exact Or.inr h2
                      | thrown e p2 v2 => rw [hd] at hk; simp at hk
                      | outOfFuel => rw [hd] at hk; simp at hk
                  | _ => simp [PDFPage.parseKids] at hk
              exact loop kidsArray
                (fun k hk => ⟨entries, kidsArray, hnode, htype, hkids, hk⟩) _ _ _ _ h
            · simp at h
          · split at h
            · simp only [ParseOutcome.done.injEq] at h
              obtain ⟨-, rfl⟩ := h
              intro x hx
              exact Or.inl hx
            · simp at h
      · simp at h
    · simp at h

/-- The only exception the attribute resolver throws is the rotation error. -/
theorem attributes_parse_error_eq {attributes : PDFPageInheritableAttributes}
    {node : PDFObject} {document : PDFDocument} {exception : PDFParserException}
    (h : PDFPageInheritableAttributes.parse attributes node document =
      Except.error exception) :
    exception = PDFParserException.invalidPageRotation := by
  unfold PDFPageInheritableAttributes.parse at h
  simp only [] at h
  split at h
  · split at h
    · split at h
      · simp at h
      · rename_i e he
        simp only [Except.error.injEq] at h
        subst h
        unfold rotationFromInteger at he
        split_ifs at he
        simp only [Except.error.injEq] at he
        exact he.symm
    · simp at h
  · simp at h

/-- In a graph in which every kid has one parent among the nodes reachable from the root, no
`Kids` array repeats an entry and the root is nobody's kid, a walk that starts at a reachable
node with a visited set holding no `Kids` entry of its descendants never throws the cycle
exception. -/
theorem parseImpl_tree_no_cycle_exception {document : PDFDocument} {root : PDFObject}
    (hroot : ∀ node, Relation.ReflTransGen document.IsKid root node →
      ¬ document.IsKid node root)
    (hparent : ∀ a b kid, Relation.ReflTransGen document.IsKid root a →
      Relation.ReflTransGen document.IsKid root b →
      document.IsKid a kid → document.IsKid b kid → a = b)
    (hnodup : ∀ node, Relation.ReflTransGen document.IsKid root node →
      (document.kidsOf node).Nodup)
    (fuel : Nat) :
    ∀ pages visited attributes node,
      Relation.ReflTransGen document.IsKid root node →
      (∀ m, Relation.ReflTransGen document.IsKid node m →
        ∀ k, document.IsKid m (PDFObject.reference k) → k ∉ visited) →
      ∀ p v, PDFPage.parseImpl document fuel pages visited attributes node ≠
        ParseOutcome.thrown PDFParserException.detectedCycles p v := by
  have hcyc := isKid_no_cycle hroot hparent
  induction fuel with
  | zero =>
    intro pages visited attributes node _ _ p v h
    simp [PDFPage.parseImpl] at h
  | succ fuel ih =>
    intro pages visited attributes node hreach hfresh p0 v0 h
    rw [parseImpl_succ] at h
    split at h
    · rename_i entries hnode
      split at h
      · rename_i typeString htype
        split at h
        · rename_i e hparse
          simp only [ParseOutcome.thrown.injEq] at h
          obtain ⟨he, -, -⟩ := h
          subst he
          exact absurd (attributes_parse_error_eq hparse) (by simp)
        · rename_i current hparse
          split at h
          · rename_i hpages
            subst hpages
            split at h
            · rename_i kidsArray hkids
              have hkidsOf : document.kidsOf node = kidsArray := by
                unfold PDFDocument.kidsOf
                simp only [hnode, htype, hkids, if_true]
              have hisKid : ∀ k ∈ kidsArray, document.IsKid node k :=
                fun k hk => ⟨entries, kidsArray, hnode, htype, hkids, hk⟩
              have hnd := hnodup node hreach
              rw [hkidsOf] at hnd
              have loop : ∀ (rest pre : List PDFObject), kidsArray = pre ++ rest →
                  ∀ (p : List PDFPage) (w : List PDFObjectReference),
                  (∀ x ∈ w, x ∈ visited ∨ PDFObject.reference x ∈ pre ∨
                    ∃ j ∈ pre, ∃ m, Relation.ReflTransGen document.IsKid j m ∧
                      document.IsKid m (PDFObject.reference x)) →
                  ∀ p1 v1, PDFPage.parseKids
                    (fun pages1 visited1 kid =>
                      PDFPage.parseImpl document fuel pages1 visited1 current kid)
                    p w rest ≠
                    ParseOutcome.thrown PDFParserException.detectedCycles p1 v1 := by
                intro rest
                induction rest with
                | nil =>
                  intro pre _ p w _ p1 v1 hk
                  simp [PDFPage.parseKids] at hk
                | cons kid rest ihr =>
                  intro pre hsplit p w hinv p1 v1 hk
                  cases kid with
                  | reference r =>
                    have hkid : document.IsKid node (PDFObject.reference r) :=
                      hisKid _ (by rw [hsplit]; simp)
                    have hkr : Relation.ReflTransGen document.IsKid root
                        (PDFObject.reference r) := hreach.tail hkid
                    have hpre : ∀ j ∈ pre, document.IsKid node j ∧
                        j ≠ PDFObject.reference r := by
                      intro j hj
                      refine ⟨hisKid _ (by rw [hsplit]; simp [hj]), ?_⟩
                      rintro rfl
                      rw [hsplit] at hnd
                      have := (List.nodup_append.mp hnd).2.2
                      exact this hj (List.mem_cons_self _ _)
                    -- a way from the kid back up to the node is a cycle
                    have hback : ∀ j, document.IsKid node j →
                        ¬ Relation.ReflTransGen document.IsKid j node := by
                      intro j hj hjn
                      exact hcyc node hreach (Relation.TransGen.head' hj hjn)
                    have hnew : r ∉ w := by
                      intro hrw
                      rcases hinv r hrw with h1 | h1 | ⟨j, hj, m, hjm, hmr⟩
                      · exact hfresh node Relation.ReflTransGen.refl r hkid h1
                      · exact (hpre _ h1).2 rfl
                      · have hjk := (hpre j hj).1
                        have hmn := hparent m node _ ((hreach.tail hjk).trans hjm) hreach
                          hmr hkid
                        subst hmn
                        exact hback j hjk hjm
                    simp only [PDFPage.parseKids, hnew, if_false] at hk
                    cases hd : PDFPage.parseImpl document fuel p (r :: w) current
                        (PDFObject.reference r) with
                    | done p2 v2 =>
                      rw [hd] at hk
                      refine ihr (pre ++ [PDFObject.reference r])
                        (by rw [hsplit]; simp) p2 v2 ?_ p1 v1 hk
                      intro x hx
                      rcases parseImpl_visited_bound document fuel _ _ _ _ _ _ hd x hx
                        with h1 | ⟨m, hm1, hm2⟩
                      · rcases List.mem_cons.mp h1 with rfl | h2
                        · exact Or.inr (Or.inl (by simp))
                        · rcases hinv x h2 with h3 | h3 | ⟨j, hj, m, hjm, hmx⟩
                          · exact Or.inl h3
                          · exact Or.inr (Or.inl (by simp [h3]))
                          · exact Or.inr (Or.inr ⟨j, by simp [hj], m, hjm, hmx⟩)
                      · exact Or.inr (Or.inr ⟨_, by simp, m, hm1, hm2⟩)
                    | thrown e p2 v2 =>
                      rw [hd] at hk
                      simp only [ParseOutcome.thrown.injEq] at hk
                      obtain ⟨he, -, -⟩ := hk
                      subst he
                      refine ih p (r :: w) current (PDFObject.reference r) hkr ?_ _ _ hd
                      intro m hrm k hmk hkw
                      have hmr : Relation.ReflTransGen document.IsKid root m := hkr.trans hrm
                      rcases List.mem_cons.mp hkw with rfl | hkw
                      · have hmn := hparent m node _ hmr hreach hmk hkid
                        subst hmn
                        exact hback _ hkid hrm
                      · rcases hinv k hkw with h1 | h1 | ⟨j, hj, m1, hjm, hmx⟩
                        · exact hfresh m (Relation.ReflTransGen.head hkid hrm) k hmk h1
                        · have hmn := hparent m node _ hmr hreach hmk (hpre _ h1).1
                          subst hmn
                          exact hback _ hkid hrm
                        · have hjk := (hpre j hj).1
                          have hmm := hparent m1 m _ ((hreach.tail hjk).trans hjm) hmr
                            hmx hmk
                          subst hmm
                          exact isKid_siblings_disjoint hroot hparent hreach hjk hkid
                            (hpre j hj).2 _ hjm hrm
                    | outOfFuel => rw [hd] at hk; simp at hk
                  | _ => simp [PDFPage.parseKids] at hk
              exact loop kidsArray [] rfl pages visited (fun x hx => Or.inl hx) _ _ h
            · simp at h
          · split at h
            · simp at h
            · simp at h
      · simp at h
    · simp at h

/-! ### The leaves of a shape are the reachable `Page` nodes -/

theorem leafNodes_length (tree : PageTree) :
    ∀ node, (tree.leafNodes node).length = tree.leafCount := by
  induction tree using PageTree.induct with
  | page => intro node; rfl
  | pages kids ih =>
    intro node
    simp only [PageTree.leafNodes, PageTree.leafCount]
    induction kids with
    | nil => rfl
    | cons kid rest ihr =>
      simp only [PageTree.leafNodes.kidsLeafNodes, PageTree.leafCount.kidsLeafCount,
        List.length_append]
      rw [ih kid (List.mem_cons_self _ _), ihr (fun k hk => ih k (List.mem_cons_of_mem _ hk))]

/-- The leaves below a `Pages` node are references taken, in order, from the references of
its `Kids` arrays. -/
theorem leafNodes_sublist (tree : PageTree) :
    ∀ node, (tree = PageTree.page ∧ tree.leafNodes node = [node]) ∨
      ∃ references : List PDFObjectReference, references.Sublist tree.kidReferences ∧
        tree.leafNodes node = references.map PDFObject.reference := by
  induction tree using PageTree.induct with
  | page => intro node; exact Or.inl ⟨rfl, rfl⟩
  | pages kids ih =>
    intro node
    right
    simp only [PageTree.leafNodes, PageTree.kidReferences]
    induction kids with
    | nil => exact ⟨[], List.Sublist.refl _, rfl⟩
    | cons kid rest ihr =>
      obtain ⟨restRefs, hsub, heq⟩ := ihr (fun k hk => ih k (List.mem_cons_of_mem _ hk))
      simp only [PageTree.leafNodes.kidsLeafNodes, PageTree.kidReferences.kidsReferences]
      rcases ih kid (List.mem_cons_self _ _) (PDFObject.reference kid.1) with
        ⟨-, hleaf⟩ | ⟨kidRefs, hksub, hkeq⟩
      · refine ⟨kid.1 :: restRefs, ?_, ?_⟩
        · exact List.Sublist.cons₂ _ ((List.sublist_append_of_sublist_right hsub))
        · rw [hleaf, heq]; rfl
      · refine ⟨kidRefs ++ restRefs, ?_, ?_⟩
        · exact List.Sublist.cons _ (List.Sublist.append hksub hsub)
        · rw [hkeq, heq, List.map_append]

theorem leafNodes_nodup {tree : PageTree} (h : tree.kidReferences.Nodup) (node : PDFObject) :
    (tree.leafNodes node).Nodup := by
  rcases leafNodes_sublist tree node with ⟨-, hleaf⟩ | ⟨references, hsub, heq⟩
  · rw [hleaf]; simp
  · rw [heq]
    refine List.Nodup.map ?_ (hsub.nodup h)
    intro a b hab
    cases hab
    rfl

/-- A `Page` leaf has no kids. -/
theorem not_isKid_of_isPageLeaf {document : PDFDocument} {node kid : PDFObject}
    (h : document.IsPageLeaf node) : ¬ document.IsKid node kid := by
  rintro ⟨dictionary, kids, hn, ht, -, -⟩
  obtain ⟨dictionary1, hn1, ht1⟩ := h
  rw [hn] at hn1
  cases hn1
  rw [ht] at ht1
  simp at ht1

/-- Over a described shape, the leaves of the shape are exactly the `Page` leaves reachable
from the node. -/
theorem mem_leafNodes_iff (document : PDFDocument) (tree : PageTree) :
    ∀ node, tree.Describes document node →
      ∀ leaf, leaf ∈ tree.leafNodes node ↔
        Relation.ReflTransGen document.IsKid node leaf ∧ document.IsPageLeaf leaf := by
  induction tree using PageTree.induct with
  | page =>
    intro node hd leaf
    obtain ⟨dictionary, hn, ht, -⟩ := hd
    have hleaf : document.IsPageLeaf node := ⟨dictionary, hn, ht⟩
    simp only [PageTree.leafNodes, List.mem_singleton]
    constructor
    · rintro rfl
      exact ⟨Relation.ReflTransGen.refl, hleaf⟩
    · rintro ⟨hreach, -⟩
      rcases Relation.ReflTransGen.cases_head hreach with h | ⟨kid, hk, -⟩
      · exact h.symm
      · exact absurd hk (not_isKid_of_isPageLeaf hleaf)
  | pages kids ih =>
    intro node hd leaf
    obtain ⟨⟨dictionary, hn, ht, -, hkids⟩, hkd⟩ := hd
    have hmem : ∀ items : List (PDFObjectReference × PageTree),
        (∀ kid ∈ items, kid ∈ kids) →
        PageTree.Describes.kidsDescribed document items →
        (leaf ∈ PageTree.leafNodes.kidsLeafNodes items ↔
          ∃ kid ∈ items, Relation.ReflTransGen document.IsKid (PDFObject.reference kid.1) leaf ∧
            document.IsPageLeaf leaf) := by
      intro items
      induction items with
      | nil => intro _ _; simp [PageTree.leafNodes.kidsLeafNodes]
      | cons kid rest ihr =>
        intro hsub hdesc
        obtain ⟨hdk, hdr⟩ := hdesc
        simp only [PageTree.leafNodes.kidsLeafNodes, List.mem_append]
        rw [ih kid (hsub kid (List.mem_cons_self _ _)) _ hdk leaf,
          ihr (fun k hk => hsub k (List.mem_cons_of_mem _ hk)) hdr]
        simp
    simp only [PageTree.leafNodes]
    rw [hmem kids (fun _ h => h) hkd]
    constructor
    · rintro ⟨kid, hk, hreach, hleaf⟩
      refine ⟨Relation.ReflTransGen.head ?_ hreach, hleaf⟩
      refine ⟨dictionary, _, hn, ht, hkids, ?_⟩
      exact List.mem_map_of_mem (fun kid : PDFObjectReference × PageTree =>
        PDFObject.reference kid.1) hk
    · rintro ⟨hreach, hleaf⟩
      rcases Relation.ReflTransGen.cases_head hreach with h | ⟨kid, hk, hrest⟩
      · subst h
        obtain ⟨dictionary1, hn1, ht1⟩ := hleaf
        rw [hn] at hn1
        cases hn1
        rw [ht] at ht1
        simp at ht1
      · obtain ⟨dictionary1, kids1, hn1, -, hk1, hm1⟩ := hk
        rw [hn] at hn1
        cases hn1
        rw [hkids] at hk1
        cases hk1
        obtain ⟨item, hitem, rfl⟩ := List.mem_map.mp hm1
        exact ⟨item, hitem, hrest, hleaf⟩

theorem isKid_unique_parent {document : PDFDocument} {root : PDFObject}
    (hunique : ∀ (a b : PDFObject) (i j : Nat) (kid : PDFObject), Relation.ReflTransGen document.IsKid root a →
      Relation.ReflTransGen document.IsKid root b →
      (document.kidsOf a)[i]? = some kid → (document.kidsOf b)[j]? = some kid →
      a = b ∧ i = j) :
    (∀ a b kid, Relation.ReflTransGen document.IsKid root a →
      Relation.ReflTransGen document.IsKid root b →
      document.IsKid a kid → document.IsKid b kid → a = b) ∧
    (∀ node, Relation.ReflTransGen document.IsKid root node →
      (document.kidsOf node).Nodup) := by
  constructor
  · intro a b kid ha hb hak hbk
    rw [isKid_iff_mem_kidsOf] at hak hbk
    obtain ⟨i, hi⟩ := List.mem_iff_getElem?.mp hak
    obtain ⟨j, hj⟩ := List.mem_iff_getElem?.mp hbk
    exact (hunique a b i j kid ha hb hi hj).1
  · intro node hn
    rw [List.nodup_iff_getElem?_ne_getElem?]
    intro i j hij hj heq
    have hi : i < (document.kidsOf node).length := by omega
    have h1 : (document.kidsOf node)[i]? = some ((document.kidsOf node)[i]) :=
      List.getElem?_eq_getElem hi
    have h2 : (document.kidsOf node)[j]? = some ((document.kidsOf node)[i]) := by
      rw [← heq, h1]
    have := (hunique node node i j _ hn hn h1 h2).2
    omega

/-- C1, amended: for every page tree in which every node reachable from the root is a
dictionary whose `Type` is the name `Pages` or `Page`, every `Kids` entry is an array of
references, every `Rotate` value is accepted by the attribute resolver (a non-negative
multiple of 90 or a negative multiple of 360), no reference occurs more than once among all
`Kids` entries, and the root itself is not an entry of any `Kids` array, `PDFPage::parse`
succeeds and returns as many pages as there are `Page` leaf nodes reachable from the root:
the `Page` leaves reachable from the root form a list without repetitions of the same length
as the page list. -/
theorem parse_page_count (document : PDFDocument) (root : PDFObject)
    (hsound : ∀ reached, Relation.ReflTransGen document.IsKid root reached →
      document.NodeSound reached)
    (hunique : ∀ (a b : PDFObject) (i j : Nat) (kid : PDFObject), Relation.ReflTransGen document.IsKid root a →
      Relation.ReflTransGen document.IsKid root b →
      (document.kidsOf a)[i]? = some kid → (document.kidsOf b)[j]? = some kid →
      a = b ∧ i = j)
    (hroot : ∀ node, Relation.ReflTransGen document.IsKid root node →
      ¬ document.IsKid node root) :
    ∃ (pages : List PDFPage) (leaves : List PDFObject),
      PDFPage.parse document root = some (Except.ok pages) ∧
      leaves.Nodup ∧
      (∀ node, node ∈ leaves ↔
        Relation.ReflTransGen document.IsKid root node ∧ document.IsPageLeaf node) ∧
      pages.length = leaves.length := by
  obtain ⟨hparent, hnodup⟩ := isKid_unique_parent hunique
  have hfuel := parseImpl_ne_outOfFuel document document.parseFuel [] []
    PDFPageInheritableAttributes.default root (unvisited_nil_le document)
  have hnocycle := parseImpl_tree_no_cycle_exception hroot hparent hnodup document.parseFuel
    [] [] PDFPageInheritableAttributes.default root Relation.ReflTransGen.refl
    (fun _ _ _ _ h => absurd h (List.not_mem_nil _))
  have hparse : ∃ pages, PDFPage.parse document root = some (Except.ok pages) := by
    unfold PDFPage.parse
    rcases parseImpl_sound_outcome document document.parseFuel [] []
      PDFPageInheritableAttributes.default root hsound with h | ⟨p, v, h⟩ | ⟨p, v, h⟩
    · exact absurd h hfuel
    · rw [h]; exact ⟨p, rfl⟩
    · exact absurd h (hnocycle p v)
  obtain ⟨pages, hp⟩ := hparse
  obtain ⟨tree, hwf, hpages⟩ := parse_ok_wellFormed hp
  refine ⟨pages, tree.leafNodes root, hp, leafNodes_nodup hwf.2 root,
    mem_leafNodes_iff document tree root hwf.1, ?_⟩
  rw [hpages, leafNodes_length]
  simp [PageTree.pagesOf, leafPaths_length]

theorem selfKidDocument_reachable (node : PDFObject)
    (h : Relation.ReflTransGen selfKidDocument.IsKid (PDFObject.reference (ref 1)) node) :
    node = PDFObject.reference (ref 1) := by
  induction h with
  | refl => rfl
  | tail _ hkid ih =>
    rw [isKid_iff_mem_kidsOf] at hkid
    subst ih
    have hk : selfKidDocument.kidsOf (PDFObject.reference (ref 1)) =
        [PDFObject.reference (ref 1)] := rfl
    rw [hk] at hkid
    exact List.mem_singleton.mp hkid

/-- C1, as stated, fails: in `selfKidDocument` the only node reachable from the root is a
dictionary of type `Pages` whose `Kids` array holds one reference, there is no `Rotate`
value and no reference occurs more than once among the `Kids` entries, yet `parse` fails
with the cycle error: the one entry refers to the root, which the walk never puts into the
visited set, so the root is walked a second time and finds its entry visited.  And in
`minusNinetyDocument` the only `Rotate` value is -90, a multiple of 90, yet `parse` fails
with the rotation error. -/
theorem parse_self_kid_root_reports_cycle :
    (∀ reached,
      Relation.ReflTransGen selfKidDocument.IsKid (PDFObject.reference (ref 1)) reached →
      selfKidDocument.NodeSound reached) ∧
    (∀ (a b : PDFObject) (i j : Nat) (kid : PDFObject),
      Relation.ReflTransGen selfKidDocument.IsKid (PDFObject.reference (ref 1)) a →
      Relation.ReflTransGen selfKidDocument.IsKid (PDFObject.reference (ref 1)) b →
      (selfKidDocument.kidsOf a)[i]? = some kid → (selfKidDocument.kidsOf b)[j]? = some kid →
      a = b ∧ i = j) ∧
    selfKidDocument.kidsOf (PDFObject.reference (ref 1)) = [PDFObject.reference (ref 1)] ∧
    PDFPage.parse selfKidDocument (PDFObject.reference (ref 1)) =
      some (Except.error PDFParserException.detectedCycles) ∧
    minusNinetyDocument.readInteger
      ((minusNinetyDocument.dictionaryOf (PDFObject.reference (ref 2))).get "Rotate") 0 =
        -90 ∧
    (90 : Int) ∣ -90 ∧
    PDFPage.parse minusNinetyDocument (PDFObject.reference (ref 1)) =
      some (Except.error PDFParserException.invalidPageRotation) := by
  refine ⟨?_, ?_, rfl, rfl, rfl, by decide, rfl⟩
  · intro reached hr
    rw [selfKidDocument_reachable reached hr]
    exact ⟨_, rfl, fun h => absurd h (by decide), Or.inr ⟨rfl, [ref 1], rfl⟩⟩
  · intro a b i j kid ha hb hi hj
    rw [selfKidDocument_reachable a ha] at hi ⊢
    rw [selfKidDocument_reachable b hb] at hj ⊢
    have hk : selfKidDocument.kidsOf (PDFObject.reference (ref 1)) =
        [PDFObject.reference (ref 1)] := rfl
    rw [hk] at hi hj
    refine ⟨rfl, ?_⟩
    rcases i with _ | i
    · rcases j with _ | j
      · rfl
      · simp at hj
    · simp at hi

theorem sampleDocument_reachable (node : PDFObject)
    (h : Relation.ReflTransGen sampleDocument.IsKid (PDFObject.reference (ref 1)) node) :
    node = PDFObject.reference (ref 1) ∨ node = PDFObject.reference (ref 2) ∨
      node = PDFObject.reference (ref 3) ∨ node = PDFObject.reference (ref 4) ∨
      node = PDFObject.reference (ref 5) := by
  induction h with
  | refl => exact Or.inl rfl
  | tail _ hkid ih =>
    rw [isKid_iff_mem_kidsOf] at hkid
    rcases ih with rfl | rfl | rfl | rfl | rfl
    · have hk : sampleDocument.kidsOf (PDFObject.reference (ref 1)) =
          [PDFObject.reference (ref 2), PDFObject.reference (ref 3)] := rfl
      rw [hk] at hkid
      simp only [List.mem_cons, List.mem_singleton, List.not_mem_nil, or_false] at hkid
      rcases hkid with rfl | rfl
      · exact Or.inr (Or.inl rfl)
      · exact Or.inr (Or.inr (Or.inl rfl))
    · have hk : sampleDocument.kidsOf (PDFObject.reference (ref 2)) = [] := rfl
      rw [hk] at hkid
      exact absurd hkid (List.not_mem_nil _)
    · have hk : sampleDocument.kidsOf (PDFObject.reference (ref 3)) =
          [PDFObject.reference (ref 4), PDFObject.reference (ref 5)] := rfl
      rw [hk] at hkid
      simp only [List.mem_cons, List.mem_singleton, List.not_mem_nil, or_false] at hkid
      rcases hkid with rfl | rfl
      · exact Or.inr (Or.inr (Or.inr (Or.inl rfl)))
      · exact Or.inr (Or.inr (Or.inr (Or.inr rfl)))
    · have hk : sampleDocument.kidsOf (PDFObject.reference (ref 4)) = [] := rfl
      rw [hk] at hkid
      exact absurd hkid (List.not_mem_nil _)
    · have hk : sampleDocument.kidsOf (PDFObject.reference (ref 5)) = [] := rfl
      rw [hk] at hkid
      exact absurd hkid (List.not_mem_nil _)

theorem sampleDocument_sound (node : PDFObject)
    (h : Relation.ReflTransGen sampleDocument.IsKid (PDFObject.reference (ref 1)) node) :
    sampleDocument.NodeSound node := by
  rcases sampleDocument_reachable node h with rfl | rfl | rfl | rfl | rfl
  · exact ⟨_, rfl, fun _ => Or.inr (Or.inl rfl), Or.inr ⟨rfl, [ref 2, ref 3], rfl⟩⟩
  · exact ⟨_, rfl, fun h => absurd h (by decide), Or.inl rfl⟩
  · exact ⟨_, rfl, fun h => absurd h (by decide), Or.inr ⟨rfl, [ref 4, ref 5], rfl⟩⟩
  · exact ⟨_, rfl, fun _ => Or.inr (Or.inr (Or.inl rfl)), Or.inl rfl⟩
  · exact ⟨_, rfl, fun h => absurd h (by decide), Or.inl rfl⟩

theorem sampleDocument_kids_unique (a b : PDFObject) (i j : Nat) (kid : PDFObject)
    (ha : Relation.ReflTransGen sampleDocument.IsKid (PDFObject.reference (ref 1)) a)
    (hb : Relation.ReflTransGen sampleDocument.IsKid (PDFObject.reference (ref 1)) b)
    (hi : (sampleDocument.kidsOf a)[i]? = some kid)
    (hj : (sampleDocument.kidsOf b)[j]? = some kid) : a = b ∧ i = j := by
  have h1 : sampleDocument.kidsOf (PDFObject.reference (ref 1)) =
      [PDFObject.reference (ref 2), PDFObject.reference (ref 3)] := rfl
  have h2 : sampleDocument.kidsOf (PDFObject.reference (ref 2)) = [] := rfl
  have h3 : sampleDocument.kidsOf (PDFObject.reference (ref 3)) =
      [PDFObject.reference (ref 4), PDFObject.reference (ref 5)] := rfl
  have h4 : sampleDocument.kidsOf (PDFObject.reference (ref 4)) = [] := rfl
  have h5 : sampleDocument.kidsOf (PDFObject.reference (ref 5)) = [] := rfl
  rcases sampleDocument_reachable a ha with rfl | rfl | rfl | rfl | rfl <;>
    rcases sampleDocument_reachable b hb with rfl | rfl | rfl | rfl | rfl <;>
    simp only [h1, h2, h3, h4, h5, List.getElem?_nil] at hi hj <;>
    first
    | exact absurd hi (by simp)
    | exact absurd hj (by simp)
    | (rcases i with _ | _ | i <;> rcases j with _ | _ | j <;>
        simp [ref] at hi hj ⊢ <;> (subst hi; simp at hj))

theorem sampleDocument_root_not_kid (node : PDFObject)
    (h : Relation.ReflTransGen sampleDocument.IsKid (PDFObject.reference (ref 1)) node) :
    ¬ sampleDocument.IsKid node (PDFObject.reference (ref 1)) := by
  rw [isKid_iff_mem_kidsOf]
  have h1 : sampleDocument.kidsOf (PDFObject.reference (ref 1)) =
      [PDFObject.reference (ref 2), PDFObject.reference (ref 3)] := rfl
  have h2 : sampleDocument.kidsOf (PDFObject.reference (ref 2)) = [] := rfl
  have h3 : sampleDocument.kidsOf (PDFObject.reference (ref 3)) =
      [PDFObject.reference (ref 4), PDFObject.reference (ref 5)] := rfl
  have h4 : sampleDocument.kidsOf (PDFObject.reference (ref 4)) = [] := rfl
  have h5 : sampleDocument.kidsOf (PDFObject.reference (ref 5)) = [] := rfl
  rcases sampleDocument_reachable node h with rfl | rfl | rfl | rfl | rfl <;>
    simp only [h1, h2, h3, h4, h5] <;> simp [ref]

theorem parse_page_count_witness :
    (∀ reached,
      Relation.ReflTransGen sampleDocument.IsKid (PDFObject.reference (ref 1)) reached →
      sampleDocument.NodeSound reached) ∧
    (∀ (a b : PDFObject) (i j : Nat) (kid : PDFObject),
      Relation.ReflTransGen sampleDocument.IsKid (PDFObject.reference (ref 1)) a →
      Relation.ReflTransGen sampleDocument.IsKid (PDFObject.reference (ref 1)) b →
      (sampleDocument.kidsOf a)[i]? = some kid → (sampleDocument.kidsOf b)[j]? = some kid →
      a = b ∧ i = j) ∧
    (∀ node,
      Relation.ReflTransGen sampleDocument.IsKid (PDFObject.reference (ref 1)) node →
      ¬ sampleDocument.IsKid node (PDFObject.reference (ref 1))) ∧
    ∃ (pages : List PDFPage) (leaves : List PDFObject),
      PDFPage.parse sampleDocument (PDFObject.reference (ref 1)) = some (Except.ok pages) ∧
      leaves.Nodup ∧
      (∀ node, node ∈ leaves ↔
        Relation.ReflTransGen sampleDocument.IsKid (PDFObject.reference (ref 1)) node ∧
          sampleDocument.IsPageLeaf node) ∧
      pages.length = leaves.length :=
  ⟨sampleDocument_sound, sampleDocument_kids_unique, sampleDocument_root_not_kid,
    parse_page_count sampleDocument (PDFObject.reference (ref 1)) sampleDocument_sound
      sampleDocument_kids_unique sampleDocument_root_not_kid⟩

end pdf
